import Mathlib

/-!
# TinyHttp (`httpd.c`): request reading, parsing, validation and relaying

Shallow embedding of the request-handling functions of `httpd.c`.

* A byte is a natural number below 256; a C `char` array is a `List Nat` of the
  array's size, written with `List.set`.
* A connection is the list of bytes the peer sends before it closes; `recv`
  of one byte takes the head of that list and reports "no data" on `[]`.
* A C string stored in an array is the part of the array before its first
  NUL byte (`cstr`).
* A write that does not fit the destination array (`sprintf`, `strcat`) has no
  defined result: the functions doing it return `Option`.
-/

namespace TinyHttp

/-! ## C library primitives -/

/-- Bytes of a string literal. -/
def bytes (s : String) : List Nat := s.toList.map Char.toNat

/-- The `isspace` of the "C" locale: space, `\t`, `\n`, `\v`, `\f`, `\r`; no byte
above 127 is white space. -/
def isspace (c : Nat) : Bool := c == 32 || (9 ≤ c && c ≤ 13)

/-- The `tolower` of the "C" locale. -/
def tolower (c : Nat) : Nat := if 65 ≤ c ∧ c ≤ 90 then c + 32 else c

/-- The C string held in an array: the bytes before the first NUL. -/
def cstr (a : List Nat) : List Nat := a.takeWhile (fun b => b != 0)

/-- The C `strlen`. -/
def strlen (a : List Nat) : Nat := (cstr a).length

/-- The C `strcmp` on arrays holding C strings (the end of the list reads as NUL). -/
def strcmp : List Nat → List Nat → Int
  | [], [] => 0
  | [], b :: _ => 0 - (b : Int)
  | a :: _, [] => (a : Int)
  | a :: as, b :: bs =>
    if a ≠ b then (a : Int) - (b : Int)
    else if a = 0 then 0
    else strcmp as bs

/-- The C `strcasecmp` on arrays holding C strings (the end of the list reads as NUL). -/
def strcasecmp : List Nat → List Nat → Int
  | [], [] => 0
  | [], b :: _ => 0 - (tolower b : Int)
  | a :: _, [] => (tolower a : Int)
  | a :: as, b :: bs =>
    if tolower a ≠ tolower b then (tolower a : Int) - (tolower b : Int)
    else if a = 0 then 0
    else strcasecmp as bs

/-! ## Line reader -/

/-- The `while` loop of `httpd_get_line_message` (lines 169-195), by recursion on
the bytes still to arrive. State: the buffer, the index `i` and the last byte `c`.
On an exhausted connection `recv` returns no data, `c` becomes `\n` and the loop
ends with the buffer and `i` unchanged. -/
def httpd_get_line_loop (size : Nat) : List Nat → List Nat → Nat → Nat → List Nat × Nat × List Nat
  | [], buf, i, _ => (buf, i, [])
  | b :: rest, buf, i, c =>
    if i < size - 1 ∧ c ≠ 10 then
      if b = 13 then
        match rest with
        | [] => httpd_get_line_loop size [] (buf.set i 10) (i + 1) 10
        | d :: rest2 =>
          if d = 10 then httpd_get_line_loop size rest2 (buf.set i 10) (i + 1) 10
          else httpd_get_line_loop size (d :: rest2) (buf.set i 10) (i + 1) 10
      else httpd_get_line_loop size rest (buf.set i b) (i + 1) b
    else (buf, i, b :: rest)

/-- Model of `httpd_get_line_message(sock, buf, size)`: returns the buffer, the
returned length `i` and the bytes left unread on the connection. -/
def httpd_get_line_message (sock : List Nat) (buf : List Nat) (size : Nat) :
    List Nat × Nat × List Nat :=
  match httpd_get_line_loop size sock buf 0 0 with
  | (buf1, i, rest) => (buf1.set i 0, i, rest)

/-! ## Request-line parser -/

/-- The C struct `http_request_line_data_t`: `char method[10]`, `char path[255]`,
`char query_string[255]`, `int cgi`. The array fields hold the raw bytes. -/
structure http_request_line_data_t where
  method : List Nat
  path : List Nat
  query_string : List Nat
  cgi : Int
  deriving DecidableEq, Repr

/-- The C struct `http_request_data_t`. -/
structure http_request_data_t where
  req_line_data : http_request_line_data_t
  content_length : Int
  deriving DecidableEq, Repr

/-- The record after `memset(&http_data, 0x00, sizeof(http_data))` (line 705). -/
def zeroed_line_data : http_request_line_data_t :=
  { method := List.replicate 10 0, path := List.replicate 255 0,
    query_string := List.replicate 255 0, cgi := 0 }

/-- The zeroed `http_request_data_t` of line 705. -/
def zeroed_data : http_request_data_t :=
  { req_line_data := zeroed_line_data, content_length := 0 }

/-- Copy of the bytes `s` into the array `dst` from index `off` on. -/
def blit (dst : List Nat) (off : Nat) (s : List Nat) : List Nat :=
  dst.take off ++ s ++ dst.drop (off + s.length)

/-- Copy of `s` into `dst` from index `off` on; there is no result when the
copy would run past the end of `dst`. -/
def store (dst : List Nat) (off : Nat) (s : List Nat) : Option (List Nat) :=
  if off + s.length ≤ dst.length then some (blit dst off s) else none

/-- The call `sprintf(dst, "<prefix>%s", src)`: the prefix, the C string in `src`
and the terminating NUL are written from `dst[0]` on. -/
def sprintf (dst : List Nat) (pre : List Nat) (src : List Nat) : Option (List Nat) :=
  store dst 0 (pre ++ cstr src ++ [0])

/-- The call `strcat(dst, src)`: the C string in `src` and a NUL are written from
`dst[strlen(dst)]` on. -/
def strcat (dst : List Nat) (src : List Nat) : Option (List Nat) :=
  store dst (strlen dst) (cstr src ++ [0])

/-- The first loop of `httpd_request_line_analyze` (lines 225-230): copies
`buf[j]` to `method[i]` while it is not white space and `i < sizeof(method) - 1`.
The fuel bounds the number of iterations. -/
def scan_method (buf : List Nat) : Nat → List Nat → Nat → Nat → List Nat × Nat × Nat
  | 0, method, i, j => (method, i, j)
  | fuel + 1, method, i, j =>
    if !isspace (buf.getD j 0) ∧ i < 10 - 1 then
      scan_method buf fuel (method.set i (buf.getD j 0)) (i + 1) (j + 1)
    else (method, i, j)

/-- The second loop (lines 235-238): skips white space while `j < sizeof(buf)`. -/
def skip_space (buf : List Nat) : Nat → Nat → Nat
  | 0, j => j
  | fuel + 1, j =>
    if isspace (buf.getD j 0) ∧ j < 1024 then skip_space buf fuel (j + 1) else j

/-- The third loop (lines 241-246): copies `buf[j]` to `url[i]` while it is not
white space, `i < sizeof(url) - 1` and `j < sizeof(buf)`. The byte read at
`j = sizeof(buf)` is taken as 0; the loop ends there whatever it is. -/
def scan_url (buf : List Nat) : Nat → List Nat → Nat → Nat → List Nat × Nat × Nat
  | 0, url, i, j => (url, i, j)
  | fuel + 1, url, i, j =>
    if !isspace (buf.getD j 0) ∧ i < 255 - 1 ∧ j < 1024 then
      scan_url buf fuel (url.set i (buf.getD j 0)) (i + 1) (j + 1)
    else (url, i, j)

/-- The pointer walk of lines 253-256: advances `q` while `url[q]` is neither
`?` nor NUL. -/
def scan_query (url : List Nat) : Nat → Nat → Nat
  | 0, q => q
  | fuel + 1, q =>
    if url.getD q 0 ≠ 63 ∧ url.getD q 0 ≠ 0 then scan_query url fuel (q + 1) else q

/-- Lines 225-247: the method and URL tokens of the line buffer, as the arrays
`method` (in the record) and `url` (local, zero-initialised, 255 bytes). -/
def request_line_tokens (buf : List Nat) (method : List Nat) : List Nat × List Nat :=
  match scan_method buf 9 method 0 0 with
  | (method1, i, j) =>
    let method2 := method1.set i 0
    let j2 := skip_space buf 1024 j
    match scan_url buf 254 (List.replicate 255 0) 0 j2 with
    | (url1, i2, _) => (method2, url1.set i2 0)

/-- Lines 249-274: the GET / POST branch. Returns the `url` array, the
`query_string` field and the `cgi` flag. -/
def request_line_branch (method url query_string : List Nat) (cgi : Int) :
    Option (List Nat × List Nat × Int) :=
  if strcasecmp method (bytes "GET") = 0 then
    let q := scan_query url 255 0
    if url.getD q 0 = 63 then
      match sprintf query_string [] (url.drop (q + 1)) with
      | some qs => some (url.set q 0, qs, 1)
      | none => none
    else some (url, query_string, cgi)
  else if strcasecmp method (bytes "POST") = 0 then some (url, query_string, 1)
  else some (url, query_string, cgi)

/-- Lines 277-284: `path` is formatted from `url`, and `index.html` is appended
when its last character is `/`. -/
def request_line_path (path url : List Nat) : Option (List Nat) :=
  match sprintf path (bytes "htdocs") url with
  | some path1 =>
    if path1.getD (strlen path1 - 1) 0 = 47 then strcat path1 (bytes "index.html")
    else some path1
  | none => none

/-- Lines 225-284 of `httpd_request_line_analyze`: the parse of the line buffer
into the record. -/
def request_line_parse (buf : List Nat) (req : http_request_line_data_t) :
    Option http_request_line_data_t :=
  match request_line_tokens buf req.method with
  | (method, url) =>
    match request_line_branch method url req.query_string req.cgi with
    | some (url1, qs, cgi) =>
      match request_line_path req.path url1 with
      | some path => some { method := method, path := path, query_string := qs, cgi := cgi }
      | none => none
    | none => none

/-- Model of `httpd_request_line_analyze(client_sock, req_line_data)`: reads one
line into a zero-initialised 1024-byte buffer and parses it. Returns the record
(none when a field is written past its end) and the unread bytes. -/
def httpd_request_line_analyze (client_sock : List Nat) (req : http_request_line_data_t) :
    Option http_request_line_data_t × List Nat :=
  match httpd_get_line_message client_sock (List.replicate 1024 0) 1024 with
  | (buf, _, rest) => (request_line_parse buf req, rest)

/-! ## Header scanner -/

/-- The digit loop of `atoi`. -/
def atoi_digits : List Nat → Int → Int
  | [], acc => acc
  | d :: ds, acc =>
    if 48 ≤ d ∧ d ≤ 57 then atoi_digits ds (acc * 10 + ((d : Int) - 48)) else acc

/-- The number `strtol(s, NULL, 10)` reads from an array holding a C string,
before any clamping: white space is skipped, an optional sign is read, then
decimal digits. -/
def strtol_value (s : List Nat) : Int :=
  match s.dropWhile isspace with
  | [] => 0
  | d :: ds =>
    if d = 45 then - atoi_digits ds 0
    else if d = 43 then atoi_digits ds 0
    else atoi_digits (d :: ds) 0

/-- The C `atoi` as glibc computes it where `long` has 64 bits and `int` 32,
`(int) strtol(s, NULL, 10)`: the number read is clamped to the range of `long`
and the conversion to `int` keeps its low 32 bits. (C itself leaves `atoi`
undefined when the number does not fit an `int`.) -/
def atoi (s : List Nat) : Int :=
  (max (-(2 ^ 63)) (min (2 ^ 63 - 1) (strtol_value s)) + 2 ^ 31) % 2 ^ 32 - 2 ^ 31

/-- The loop of lines 309-318 (method is POST). State: the connection, the
1024-byte buffer, `numchars` and `*content_length`. The fuel bounds the number
of iterations. -/
def header_loop_post : Nat → List Nat → List Nat → Nat → Int → Int × List Nat
  | 0, sock, _, _, cl => (cl, sock)
  | fuel + 1, sock, buf, numchars, cl =>
    if numchars > 0 ∧ strcmp (bytes "\n") buf ≠ 0 then
      let buf1 := buf.set 15 0
      let cl1 := if strcasecmp buf1 (bytes "Content-Length:") = 0 then atoi (buf1.drop 16) else cl
      match httpd_get_line_message sock buf1 1024 with
      | (buf2, n, rest) => header_loop_post fuel rest buf2 n cl1
    else (cl, sock)

/-- The loop of lines 322-325 (method is not POST). -/
def header_loop_other : Nat → List Nat → List Nat → Nat → List Nat
  | 0, sock, _, _ => sock
  | fuel + 1, sock, buf, numchars =>
    if numchars > 0 ∧ strcmp (bytes "\n") buf ≠ 0 then
      match httpd_get_line_message sock buf 1024 with
      | (buf2, n, rest) => header_loop_other fuel rest buf2 n
    else sock

/-- Model of `httpd_request_header_analyze(client_sock, method, content_length)`:
returns the new `*content_length` and the unread bytes. Every iteration of either
loop but the last takes at least one byte off the connection, so the number of
bytes plus two bounds the iterations. -/
def httpd_request_header_analyze (client_sock : List Nat) (method : List Nat)
    (content_length : Int) : Int × List Nat :=
  let buf := List.replicate 1024 0
  if strcasecmp method (bytes "POST") = 0 then
    match httpd_get_line_message client_sock buf 1024 with
    | (buf1, n, rest) => header_loop_post (rest.length + 2) rest buf1 n content_length
  else (content_length, header_loop_other (client_sock.length + 2) client_sock buf 1)

/-! ## Error responses and request validation -/

/-- The macro `SERVER_STRING`. -/
def SERVER_STRING : List Nat := bytes "Server: httpd/1.0.0\r\n"

/-- The call `sprintf(buf, literal)` into a local buffer that the literal fits. -/
def sprintf_lit (buf : List Nat) (lit : List Nat) : List Nat := blit buf 0 (lit ++ [0])

/-- One step `sprintf(buf, lit); send(client, buf, strlen(buf), 0);` -/
def send_str (st : List Nat × List Nat) (lit : List Nat) : List Nat × List Nat :=
  let buf := sprintf_lit st.1 lit
  (buf, st.2 ++ buf.take (strlen buf))

/-- One step `sprintf(buf, lit); send(client, buf, sizeof(buf), 0);` -/
def send_buf (st : List Nat × List Nat) (lit : List Nat) : List Nat × List Nat :=
  let buf := sprintf_lit st.1 lit
  (buf, st.2 ++ buf.take buf.length)

/-- Model of `httpd_request_method_error(client)`: `client` is the sequence of
bytes sent to the client so far; the result is that sequence afterwards. -/
def httpd_request_method_error (client : List Nat) : List Nat :=
  ([ bytes "HTTP/1.0 501 Method Not Implemented\r\n", SERVER_STRING,
     bytes "Content-Type: text/html\r\n", bytes "\r\n",
     bytes "<HTML><HEAD><TITLE>Method Not Implemented\r\n", bytes "</TITLE></HEAD>\r\n",
     bytes "<BODY><P>HTTP request method not supported.\r\n",
     bytes "</BODY></HTML>\r\n" ].foldl send_str (List.replicate 128 0, client)).2

/-- Model of `httpd_request_path_error(client)`. -/
def httpd_request_path_error (client : List Nat) : List Nat :=
  ([ bytes "HTTP/1.0 404 NOT FOUND\r\n", SERVER_STRING,
     bytes "Content-Type: text/html\r\n", bytes "\r\n",
     bytes "<HTML><TITLE>Not Found</TITLE>\r\n",
     bytes "<BODY><P>The server could not fulfill\r\n",
     bytes "your request because the resource specified\r\n",
     bytes "is unavailable or nonexistent.\r\n",
     bytes "</BODY></HTML>\r\n" ].foldl send_str (List.replicate 128 0, client)).2

/-- Model of `httpd_request_cannot_execute_error(client)`. -/
def httpd_request_cannot_execute_error (client : List Nat) : List Nat :=
  ([ bytes "HTTP/1.0 500 Internal Server Error\r\n", bytes "Content-type: text/html\r\n",
     bytes "\r\n", bytes "<P>Error prohibited CGI execution.\r\n"
   ].foldl send_str (List.replicate 128 0, client)).2

/-- Model of `httpd_request_bad_error(client)`: every `send` passes `sizeof(buf)`,
so each of the five calls sends the whole 128-byte buffer. -/
def httpd_request_bad_error (client : List Nat) : List Nat :=
  ([ bytes "HTTP/1.0 400 BAD REQUEST\r\n", bytes "Content-type: text/html\r\n",
     bytes "\r\n", bytes "<P>Your browser sent a bad request, ",
     bytes "such as a POST without a Content-Length.\r\n"
   ].foldl send_buf (List.replicate 128 0, client)).2

/-- Model of `httpd_request_error_deal(client, h_data)`. `debug` tells whether
`DEBUG` is defined; `stat` is the file system: it gives the `st_mode` of the
entry a path names, or none when `stat` fails. Returns the return value and the
bytes sent to the client. -/
def httpd_request_error_deal (debug : Bool) (stat : List Nat → Option Nat)
    (client : List Nat) (h_data : http_request_data_t) : Int × List Nat :=
  if strcasecmp h_data.req_line_data.method (bytes "GET") ≠ 0 ∧
     strcasecmp h_data.req_line_data.method (bytes "POST") ≠ 0 then
    (-1, httpd_request_method_error client)
  else
    match stat (cstr h_data.req_line_data.path) with
    | none => (-1, httpd_request_path_error client)
    | some st_mode =>
      if debug ∧ h_data.req_line_data.cgi = 1 ∧ st_mode &&& 0o111 ≠ 0 then
        (-1, httpd_request_cannot_execute_error client)
      else if strcasecmp h_data.req_line_data.method (bytes "POST") = 0 ∧
              h_data.content_length < 0 then
        (-1, httpd_request_bad_error client)
      else (0, client)

/-! ## Static file responder -/

/-- The read loop of `fgets` with room for `n` more characters: returns the
characters read, the rest of the file and whether end-of-file was hit. Reading
stops after a newline or when the room is used up; end-of-file is hit only when
a character is asked for and none is left. -/
def fgets_read : Nat → List Nat → List Nat × List Nat × Bool
  | 0, file => ([], file, false)
  | _ + 1, [] => ([], [], true)
  | n + 1, b :: file =>
    if b = 10 then ([b], file, false)
    else match fgets_read n file with
      | (l, r, e) => (b :: l, r, e)

/-- The call `fgets(buf, size, fp)` on the stream state `fp` (the bytes not yet
read and the end-of-file indicator): returns the buffer and the stream state.
The buffer is left alone when no character could be read. -/
def fgets (buf : List Nat) (size : Nat) (fp : List Nat × Bool) : List Nat × (List Nat × Bool) :=
  match fgets_read (size - 1) fp.1 with
  | (l, r, e) => (if l = [] ∧ e then buf else blit buf 0 (l ++ [0]), (r, fp.2 || e))

/-- The loop of lines 553-558: while `!feof(fp)`, send `strlen(buf)` bytes of
the buffer and call `fgets` again. The fuel bounds the number of iterations. -/
def send_file_loop : Nat → List Nat → List Nat × Bool → List Nat → List Nat
  | 0, _, _, client => client
  | fuel + 1, buf, fp, client =>
    if !fp.2 then
      match fgets buf 1024 fp with
      | (buf1, fp1) => send_file_loop fuel buf1 fp1 (client ++ buf.take (strlen buf))
    else client

/-- The loop of lines 553-558 on a stream every read of which fails: `fopen` of
a directory succeeds, and each `fgets` then fails without reaching end-of-file,
so `feof(fp)` stays false and the buffer is left alone. The loop sends
`strlen(buf)` bytes and goes on; it has no result within any number `fuel` of
iterations. -/
def send_file_loop_unreadable : Nat → List Nat → List Nat → Option (List Nat)
  | 0, _, _ => none
  | fuel + 1, buf, client =>
    send_file_loop_unreadable fuel buf (client ++ buf.take (strlen buf))

/-- Model of `httpd_send_file(client, filename)` on regular files: `fopen` gives
the contents of a regular file all of whose reads succeed, or none when the file
cannot be opened. Returns the bytes sent to the client. Every `fgets` that does
not hit end-of-file reads at least one byte, so the size of the file plus one
bounds the iterations. A stream that opens but cannot be read (a directory) is
outside this model: on it the loop does not end (`send_file_loop_unreadable`)
and the function does not return. -/
def httpd_send_file (fopen : List Nat → Option (List Nat)) (client : List Nat)
    (filename : List Nat) : List Nat :=
  match fopen (cstr filename) with
  | some file =>
    match fgets (List.replicate 1024 0) 1024 (file, false) with
    | (buf, fp) => send_file_loop (file.length + 1) buf fp client
  | none => httpd_request_path_error client

/-! ## CGI executor: the POST body relay -/

/-- The `for` loop of lines 660-667 in `httpd_execute_cgi`, run `n` times: one
byte is received from the client into `c` (which keeps its value when nothing
arrives) and `c` is written to the pipe `cgi_input[1]`. Returns the unread
bytes of the connection, `c` and the bytes written to the pipe. -/
def cgi_relay : Nat → List Nat → Nat → List Nat → List Nat × Nat × List Nat
  | 0, client, c, pipe => (client, c, pipe)
  | n + 1, [], c, pipe => cgi_relay n [] c (pipe ++ [c])
  | n + 1, b :: client, _, pipe => cgi_relay n client b (pipe ++ [b])

/-- Lines 658-668 of `httpd_execute_cgi`: the relay of the request body to the
subprocess, run when the method is POST, `content_length` times (not at all when
it is not positive). -/
def httpd_execute_cgi_relay (client : List Nat) (h_data : http_request_data_t) :
    List Nat × List Nat :=
  if strcasecmp h_data.req_line_data.method (bytes "POST") = 0 then
    match cgi_relay h_data.content_length.toNat client 0 [] with
    | (rest, _, pipe) => (rest, pipe)
  else (client, [])

/-! ## Connection handler: parse, scan, relay -/

/-- Lines 705-711 of `httpd_accept_client_request` followed by the relay of lines
658-668 of `httpd_execute_cgi`: the request line is parsed into the zeroed record,
the headers are scanned, and the body is relayed. Returns the unread bytes of the
connection and the bytes written to the pipe (none when the parse of the request
line has no defined result). -/
def request_then_relay (sock : List Nat) : Option (List Nat × List Nat) :=
  match httpd_request_line_analyze sock zeroed_line_data with
  | (some r, s1) =>
    match httpd_request_header_analyze s1 r.method zeroed_data.content_length with
    | (cl, s2) =>
      some (httpd_execute_cgi_relay s2 { req_line_data := r, content_length := cl })
  | (none, _) => none

/-! ## Definitions used to state the claims -/

/-- Case-insensitive equality of the C strings held in two arrays, in the spec's
words: the strings are equal once every letter is lowered. -/
def ci_eq (a b : List Nat) : Prop := (cstr a).map tolower = (cstr b).map tolower

instance (a b : List Nat) : Decidable (ci_eq a b) := by unfold ci_eq; infer_instance

/-- The 501 response, as the bytes on the wire. -/
def response_501 : List Nat :=
  bytes ("HTTP/1.0 501 Method Not Implemented\r\n" ++ "Server: httpd/1.0.0\r\n" ++
    "Content-Type: text/html\r\n" ++ "\r\n" ++
    "<HTML><HEAD><TITLE>Method Not Implemented\r\n" ++ "</TITLE></HEAD>\r\n" ++
    "<BODY><P>HTTP request method not supported.\r\n" ++ "</BODY></HTML>\r\n")

/-- The 404 response, as the bytes on the wire. -/
def response_404 : List Nat :=
  bytes ("HTTP/1.0 404 NOT FOUND\r\n" ++ "Server: httpd/1.0.0\r\n" ++
    "Content-Type: text/html\r\n" ++ "\r\n" ++
    "<HTML><TITLE>Not Found</TITLE>\r\n" ++ "<BODY><P>The server could not fulfill\r\n" ++
    "your request because the resource specified\r\n" ++
    "is unavailable or nonexistent.\r\n" ++ "</BODY></HTML>\r\n")

/-- The bytes the first loop of the parser copies from the line buffer: the
longest prefix free of white space, cut to 9 bytes. -/
def raw_method (buf : List Nat) : List Nat :=
  (buf.takeWhile (fun b => !isspace b)).take 9

/-- The bytes the third loop of the parser copies from the line buffer: after
the method bytes and the white space that follows them, the longest run free of
white space, cut to 254 bytes. -/
def raw_url (buf : List Nat) : List Nat :=
  ((((buf.drop (raw_method buf).length).dropWhile isspace).takeWhile
    (fun b => !isspace b)).take 254)

/-- The `url` string after the GET branch: cut at its first `?` when the method
is case-insensitively GET, unchanged otherwise. -/
def spec_url (method url : List Nat) : List Nat :=
  if ci_eq method (bytes "GET") then url.takeWhile (fun b => b != 63) else url

/-- The query string: what follows the first `?` of `url` when the method is
case-insensitively GET and `url` has a `?`; the prior value otherwise. -/
def spec_query (method url query0 : List Nat) : List Nat :=
  if ci_eq method (bytes "GET") ∧ 63 ∈ url then
    url.drop ((url.takeWhile (fun b => b != 63)).length + 1)
  else query0

/-- The CGI flag: 1 when the method is case-insensitively POST, or GET with a `?`
in `url`; the prior value otherwise. -/
def spec_cgi (method url : List Nat) (cgi0 : Int) : Int :=
  if ci_eq method (bytes "POST") ∨ (ci_eq method (bytes "GET") ∧ 63 ∈ url) then 1 else cgi0

/-- The path: the document root followed by `url`, and by the default document
when that ends in `/`. -/
def spec_path (url : List Nat) : List Nat :=
  if (bytes "htdocs" ++ url).getLast? = some 47 then bytes "htdocs" ++ url ++ bytes "index.html"
  else bytes "htdocs" ++ url

/-- The method field the parser stores: the bytes copied and the NUL. -/
def method_field (buf method0 : List Nat) : List Nat :=
  raw_method buf ++ 0 :: method0.drop ((raw_method buf).length + 1)

/-- The URL token of the line buffer before any cut: after the method bytes and
the white space that follows them, the longest run free of white space. -/
def url_token (buf : List Nat) : List Nat :=
  ((buf.drop (raw_method buf).length).dropWhile isspace).takeWhile (fun b => !isspace b)

/-- The line buffer `httpd_request_line_analyze` parses: what the line reader
leaves in a zeroed 1024-byte buffer. -/
def line_buffer (sock : List Nat) : List Nat :=
  (httpd_get_line_message sock (List.replicate 1024 0) 1024).1

/-- A line as it travels on the connection: its content, ended by `\r\n` (true)
or by `\n` (false). -/
def wire (l : List Nat × Bool) : List Nat := l.1 ++ (if l.2 then [13, 10] else [10])

/-- A sequence of lines on the connection. -/
def wires : List (List Nat × Bool) → List Nat
  | [] => []
  | l :: ls => wire l ++ wires ls

/-- A header line whose first 15 characters are case-insensitively
`Content-Length:`. -/
def is_content_length (h : List Nat) : Prop := ci_eq (h.take 15) (bytes "Content-Length:")

instance (h : List Nat) : Decidable (is_content_length h) := by
  unfold is_content_length; infer_instance

/-- The content length after a header line, in the spec's words: on a match, the
integer that starts two characters after the colon; the prior value otherwise. -/
def content_length_of (cl : Int) (h : List Nat) : Int :=
  if is_content_length h then atoi (h.drop 16) else cl

/-- The number a string of decimal digits denotes. -/
def decimal_value (ds : List Nat) : Nat := ds.foldl (fun a d => a * 10 + (d - 48)) 0

/-- A header line: not empty, free of CR and LF, shorter than 1023 bytes. -/
def header_line (h : List Nat) : Prop :=
  h ≠ [] ∧ (∀ b ∈ h, b ≠ 13 ∧ b ≠ 10) ∧ h.length < 1023

instance (h : List Nat) : Decidable (header_line h) := by
  unfold header_line; infer_instance


/-- The content length the header scanner computes, in closed form: what the
modelled `atoi` reads at index 16 of the last header line whose first 15
characters equal `Content-Length:` in any letter case, or the prior value `cl`
when no line matches. -/
def last_content_length (cl : Int) (hs : List (List Nat)) : Int :=
  match hs.reverse.find? (fun h => decide (is_content_length h)) with
  | some h => atoi (h.drop 16)
  | none => cl

/-- A decimal digit. -/
def isdigit (c : Nat) : Bool := decide (48 ≤ c ∧ c ≤ 57)

/-- The decimal integer that starts at the head of `s`, in the words of the
claim: the number that the longest run of decimal digits at the start of `s`
denotes (0 when no digit stands there). -/
def decimal_at (s : List Nat) : Nat := decimal_value (s.takeWhile isdigit)

/-- The last header line whose first 15 characters equal `Content-Length:` in any
letter case, if there is one. -/
def last_content_length_line (hs : List (List Nat)) : Option (List Nat) :=
  hs.reverse.find? (fun h => decide (is_content_length h))

/-- The content length in the words of the specification: the decimal integer
that starts at index 16 of the last header line whose first 15 characters equal
`Content-Length:` in any letter case, or the prior value `cl` when no line
matches. -/
def decimal_content_length (cl : Int) (hs : List (List Nat)) : Int :=
  match last_content_length_line hs with
  | some h => (decimal_at (h.drop 16) : Int)
  | none => cl


/-! ## Response header -/

/-- Model of `httpd_response_header(client)` (lines 516-529): four times a
literal is copied into the local buffer and `strlen(buf)` bytes of it are sent
(`strcpy` and `sprintf` of a literal write the same bytes). The 1024-byte buffer
is not initialised; each copy writes its literal and the NUL before `strlen`
reads the buffer, so the prior content (zeros here) never shows. -/
def httpd_response_header (client : List Nat) : List Nat :=
  ([ bytes "HTTP/1.0 200 OK\r\n", SERVER_STRING, bytes "Content-Type: text/html\r\n",
     bytes "\r\n" ].foldl send_str (List.replicate 1024 0, client)).2

/-! ## CGI executor: pipes, fork and the parent -/

/-- What the operating system answers to the calls of `httpd_execute_cgi`: the
two descriptors each `pipe` call opens (read end, write end), or none when the
call fails; whether `fork` succeeds; and the bytes that arrive on `cgi_output[0]`
from the subprocess before end-of-file. -/
structure cgi_system where
  pipe_output : Option (Nat × Nat)
  pipe_input : Option (Nat × Nat)
  fork_ok : Bool
  child_output : List Nat
  deriving DecidableEq, Repr

/-- The state `httpd_execute_cgi` leaves behind: the bytes sent to the client so
far, the bytes of the connection still unread, the descriptors the process has
open, and the bytes written to `cgi_input[1]`. -/
structure cgi_result where
  client : List Nat
  sock : List Nat
  fds : List Nat
  to_child : List Nat
  deriving DecidableEq, Repr

/-- The loop of lines 671-675: each byte read from `cgi_output[0]` is sent to the
client, until `read` returns no byte. -/
def cgi_forward : List Nat → List Nat → List Nat
  | [], client => client
  | c :: output, client => cgi_forward output (client ++ [c])

/-- Model of `httpd_execute_cgi(client, h_data)` in the server process (the
branch `pid == 0` runs in the subprocess). `fds` are the descriptors open on
entry, `client` the bytes sent to the client so far, `sock` the unread bytes of
the connection. A successful `pipe` adds its two descriptors to the open ones,
`close` takes one off; the three early `return`s of lines 590-606 close
nothing. -/
def httpd_execute_cgi (os : cgi_system) (fds client sock : List Nat)
    (h_data : http_request_data_t) : cgi_result :=
  match os.pipe_output with
  | none =>
    { client := httpd_request_cannot_execute_error client, sock := sock, fds := fds,
      to_child := [] }
  | some (output0, output1) =>
    let fds1 := output1 :: output0 :: fds
    match os.pipe_input with
    | none =>
      { client := httpd_request_cannot_execute_error client, sock := sock, fds := fds1,
        to_child := [] }
    | some (input0, input1) =>
      let fds2 := input1 :: input0 :: fds1
      if os.fork_ok = false then
        { client := httpd_request_cannot_execute_error client, sock := sock, fds := fds2,
          to_child := [] }
      else
        let fds3 := (fds2.erase output1).erase input0
        match httpd_execute_cgi_relay sock h_data with
        | (rest, pipe) =>
          { client := cgi_forward os.child_output client, sock := rest,
            fds := (fds3.erase output0).erase input1, to_child := pipe }

/-! ## Connection handler -/

/-- Lines 723-748 of `httpd_accept_client_request`: the validation, the `200 OK`
line of line 732, and the dispatch on the `cgi` flag. Returns the bytes sent to
the client. The `printf` calls write to the server's own output and are left
out. -/
def accept_dispatch (debug : Bool) (stat : List Nat → Option Nat)
    (fopen : List Nat → Option (List Nat)) (os : cgi_system) (fds sock : List Nat)
    (http_data : http_request_data_t) : List Nat :=
  match httpd_request_error_deal debug stat [] http_data with
  | (ret, client) =>
    if ret = -1 then client
    else
      let client1 := client ++ bytes "HTTP/1.0 200 OK\r\n"
      if http_data.req_line_data.cgi = 0 then
        httpd_send_file fopen (httpd_response_header client1) http_data.req_line_data.path
      else (httpd_execute_cgi os fds client1 sock http_data).client

/-- Model of `httpd_accept_client_request`: the request line is parsed into the
zeroed record, the headers are scanned, and the request is validated and
dispatched. `sock` holds the bytes the client sends. Returns the bytes sent to
the client (none when the parse of the request line has no defined result). -/
def httpd_accept_client_request (debug : Bool) (stat : List Nat → Option Nat)
    (fopen : List Nat → Option (List Nat)) (os : cgi_system) (fds sock : List Nat) :
    Option (List Nat) :=
  match httpd_request_line_analyze sock zeroed_line_data with
  | (some r, s1) =>
    match httpd_request_header_analyze s1 r.method zeroed_data.content_length with
    | (cl, s2) =>
      some (accept_dispatch debug stat fopen os fds s2 { req_line_data := r, content_length := cl })
  | (none, _) => none


/-! ## Static file responder: the release of the file handle -/

/-- Model of `httpd_send_file(client, filename)` on regular files that also
records the calls of `fclose`, each with the handle it is given (the file the
handle stands for, none for the `NULL` pointer). `fp` is what `fopen` returns:
the contents of a regular file all of whose reads succeed, or none; the `if` of
lines 548-564 sends the file or the 404 response; line 567 then calls
`fclose(fp)`, on either branch. Returns the bytes sent to the client and the
recorded calls. On a stream that opens but cannot be read the loop does not end
and line 567 is not reached (`send_file_loop_unreadable`); such streams are
outside this model. -/
def httpd_send_file_fclose (fopen : List Nat → Option (List Nat)) (client : List Nat)
    (filename : List Nat) : List Nat × List (Option (List Nat)) :=
  let fp := fopen (cstr filename)
  let client1 :=
    match fp with
    | some file =>
      match fgets (List.replicate 1024 0) 1024 (file, false) with
      | (buf, st) => send_file_loop (file.length + 1) buf st client
    | none => httpd_request_path_error client
  (client1, [fp])


/-! ## CGI executor: the environment of the subprocess -/

/-- The conversion `%d` of `sprintf`: the decimal digits of the number, after a
minus sign when it is negative. -/
def fmt_d (n : Int) : List Nat :=
  if n < 0 then 45 :: (Nat.toDigits 10 n.natAbs).map Char.toNat
  else (Nat.toDigits 10 n.toNat).map Char.toNat

/-- The call `sprintf(dst, "<prefix>%d", n)`: the prefix, the decimal digits of
`n` and the terminating NUL are written from `dst[0]` on. -/
def sprintf_d (dst : List Nat) (pre : List Nat) (n : Int) : Option (List Nat) :=
  store dst 0 (pre ++ fmt_d n ++ [0])

/-- The environment set up in the subprocess (lines 609-642): the buffers handed
to `putenv`, in order. `meth_env` has 40 bytes, `query_env` 300 and `length_env`
20, all zeroed. There is no result when a `sprintf` would write past the end of
its buffer. -/
def cgi_child_env (h_data : http_request_data_t) : Option (List (List Nat)) :=
  match sprintf (List.replicate 40 0) (bytes "REQUEST_METHOD=") h_data.req_line_data.method with
  | none => none
  | some meth_env =>
    if strcasecmp h_data.req_line_data.method (bytes "GET") = 0 then
      match sprintf (List.replicate 300 0) (bytes "QUERY_STRING=")
          h_data.req_line_data.query_string with
      | none => none
      | some query_env => some [meth_env, query_env]
    else
      match sprintf_d (List.replicate 20 0) (bytes "CONTENT_LENGTH=") h_data.content_length with
      | none => none
      | some length_env => some [meth_env, length_env]


/-! ## Request-line parser: the indices the scanning loops read and write -/

/-- The indices `j` of the reads `buf[j]` of the first loop (lines 225-230), in
order. Every test of the loop condition reads `buf[j]` first, the last test
included. The fuel bounds the number of tests. -/
def scan_method_reads (buf : List Nat) : Nat → Nat → Nat → List Nat
  | 0, _, _ => []
  | fuel + 1, i, j =>
    j :: (if !isspace (buf.getD j 0) ∧ i < 10 - 1 then scan_method_reads buf fuel (i + 1) (j + 1)
          else [])

/-- The indices `i` of the writes `method[i]` of lines 225-231, in order: those
of the loop, then that of the terminating NUL. The fuel bounds the number of
iterations. -/
def scan_method_writes (buf : List Nat) : Nat → Nat → Nat → List Nat
  | 0, i, _ => [i]
  | fuel + 1, i, j =>
    if !isspace (buf.getD j 0) ∧ i < 10 - 1 then i :: scan_method_writes buf fuel (i + 1) (j + 1)
    else [i]

/-- The indices `j` of the reads `buf[j]` of the second loop (lines 235-238):
`isspace(buf[j])` is evaluated before `j < sizeof(buf)`. -/
def skip_space_reads (buf : List Nat) : Nat → Nat → List Nat
  | 0, _ => []
  | fuel + 1, j =>
    j :: (if isspace (buf.getD j 0) ∧ j < 1024 then skip_space_reads buf fuel (j + 1) else [])

/-- The indices `j` of the reads `buf[j]` of the third loop (lines 241-246):
`!isspace(buf[j])` is evaluated before `i < sizeof(url) - 1` and
`j < sizeof(buf)`. -/
def scan_url_reads (buf : List Nat) : Nat → Nat → Nat → List Nat
  | 0, _, _ => []
  | fuel + 1, i, j =>
    j :: (if !isspace (buf.getD j 0) ∧ i < 255 - 1 ∧ j < 1024 then
            scan_url_reads buf fuel (i + 1) (j + 1)
          else [])

/-- The indices `i` of the writes `url[i]` of lines 241-247: those of the loop,
then that of the terminating NUL. -/
def scan_url_writes (buf : List Nat) : Nat → Nat → Nat → List Nat
  | 0, i, _ => [i]
  | fuel + 1, i, j =>
    if !isspace (buf.getD j 0) ∧ i < 255 - 1 ∧ j < 1024 then
      i :: scan_url_writes buf fuel (i + 1) (j + 1)
    else [i]

/-- The index `j` at which the third loop starts: after the first two loops. -/
def url_start (buf : List Nat) : Nat :=
  skip_space buf 1024 (scan_method buf 9 (List.replicate 10 0) 0 0).2.2

/-- The indices of all the reads `buf[j]` of the three scanning loops, in order.
The first loop tests its condition at most 10 times, the second at most 1025
times, the third at most 255 times. -/
def request_line_reads (buf : List Nat) : List Nat :=
  scan_method_reads buf 10 0 0
    ++ skip_space_reads buf 1025 (scan_method buf 9 (List.replicate 10 0) 0 0).2.2
    ++ scan_url_reads buf 255 0 (url_start buf)

/-- The indices of all the writes to `method` of lines 225-231. -/
def request_line_method_writes (buf : List Nat) : List Nat := scan_method_writes buf 9 0 0

/-- The indices of all the writes to `url` of lines 241-247. -/
def request_line_url_writes (buf : List Nat) : List Nat :=
  scan_url_writes buf 254 0 (url_start buf)


/-! ## Request-line parser: the record as it lies in memory -/

end TinyHttp

namespace TinyHttp

/-! ## Arrays and the line reader: basic facts -/

theorem blit_nil (dst : List Nat) (off : Nat) : blit dst off [] = dst := by
  simp [blit]

theorem blit_length (dst s : List Nat) (off : Nat) (h : off + s.length ≤ dst.length) :
    (blit dst off s).length = dst.length := by
  simp [blit]; omega

theorem set_eq_blit (dst : List Nat) (i b : Nat) (h : i < dst.length) :
    dst.set i b = blit dst i [b] := by
  simp [blit, List.set_eq_take_append_cons_drop, h]

theorem blit_blit (dst s t : List Nat) (off : Nat) (h : off + s.length ≤ dst.length) :
    blit (blit dst off s) (off + s.length) t = blit dst off (s ++ t) := by
  have h1 : (dst.take off ++ s).length = off + s.length := by
    simp [List.length_take]; omega
  have e1 : (dst.take off ++ s ++ dst.drop (off + s.length)).take (off + s.length)
      = dst.take off ++ s := by
    rw [← h1]; exact List.take_left' rfl
  have e2 : (dst.take off ++ s ++ dst.drop (off + s.length)).drop (off + s.length + t.length)
      = dst.drop (off + (s ++ t).length) := by
    rw [← h1, List.drop_append, List.drop_drop, h1]
    simp [Nat.add_assoc]
  unfold blit
  rw [e1, e2]
  simp [List.append_assoc]

theorem blit_zero (dst s : List Nat) : blit dst 0 s = s ++ dst.drop s.length := by
  simp [blit]

theorem get_line_loop_newline (size : Nat) (sock buf : List Nat) (i : Nat) :
    httpd_get_line_loop size sock buf i 10 = (buf, i, sock) := by
  cases sock <;> unfold httpd_get_line_loop <;> simp

theorem get_line_loop_full (size : Nat) (sock buf : List Nat) (i c : Nat)
    (h : ¬ i < size - 1) : httpd_get_line_loop size sock buf i c = (buf, i, sock) := by
  cases sock <;> unfold httpd_get_line_loop <;> simp [h]

theorem get_line_loop_cons (size : Nat) (b : Nat) (rest buf : List Nat) (i c : Nat) :
    httpd_get_line_loop size (b :: rest) buf i c =
      if i < size - 1 ∧ c ≠ 10 then
        if b = 13 then
          (buf.set i 10, i + 1, if rest.head? = some 10 then rest.tail else rest)
        else httpd_get_line_loop size rest (buf.set i b) (i + 1) b
      else (buf, i, b :: rest) := by
  conv => lhs; unfold httpd_get_line_loop
  split
  · split
    · cases rest with
      | nil => simp [get_line_loop_newline]
      | cons d rest2 =>
        by_cases hd : d = 10 <;> simp [hd, get_line_loop_newline]
    · rfl
  · rfl

theorem get_line_loop_plain (size : Nat) (s t : List Nat) :
    ∀ (buf : List Nat) (i c : Nat), (∀ b ∈ s, b ≠ 13 ∧ b ≠ 10) → c ≠ 10 →
      i + s.length ≤ size - 1 → i + s.length ≤ buf.length →
      ∃ c2, c2 ≠ 10 ∧ httpd_get_line_loop size (s ++ t) buf i c
        = httpd_get_line_loop size t (blit buf i s) (i + s.length) c2 := by
  induction s with
  | nil => intro buf i c _ hc _ _; exact ⟨c, hc, by simp [blit_nil]⟩
  | cons b s ih =>
    intro buf i c hs hc h1 h2
    simp only [List.length_cons] at h1 h2
    have hb := hs b (List.mem_cons_self _ _)
    obtain ⟨c2, hc2, e⟩ := ih (buf.set i b) (i + 1) b
      (fun x hx => hs x (List.mem_cons_of_mem _ hx)) hb.2 (by omega) (by simp; omega)
    refine ⟨c2, hc2, ?_⟩
    rw [List.cons_append, get_line_loop_cons, if_pos ⟨by omega, hc⟩, if_neg hb.1, e,
      set_eq_blit _ _ _ (by omega)]
    have := blit_blit buf [b] s i (by simp; omega)
    simp only [List.length_singleton, List.singleton_append] at this
    rw [this]
    simp [Nat.add_assoc, Nat.add_comm 1]

/-! ## Line reader: the result on a terminated line, and its bounds -/

theorem blit_set (dst s : List Nat) (off b : Nat) (h : off + s.length < dst.length) :
    (blit dst off s).set (off + s.length) b = blit dst off (s ++ [b]) := by
  rw [set_eq_blit _ _ _ (by rw [blit_length _ _ _ (by omega)]; omega),
    blit_blit _ _ _ _ (by omega)]

theorem blit_set_set (buf s : List Nat) (a b : Nat) (h : s.length + 2 ≤ buf.length) :
    ((blit buf 0 s).set s.length a).set (s.length + 1) b
      = s ++ a :: b :: buf.drop (s.length + 2) := by
  have e1 := blit_set buf s 0 a (by omega)
  have e2 := blit_set buf (s ++ [a]) 0 b (by simp; omega)
  simp only [Nat.zero_add, List.length_append, List.length_singleton] at e1 e2
  rw [e1, e2, blit_zero]
  simp

theorem get_line_lf (size : Nat) (s r buf : List Nat) (hs : ∀ b ∈ s, b ≠ 13 ∧ b ≠ 10)
    (h1 : s.length < size - 1) (h2 : s.length + 2 ≤ buf.length) :
    httpd_get_line_message (s ++ 10 :: r) buf size
      = (s ++ 10 :: 0 :: buf.drop (s.length + 2), s.length + 1, r) := by
  obtain ⟨c2, hc2, e⟩ := get_line_loop_plain size s (10 :: r) buf 0 0 hs (by decide)
    (by omega) (by omega)
  unfold httpd_get_line_message
  rw [e, get_line_loop_cons, if_pos ⟨by omega, hc2⟩, if_neg (by decide),
    get_line_loop_newline]
  simp only [Nat.zero_add]
  rw [blit_set_set _ _ _ _ h2]

theorem get_line_crlf (size : Nat) (s r buf : List Nat) (hs : ∀ b ∈ s, b ≠ 13 ∧ b ≠ 10)
    (h1 : s.length < size - 1) (h2 : s.length + 2 ≤ buf.length) :
    httpd_get_line_message (s ++ 13 :: 10 :: r) buf size
      = (s ++ 10 :: 0 :: buf.drop (s.length + 2), s.length + 1, r) := by
  obtain ⟨c2, hc2, e⟩ := get_line_loop_plain size s (13 :: 10 :: r) buf 0 0 hs (by decide)
    (by omega) (by omega)
  unfold httpd_get_line_message
  rw [e, get_line_loop_cons, if_pos ⟨by omega, hc2⟩, if_pos rfl]
  simp only [Nat.zero_add, List.head?_cons, if_true, List.tail_cons]
  rw [blit_set_set _ _ _ _ h2]

/-- The loop keeps `i` within `size - 1`, never moves it back, keeps the length
of the buffer, and changes the buffer only at the indices from the initial `i`
up to (not including) the final one. It takes at least one byte off the
connection for every byte it stores. -/
theorem get_line_loop_bounds (size : Nat) (sock : List Nat) :
    ∀ (buf : List Nat) (i c : Nat), i ≤ size - 1 →
      i ≤ (httpd_get_line_loop size sock buf i c).2.1 ∧
      (httpd_get_line_loop size sock buf i c).2.1 ≤ size - 1 ∧
      (httpd_get_line_loop size sock buf i c).1.length = buf.length ∧
      (∀ k, k < i ∨ (httpd_get_line_loop size sock buf i c).2.1 ≤ k →
        (httpd_get_line_loop size sock buf i c).1[k]? = buf[k]?) ∧
      (httpd_get_line_loop size sock buf i c).2.2.length
        + ((httpd_get_line_loop size sock buf i c).2.1 - i) ≤ sock.length := by
  induction sock with
  | nil => intro buf i c h; simp [httpd_get_line_loop, h]
  | cons b rest ih =>
    intro buf i c h
    rw [get_line_loop_cons]
    by_cases hg : i < size - 1 ∧ c ≠ 10
    · rw [if_pos hg]
      by_cases hb : b = 13
      · rw [if_pos hb]
        refine ⟨by simp, by simp; omega, by simp, ?_, ?_⟩
        · intro k hk
          simp only at hk
          exact List.getElem?_set_ne (by omega)
        · simp only [List.length_cons]
          split
          · simp only [List.length_tail]; omega
          · omega
      · rw [if_neg hb]
        obtain ⟨h1, h2, h3, h4, h5⟩ := ih (buf.set i b) (i + 1) b (by omega)
        refine ⟨by omega, h2, by rw [h3]; simp, ?_, ?_⟩
        · intro k hk
          rw [h4 k (by omega)]
          exact List.getElem?_set_ne (by omega)
        · simp only [List.length_cons]; omega
    · rw [if_neg hg]
      simp [h]

/-- The line reader keeps the length of the buffer. -/
theorem get_line_length (size : Nat) (sock buf : List Nat) :
    (httpd_get_line_message sock buf size).1.length = buf.length := by
  obtain ⟨-, -, b3, -, -⟩ := get_line_loop_bounds size sock buf 0 0 (Nat.zero_le _)
  have e : httpd_get_line_message sock buf size =
      ((httpd_get_line_loop size sock buf 0 0).1.set (httpd_get_line_loop size sock buf 0 0).2.1 0,
       (httpd_get_line_loop size sock buf 0 0).2.1,
       (httpd_get_line_loop size sock buf 0 0).2.2) := rfl
  rw [e]
  simpa using b3

/-! ## Claims about the line reader -/

/-- C4, as stated, fails: on `hello\r\n` and on `hello\n` the line reader returns 6,
not 5, and the buffer holds `hello\n`: the terminator is stored as one `\n` and
counted. -/
theorem get_line_counts_terminator :
    (httpd_get_line_message (bytes "hello\r\n") (List.replicate 16 0) 16).2.1 ≠ 5 ∧
    (httpd_get_line_message (bytes "hello\n") (List.replicate 16 0) 16).2.1 ≠ 5 ∧
    cstr (httpd_get_line_message (bytes "hello\r\n") (List.replicate 16 0) 16).1
      ≠ bytes "hello" ∧
    cstr (httpd_get_line_message (bytes "hello\n") (List.replicate 16 0) 16).1
      ≠ bytes "hello" := by decide

/-- C4, amended: for every byte string `s` without CR or LF and shorter than
`size - 1`, a buffer of at least `size` bytes and every remainder `r`, the line
reader on `s ++ "\r\n" ++ r` and on `s ++ "\n" ++ r` stores `s`, one `\n` and the
NUL terminator, returns `|s| + 1` and leaves `r` unread. -/
theorem get_line_terminated (size : Nat) (s r buf : List Nat)
    (hs : ∀ b ∈ s, b ≠ 13 ∧ b ≠ 10) (h1 : s.length < size - 1) (h2 : size ≤ buf.length) :
    httpd_get_line_message (s ++ bytes "\r\n" ++ r) buf size
      = (s ++ bytes "\n" ++ 0 :: buf.drop (s.length + 2), s.length + 1, r) ∧
    httpd_get_line_message (s ++ bytes "\n" ++ r) buf size
      = (s ++ bytes "\n" ++ 0 :: buf.drop (s.length + 2), s.length + 1, r) := by
  have e1 : bytes "\r\n" = [13, 10] := by decide
  have e2 : bytes "\n" = [10] := by decide
  rw [e1, e2]
  constructor
  · simpa using get_line_crlf size s r buf hs h1 (by omega)
  · simpa using get_line_lf size s r buf hs h1 (by omega)

/-- Witness of C4 amended: `hello\r\n` and `hello\n` read into a zeroed 1024-byte buffer. -/
theorem get_line_terminated_witness :
    httpd_get_line_message (bytes "hello" ++ bytes "\r\n" ++ []) (List.replicate 1024 0) 1024
      = (bytes "hello" ++ bytes "\n" ++ 0 :: (List.replicate 1024 0).drop ((bytes "hello").length + 2),
          (bytes "hello").length + 1, []) ∧
    httpd_get_line_message (bytes "hello" ++ bytes "\n" ++ []) (List.replicate 1024 0) 1024
      = (bytes "hello" ++ bytes "\n" ++ 0 :: (List.replicate 1024 0).drop ((bytes "hello").length + 2),
          (bytes "hello").length + 1, []) :=
  get_line_terminated 1024 (bytes "hello") [] (List.replicate 1024 0)
    (by decide) (by decide) (Nat.le_of_eq (List.length_replicate _ _).symm)

/-- C5: for every `size ≥ 1`, every connection and every buffer of at least `size`
bytes, the line reader returns `i ≤ size - 1`, keeps the buffer's length, puts NUL
at index `i` and leaves every index above `i` as it was; and when the connection
starts with `size - 1` bytes free of CR and LF, the buffer holds exactly those
bytes and the NUL, `size - 1` is returned and the rest of the connection is unread. -/
theorem get_line_bounded (size : Nat) (sock buf : List Nat) (h1 : 1 ≤ size)
    (h2 : size ≤ buf.length) :
    (httpd_get_line_message sock buf size).2.1 ≤ size - 1 ∧
    (httpd_get_line_message sock buf size).1.length = buf.length ∧
    (httpd_get_line_message sock buf size).1[(httpd_get_line_message sock buf size).2.1]?
      = some 0 ∧
    (∀ k, (httpd_get_line_message sock buf size).2.1 < k →
      (httpd_get_line_message sock buf size).1[k]? = buf[k]?) ∧
    (∀ s t, sock = s ++ t → s.length = size - 1 → (∀ b ∈ s, b ≠ 13 ∧ b ≠ 10) →
      httpd_get_line_message sock buf size = (s ++ 0 :: buf.drop size, size - 1, t)) := by
  obtain ⟨-, b2, b3, b4, -⟩ := get_line_loop_bounds size sock buf 0 0 (Nat.zero_le _)
  have e : httpd_get_line_message sock buf size =
      ((httpd_get_line_loop size sock buf 0 0).1.set (httpd_get_line_loop size sock buf 0 0).2.1 0,
       (httpd_get_line_loop size sock buf 0 0).2.1,
       (httpd_get_line_loop size sock buf 0 0).2.2) := rfl
  refine ⟨by rw [e]; exact b2, by rw [e]; simpa using b3, ?_, ?_, ?_⟩
  · rw [e]
    exact List.getElem?_set_self (by rw [b3]; omega)
  · intro k hk
    rw [e] at hk ⊢
    simp only at hk ⊢
    rw [List.getElem?_set_ne (by omega)]
    exact b4 k (Or.inr (by omega))
  · intro s t hst hlen hs
    subst hst
    obtain ⟨c2, -, e3⟩ := get_line_loop_plain size s t buf 0 0 hs (by decide)
      (by omega) (by omega)
    unfold httpd_get_line_message
    rw [e3, get_line_loop_full _ _ _ _ _ (by omega)]
    simp only [Nat.zero_add]
    have e4 := blit_set buf s 0 0 (by omega)
    simp only [Nat.zero_add] at e4
    rw [e4, blit_zero, hlen]
    have e5 : s.length + 1 = size := by omega
    simp [e5]

/-- Witness of C5: a 4-byte read of `hello` into a 16-byte buffer. -/
theorem get_line_bounded_witness :
    (httpd_get_line_message (bytes "hello") (List.replicate 16 7) 4).2.1 ≤ 4 - 1 ∧
    (httpd_get_line_message (bytes "hello") (List.replicate 16 7) 4).1.length
      = (List.replicate 16 7).length ∧
    (httpd_get_line_message (bytes "hello") (List.replicate 16 7) 4).1[
        (httpd_get_line_message (bytes "hello") (List.replicate 16 7) 4).2.1]? = some 0 ∧
    (∀ k, (httpd_get_line_message (bytes "hello") (List.replicate 16 7) 4).2.1 < k →
      (httpd_get_line_message (bytes "hello") (List.replicate 16 7) 4).1[k]?
        = (List.replicate 16 7)[k]?) ∧
    (∀ s t, bytes "hello" = s ++ t → s.length = 4 - 1 → (∀ b ∈ s, b ≠ 13 ∧ b ≠ 10) →
      httpd_get_line_message (bytes "hello") (List.replicate 16 7) 4
        = (s ++ 0 :: (List.replicate 16 7).drop 4, 4 - 1, t)) :=
  get_line_bounded 4 (bytes "hello") (List.replicate 16 7) (by decide) (by decide)

/-! ## C strings and case-insensitive comparison -/

theorem cstr_nil : cstr [] = [] := rfl

theorem cstr_cons (a : Nat) (as : List Nat) :
    cstr (a :: as) = if a = 0 then [] else a :: cstr as := by
  by_cases h : a = 0 <;> simp [cstr, h]

theorem tolower_eq_zero (a : Nat) : tolower a = 0 ↔ a = 0 := by
  unfold tolower; split <;> omega

theorem strcasecmp_eq_zero (a : List Nat) : ∀ b, strcasecmp a b = 0 ↔ ci_eq a b := by
  unfold ci_eq
  induction a with
  | nil =>
    intro b
    cases b with
    | nil => simp [strcasecmp]
    | cons b bs =>
      by_cases hb : b = 0
      · subst hb; simp [strcasecmp, cstr_cons, cstr_nil, tolower]
      · have := (tolower_eq_zero b).not.mpr hb
        simp [strcasecmp, cstr_cons, cstr_nil, hb]
        omega
  | cons a as ih =>
    intro b
    cases b with
    | nil =>
      by_cases ha : a = 0
      · subst ha; simp [strcasecmp, cstr_cons, cstr_nil, tolower]
      · have := (tolower_eq_zero a).not.mpr ha
        simp [strcasecmp, cstr_cons, cstr_nil, ha]
        omega
    | cons b bs =>
      rw [strcasecmp]
      by_cases hab : tolower a = tolower b
      · rw [if_neg (by simpa using hab)]
        by_cases ha : a = 0
        · have hb : b = 0 := by
            rw [← tolower_eq_zero, ← hab, tolower_eq_zero]; exact ha
          simp [ha, hb, cstr_cons]
        · have hb : b ≠ 0 := by
            intro hb; apply ha
            rw [← tolower_eq_zero, hab, tolower_eq_zero]; exact hb
          rw [if_neg ha, ih bs]
          simp [cstr_cons, ha, hb, hab]
      · rw [if_pos hab]
        have ha : a ≠ 0 ∨ b ≠ 0 := by
          by_contra h
          push_neg at h
          apply hab; rw [h.1, h.2]
        constructor
        · intro h; exfalso; omega
        · intro h
          exfalso
          by_cases ha0 : a = 0
          · have hb0 : b ≠ 0 := by tauto
            simp [cstr_cons, ha0, hb0] at h
          · by_cases hb0 : b = 0
            · simp [cstr_cons, ha0, hb0] at h
            · simp [cstr_cons, ha0, hb0] at h
              exact hab h.1

/-! ## Request validation -/

theorem foldl_send_str (lits : List (List Nat)) :
    ∀ (buf c1 c2 : List Nat),
      lits.foldl send_str (buf, c1 ++ c2)
        = ((lits.foldl send_str (buf, c2)).1, c1 ++ (lits.foldl send_str (buf, c2)).2) := by
  induction lits with
  | nil => intro buf c1 c2; rfl
  | cons l lits ih =>
    intro buf c1 c2
    simp only [List.foldl_cons, send_str]
    rw [List.append_assoc, ih]

theorem foldl_send_buf (lits : List (List Nat)) :
    ∀ (buf c1 c2 : List Nat),
      lits.foldl send_buf (buf, c1 ++ c2)
        = ((lits.foldl send_buf (buf, c2)).1, c1 ++ (lits.foldl send_buf (buf, c2)).2) := by
  induction lits with
  | nil => intro buf c1 c2; rfl
  | cons l lits ih =>
    intro buf c1 c2
    simp only [List.foldl_cons, send_buf]
    rw [List.append_assoc, ih]

set_option maxRecDepth 100000 in
theorem method_error_nil : httpd_request_method_error [] = response_501 := by decide

set_option maxRecDepth 100000 in
theorem path_error_nil : httpd_request_path_error [] = response_404 := by decide

theorem method_error_eq (client : List Nat) :
    httpd_request_method_error client = client ++ response_501 := by
  rw [← method_error_nil]
  unfold httpd_request_method_error
  have := foldl_send_str [ bytes "HTTP/1.0 501 Method Not Implemented\r\n", SERVER_STRING,
     bytes "Content-Type: text/html\r\n", bytes "\r\n",
     bytes "<HTML><HEAD><TITLE>Method Not Implemented\r\n", bytes "</TITLE></HEAD>\r\n",
     bytes "<BODY><P>HTTP request method not supported.\r\n",
     bytes "</BODY></HTML>\r\n" ] (List.replicate 128 0) client []
  rw [List.append_nil] at this
  rw [this]

theorem path_error_eq (client : List Nat) :
    httpd_request_path_error client = client ++ response_404 := by
  rw [← path_error_nil]
  unfold httpd_request_path_error
  have := foldl_send_str [ bytes "HTTP/1.0 404 NOT FOUND\r\n", SERVER_STRING,
     bytes "Content-Type: text/html\r\n", bytes "\r\n",
     bytes "<HTML><TITLE>Not Found</TITLE>\r\n",
     bytes "<BODY><P>The server could not fulfill\r\n",
     bytes "your request because the resource specified\r\n",
     bytes "is unavailable or nonexistent.\r\n",
     bytes "</BODY></HTML>\r\n" ] (List.replicate 128 0) client []
  rw [List.append_nil] at this
  rw [this]

theorem bad_error_eq (client : List Nat) :
    httpd_request_bad_error client = client ++ httpd_request_bad_error [] := by
  unfold httpd_request_bad_error
  have := foldl_send_buf [ bytes "HTTP/1.0 400 BAD REQUEST\r\n", bytes "Content-type: text/html\r\n",
     bytes "\r\n", bytes "<P>Your browser sent a bad request, ",
     bytes "such as a POST without a Content-Length.\r\n" ] (List.replicate 128 0) client []
  rw [List.append_nil] at this
  rw [this]

/-- C7: for every request whose method is case-insensitively neither GET nor POST,
whatever the build, the file system, the path and the content length are,
`httpd_request_error_deal` returns -1 and sends exactly the 501 response. -/
theorem error_deal_method (debug : Bool) (stat : List Nat → Option Nat) (client : List Nat)
    (h_data : http_request_data_t)
    (hget : ¬ ci_eq h_data.req_line_data.method (bytes "GET"))
    (hpost : ¬ ci_eq h_data.req_line_data.method (bytes "POST")) :
    httpd_request_error_deal debug stat client h_data = (-1, client ++ response_501) := by
  unfold httpd_request_error_deal
  rw [if_pos ⟨by rwa [Ne, strcasecmp_eq_zero], by rwa [Ne, strcasecmp_eq_zero]⟩,
    method_error_eq]

/-- Witness of C7: the methods `PUT` and the empty method. -/
theorem error_deal_method_witness :
    (¬ ci_eq (bytes "PUT") (bytes "GET") ∧ ¬ ci_eq (bytes "PUT") (bytes "POST") ∧
      httpd_request_error_deal false (fun _ => some 0) []
        { req_line_data := { method := bytes "PUT", path := bytes "htdocs/x",
                             query_string := [], cgi := 0 },
          content_length := 0 } = (-1, [] ++ response_501)) ∧
    httpd_request_error_deal true (fun _ => none) []
        { req_line_data := { method := List.replicate 10 0, path := bytes "htdocs",
                             query_string := [], cgi := 0 },
          content_length := -3 } = (-1, [] ++ response_501) :=
  ⟨⟨by decide, by decide, error_deal_method _ _ _ _ (by decide) (by decide)⟩,
   error_deal_method _ _ _ _ (by decide) (by decide)⟩

/-- C8: for every request whose method is case-insensitively GET or POST and whose
path names no file-system entry, `httpd_request_error_deal` returns -1 and sends
exactly the 404 response, whatever the content length is. -/
theorem error_deal_path (debug : Bool) (stat : List Nat → Option Nat) (client : List Nat)
    (h_data : http_request_data_t)
    (hm : ci_eq h_data.req_line_data.method (bytes "GET") ∨
          ci_eq h_data.req_line_data.method (bytes "POST"))
    (hstat : stat (cstr h_data.req_line_data.path) = none) :
    httpd_request_error_deal debug stat client h_data = (-1, client ++ response_404) := by
  unfold httpd_request_error_deal
  rw [if_neg (by
    simp only [Ne, strcasecmp_eq_zero, not_and, not_not]
    intro h; exact hm.resolve_left h), hstat, path_error_eq]

/-- Witness of C8: a POST with content length -5 to a missing path gets the 404. -/
theorem error_deal_path_witness :
    (ci_eq (bytes "post") (bytes "GET") ∨ ci_eq (bytes "post") (bytes "POST")) ∧
    httpd_request_error_deal false (fun _ => none) []
        { req_line_data := { method := bytes "post", path := bytes "htdocs/x",
                             query_string := [], cgi := 1 },
          content_length := -5 } = (-1, [] ++ response_404) :=
  ⟨by decide, error_deal_path _ _ _ _ (by decide) rfl⟩

set_option maxRecDepth 100000 in
/-- C9: in the build without `DEBUG`, `httpd_request_error_deal` returns 0 and sends
nothing exactly when the method is case-insensitively GET or POST, the path names
a file-system entry, and the request is not a POST with a negative content length.
A POST to an existing path with content length 0 is accepted; a POST to an existing
path with a negative content length gets -1 and the output of
`httpd_request_bad_error`, which starts with the 400 status line. -/
theorem error_deal_accepts (stat : List Nat → Option Nat) (client : List Nat)
    (h_data : http_request_data_t) :
    (httpd_request_error_deal false stat client h_data = (0, client) ↔
      ((ci_eq h_data.req_line_data.method (bytes "GET") ∨
        ci_eq h_data.req_line_data.method (bytes "POST")) ∧
       (stat (cstr h_data.req_line_data.path)).isSome ∧
       ¬ (ci_eq h_data.req_line_data.method (bytes "POST") ∧ h_data.content_length < 0))) ∧
    (ci_eq h_data.req_line_data.method (bytes "POST") →
      (stat (cstr h_data.req_line_data.path)).isSome → h_data.content_length = 0 →
      httpd_request_error_deal false stat client h_data = (0, client)) ∧
    (ci_eq h_data.req_line_data.method (bytes "POST") →
      (stat (cstr h_data.req_line_data.path)).isSome → h_data.content_length < 0 →
      httpd_request_error_deal false stat client h_data
        = (-1, client ++ httpd_request_bad_error [])) ∧
    (httpd_request_bad_error []).take 26 = bytes "HTTP/1.0 400 BAD REQUEST\r\n" := by
  have key : httpd_request_error_deal false stat client h_data =
      if ¬ ci_eq h_data.req_line_data.method (bytes "GET") ∧
         ¬ ci_eq h_data.req_line_data.method (bytes "POST") then
        (-1, client ++ response_501)
      else if (stat (cstr h_data.req_line_data.path)).isSome then
        if ci_eq h_data.req_line_data.method (bytes "POST") ∧ h_data.content_length < 0 then
          (-1, client ++ httpd_request_bad_error [])
        else (0, client)
      else (-1, client ++ response_404) := by
    unfold httpd_request_error_deal
    simp only [Ne, strcasecmp_eq_zero, method_error_eq, path_error_eq]
    split
    · rfl
    · cases hs : stat (cstr h_data.req_line_data.path) with
      | none => simp
      | some m =>
        simp only [Option.isSome_some, if_true, Bool.false_eq_true, false_and, if_false]
        rw [← bad_error_eq]
  refine ⟨?_, ?_, ?_, by decide⟩
  · rw [key]
    constructor
    · intro h
      split at h
      · simp at h
      · rename_i h1
        split at h
        · rename_i h2
          split at h
          · simp at h
          · rename_i h3
            refine ⟨?_, h2, h3⟩
            by_contra hc
            push_neg at hc
            exact h1 hc
        · simp at h
    · rintro ⟨h1, h2, h3⟩
      rw [if_neg (by intro hc; rcases h1 with h | h; exact hc.1 h; exact hc.2 h),
        if_pos h2, if_neg h3]
  · intro h1 h2 h3
    rw [key, if_neg (fun hc => hc.2 h1), if_pos h2, if_neg (by omega)]
  · intro h1 h2 h3
    rw [key, if_neg (fun hc => hc.2 h1), if_pos h2, if_pos ⟨h1, h3⟩]

/-- Witness of C9: a POST to an existing path is accepted with content length 0
and rejected with content length -1. -/
theorem error_deal_accepts_witness :
    httpd_request_error_deal false (fun _ => some 0) []
        { req_line_data := { method := bytes "POST", path := bytes "htdocs/x",
                             query_string := [], cgi := 1 },
          content_length := 0 } = (0, []) ∧
    httpd_request_error_deal false (fun _ => some 0) []
        { req_line_data := { method := bytes "POST", path := bytes "htdocs/x",
                             query_string := [], cgi := 1 },
          content_length := -1 } = (-1, [] ++ httpd_request_bad_error []) :=
  ⟨(error_deal_accepts _ _ _).2.1 (by decide) (by decide) rfl,
   (error_deal_accepts _ _ _).2.2.1 (by decide) (by decide) (by decide)⟩

/-! ## Static file responder -/

theorem cstr_append_zero (l t : List Nat) (h : ∀ b ∈ l, b ≠ 0) : cstr (l ++ 0 :: t) = l := by
  unfold cstr
  rw [List.takeWhile_append_of_pos (by simpa using h)]
  simp

theorem fgets_read_short (n : Nat) : ∀ (s : List Nat), (∀ b ∈ s, b ≠ 10) → s.length < n →
    fgets_read n s = (s, [], true) := by
  induction n with
  | zero => intro s _ h; omega
  | succ n ih =>
    intro s hs h
    cases s with
    | nil => rfl
    | cons b s =>
      rw [fgets_read, if_neg (hs b (List.mem_cons_self _ _)),
        ih s (fun x hx => hs x (List.mem_cons_of_mem _ hx)) (by simpa using h)]

theorem fgets_read_full (n : Nat) : ∀ (l r : List Nat), (∀ b ∈ l, b ≠ 10) → l.length = n →
    fgets_read n (l ++ r) = (l, r, false) := by
  induction n with
  | zero =>
    intro l r _ h
    have : l = [] := List.length_eq_zero.mp h
    subst this
    cases r <;> rfl
  | succ n ih =>
    intro l r hl h
    cases l with
    | nil => simp at h
    | cons b l =>
      rw [List.cons_append, fgets_read, if_neg (hl b (List.mem_cons_self _ _)),
        ih l r (fun x hx => hl x (List.mem_cons_of_mem _ hx)) (by simpa using h)]

theorem send_file_loop_eof (fuel : Nat) (buf rem client : List Nat) :
    send_file_loop fuel buf (rem, true) client = client := by
  cases fuel <;> simp [send_file_loop]

/-- A file without newline and NUL bytes is sent up to its last full 1023-byte
chunk: the first `fgets` that meets the end of the file sets the end-of-file
indicator, and the loop then ends without sending what that call read. -/
theorem send_file_whole_chunks (k : Nat) :
    ∀ (rem buf client : List Nat) (fuel : Nat), rem.length ≤ k → rem.length + 1 ≤ fuel →
      1024 ≤ buf.length → (∀ b ∈ rem, b ≠ 10 ∧ b ≠ 0) →
      send_file_loop fuel (fgets buf 1024 (rem, false)).1 (fgets buf 1024 (rem, false)).2 client
        = client ++ rem.take (1023 * (rem.length / 1023)) := by
  induction k with
  | zero =>
    intro rem buf client fuel hk _ _ _
    have : rem = [] := List.length_eq_zero.mp (by omega)
    subst this
    simp [fgets, fgets_read, send_file_loop_eof]
  | succ k ih =>
    intro rem buf client fuel hk hf hb hr
    by_cases hlt : rem.length < 1023
    · have e := fgets_read_short 1023 rem (fun b h => (hr b h).1) hlt
      have e2 : rem.length / 1023 = 0 := Nat.div_eq_of_lt hlt
      simp [fgets, e, send_file_loop_eof, e2]
    · have hsplit : rem = rem.take 1023 ++ rem.drop 1023 := (List.take_append_drop _ _).symm
      have hl : (rem.take 1023).length = 1023 := by rw [List.length_take]; omega
      have e := fgets_read_full 1023 (rem.take 1023) (rem.drop 1023)
        (fun b h => (hr b (List.mem_of_mem_take h)).1) hl
      rw [← hsplit] at e
      have hne : rem.take 1023 ≠ [] := by
        intro h0; rw [h0] at hl; simp at hl
      have e3 : fgets buf 1024 (rem, false)
          = (blit buf 0 (rem.take 1023 ++ [0]), (rem.drop 1023, false)) := by
        simp [fgets, e, hne]
      rw [e3]
      obtain ⟨f, rfl⟩ : ∃ f, fuel = f + 1 := ⟨fuel - 1, by omega⟩
      have hd : (rem.drop 1023).length = rem.length - 1023 := List.length_drop _ _
      rw [send_file_loop]
      simp only [Bool.not_false, if_true]
      rw [ih (rem.drop 1023) _ _ f (by omega) (by omega)
        (by rw [blit_length _ _ _ (by simp [hl]; omega)]; exact hb)
        (fun b h => hr b (List.mem_of_mem_drop h))]
      have e4 : (blit buf 0 (rem.take 1023 ++ [0])).take
          (strlen (blit buf 0 (rem.take 1023 ++ [0]))) = rem.take 1023 := by
        rw [blit_zero]
        unfold strlen
        rw [List.append_assoc, List.singleton_append,
          cstr_append_zero _ _ (fun b h => (hr b (List.mem_of_mem_take h)).2)]
        exact List.take_left' rfl
      rw [e4, hd, List.append_assoc]
      congr 1
      have e5 : rem.length / 1023 = (rem.length - 1023) / 1023 + 1 := by omega
      rw [e5, Nat.mul_add, Nat.mul_one, Nat.add_comm, List.take_add]

theorem send_file_no_newline (fopen : List Nat → Option (List Nat))
    (client filename file : List Nat) (ho : fopen (cstr filename) = some file)
    (hf : ∀ b ∈ file, b ≠ 10 ∧ b ≠ 0) :
    httpd_send_file fopen client filename
      = client ++ file.take (1023 * (file.length / 1023)) := by
  unfold httpd_send_file
  rw [ho]
  exact send_file_whole_chunks file.length file (List.replicate 1024 0) client
    (file.length + 1) (Nat.le_refl _) (Nat.le_refl _)
    (Nat.le_of_eq (List.length_replicate _ _).symm) hf

/-! ### The fuel of the file loop is enough -/

theorem fgets_read_progress (n : Nat) : ∀ (file : List Nat),
    (fgets_read (n + 1) file).2.2 = true ∨
      (fgets_read (n + 1) file).2.1.length < file.length := by
  induction n with
  | zero =>
    intro file
    cases file with
    | nil => left; rfl
    | cons b file =>
      right
      rw [fgets_read]
      split <;> simp [fgets_read]
  | succ n ih =>
    intro file
    cases file with
    | nil => left; rfl
    | cons b file =>
      rw [fgets_read]
      split
      · right; simp
      · rcases ih file with h | h
        · left; exact h
        · right
          simp only [List.length_cons]
          exact Nat.lt_succ_of_lt h

/-- With fuel above the number of bytes still to read, the loop of `httpd_send_file`
ends through its own condition: more fuel does not change its result. -/
theorem send_file_loop_fuel (k : Nat) :
    ∀ (buf : List Nat) (fp : List Nat × Bool) (client : List Nat) (f1 f2 : Nat),
      fp.1.length ≤ k → k + 1 ≤ f1 → k + 1 ≤ f2 →
      send_file_loop f1 buf fp client = send_file_loop f2 buf fp client := by
  induction k with
  | zero =>
    intro buf fp client f1 f2 hs h1 h2
    obtain ⟨g1, rfl⟩ : ∃ g, f1 = g + 1 := ⟨f1 - 1, by omega⟩
    obtain ⟨g2, rfl⟩ : ∃ g, f2 = g + 1 := ⟨f2 - 1, by omega⟩
    obtain ⟨rem, e⟩ := fp
    have hnil : rem = [] := List.length_eq_zero.mp (by simpa using hs)
    subst hnil
    rw [send_file_loop, send_file_loop]
    split
    · simp [fgets, fgets_read, send_file_loop_eof]
    · rfl
  | succ k ih =>
    intro buf fp client f1 f2 hs h1 h2
    obtain ⟨g1, rfl⟩ : ∃ g, f1 = g + 1 := ⟨f1 - 1, by omega⟩
    obtain ⟨g2, rfl⟩ : ∃ g, f2 = g + 1 := ⟨f2 - 1, by omega⟩
    obtain ⟨rem, e⟩ := fp
    rw [send_file_loop, send_file_loop]
    split
    · have hp := fgets_read_progress 1022 rem
      unfold fgets
      simp only
      generalize fgets_read (1024 - 1) rem = r at hp
      obtain ⟨l, r2, e2⟩ := r
      simp only at hp ⊢
      rcases hp with h | h
      · subst h
        simp [send_file_loop_eof]
      · exact ih _ _ _ g1 g2 (by simp at hs ⊢; omega) (by omega) (by omega)
    · rfl

/-! ### Files that are sent whole -/

theorem fgets_read_newline (n : Nat) : ∀ (file : List Nat), file.getLast? = some 10 →
    file = (fgets_read (n + 1) file).1 ++ (fgets_read (n + 1) file).2.1 ∧
    (fgets_read (n + 1) file).1 ≠ [] ∧
    (fgets_read (n + 1) file).1.length ≤ n + 1 ∧
    (fgets_read (n + 1) file).2.2 = false ∧
    ((fgets_read (n + 1) file).2.1 = [] ∨
      (fgets_read (n + 1) file).2.1.getLast? = some 10) := by
  induction n with
  | zero =>
    intro file h
    cases file with
    | nil => simp at h
    | cons b file =>
      rw [fgets_read]
      split
      · rename_i hb
        subst hb
        refine ⟨rfl, by simp, by simp, rfl, ?_⟩
        cases file with
        | nil => left; rfl
        | cons c file => right; simpa using h
      · rename_i hb
        have hne : file ≠ [] := by
          intro e; subst e; simp at h; exact hb h
        refine ⟨by simp [fgets_read], by simp [fgets_read], by simp [fgets_read],
          by simp [fgets_read], ?_⟩
        right
        simp only [fgets_read]
        obtain ⟨c, file2, rfl⟩ := List.exists_cons_of_ne_nil hne
        simpa using h
  | succ n ih =>
    intro file h
    cases file with
    | nil => simp at h
    | cons b file =>
      rw [fgets_read]
      split
      · rename_i hb
        subst hb
        refine ⟨rfl, by simp, by simp, rfl, ?_⟩
        cases file with
        | nil => left; rfl
        | cons c file => right; simpa using h
      · rename_i hb
        have hne : file ≠ [] := by
          intro e; subst e; simp at h; exact hb h
        obtain ⟨c, file2, rfl⟩ := List.exists_cons_of_ne_nil hne
        have h2 : (c :: file2).getLast? = some 10 := by simpa using h
        obtain ⟨e1, e2, e3, e4, e5⟩ := ih (c :: file2) h2
        refine ⟨?_, by simp, ?_, e4, e5⟩
        · simp only [List.cons_append]
          rw [← e1]
        · simp only [List.length_cons]
          omega

/-- A file without NUL bytes that is empty or ends in a newline is sent whole. -/
theorem send_file_terminated (k : Nat) :
    ∀ (rem buf client : List Nat) (fuel : Nat), rem.length ≤ k → rem.length + 1 ≤ fuel →
      1024 ≤ buf.length → (∀ b ∈ rem, b ≠ 0) → (rem = [] ∨ rem.getLast? = some 10) →
      send_file_loop fuel (fgets buf 1024 (rem, false)).1 (fgets buf 1024 (rem, false)).2 client
        = client ++ rem := by
  induction k with
  | zero =>
    intro rem buf client fuel hk _ _ _ _
    have : rem = [] := List.length_eq_zero.mp (by omega)
    subst this
    simp [fgets, fgets_read, send_file_loop_eof]
  | succ k ih =>
    intro rem buf client fuel hk hf hb hz hnl
    rcases hnl with hnil | hnl
    · subst hnil
      simp [fgets, fgets_read, send_file_loop_eof]
    · obtain ⟨e1, e2, e3, e4, e5⟩ := fgets_read_newline 1022 rem hnl
      have hfg : fgets buf 1024 (rem, false)
          = (blit buf 0 ((fgets_read 1023 rem).1 ++ [0]), ((fgets_read 1023 rem).2.1, false)) := by
        unfold fgets
        simp only [Bool.false_or]
        rw [if_neg (fun hc => e2 hc.1), e4]
      rw [hfg]
      generalize (fgets_read 1023 rem).1 = l at e1 e2 e3 ⊢
      generalize (fgets_read 1023 rem).2.1 = r at e1 e5 ⊢
      obtain ⟨f, rfl⟩ : ∃ f, fuel = f + 1 := ⟨fuel - 1, by omega⟩
      have hlen : rem.length = l.length + r.length := by rw [e1]; simp
      have hlpos : 0 < l.length := List.length_pos.mpr e2
      rw [send_file_loop]
      simp only [Bool.not_false, if_true]
      rw [ih r _ _ f (by omega) (by omega)
        (by rw [blit_length _ _ _ (by simp; omega)]; exact hb)
        (fun b h => hz b (by rw [e1]; exact List.mem_append_right _ h)) e5]
      have e6 : (blit buf 0 (l ++ [0])).take (strlen (blit buf 0 (l ++ [0]))) = l := by
        rw [blit_zero]
        unfold strlen
        rw [List.append_assoc, List.singleton_append,
          cstr_append_zero _ _ (fun b h => hz b (by rw [e1]; exact List.mem_append_left _ h))]
        exact List.take_left' rfl
      rw [e6, List.append_assoc, ← e1]

theorem send_file_newline_terminated (fopen : List Nat → Option (List Nat))
    (client filename file : List Nat) (ho : fopen (cstr filename) = some file)
    (hz : ∀ b ∈ file, b ≠ 0) (hnl : file = [] ∨ file.getLast? = some 10) :
    httpd_send_file fopen client filename = client ++ file := by
  unfold httpd_send_file
  rw [ho]
  exact send_file_terminated file.length file (List.replicate 1024 0) client
    (file.length + 1) (Nat.le_refl _) (Nat.le_refl _)
    (Nat.le_of_eq (List.length_replicate _ _).symm) hz hnl

/-! ### The claim on the static file responder -/

set_option maxRecDepth 100000 in
/-- C10 at failing inputs: a file whose last line has no newline loses that line.
The 3-byte file `abc` is sent as nothing and `a\nbc` as `a\n` (while `a\nbc\n` is
sent whole); a file of 1022 bytes `a` (one under the 1023-byte chunk) is sent as
nothing and one of 1024 bytes (one over) as its first 1023 bytes only, while the
file of exactly 1023 bytes is sent whole. -/
theorem send_file_drops_unterminated_line :
    httpd_send_file (fun _ => some (bytes "abc")) [] (bytes "htdocs/x") = [] ∧
    httpd_send_file (fun _ => some (bytes "a\nbc")) [] (bytes "htdocs/x") = bytes "a\n" ∧
    httpd_send_file (fun _ => some (bytes "a\nbc\n")) [] (bytes "htdocs/x")
      = bytes "a\nbc\n" ∧
    httpd_send_file (fun _ => some (List.replicate 1022 97)) [] (bytes "htdocs/x") = [] ∧
    httpd_send_file (fun _ => some (List.replicate 1023 97)) [] (bytes "htdocs/x")
      = List.replicate 1023 97 ∧
    httpd_send_file (fun _ => some (List.replicate 1024 97)) [] (bytes "htdocs/x")
      = List.replicate 1023 97 := by
  have h : ∀ n, ∀ b ∈ List.replicate n 97, b ≠ 10 ∧ b ≠ 0 := by
    intro n b hb
    rw [List.eq_of_mem_replicate hb]
    decide
  refine ⟨by decide, by decide, by decide, ?_, ?_, ?_⟩
  · rw [send_file_no_newline (fun _ => some (List.replicate 1022 97)) [] (bytes "htdocs/x")
      (List.replicate 1022 97) rfl (h 1022)]
    simp
  · rw [send_file_no_newline (fun _ => some (List.replicate 1023 97)) [] (bytes "htdocs/x")
      (List.replicate 1023 97) rfl (h 1023)]
    simp
  · rw [send_file_no_newline (fun _ => some (List.replicate 1024 97)) [] (bytes "htdocs/x")
      (List.replicate 1024 97) rfl (h 1024)]
    simp

/-! ## The scanning loops of the request-line parser in closed form

Each lemma also shows that the fuel the parser passes is enough: with at least
that much fuel the loop ends through its own condition. -/

theorem getD_eq_head_drop (buf : List Nat) (j : Nat) (h : j < buf.length) :
    buf.drop j = buf.getD j 0 :: buf.drop (j + 1) := by
  rw [List.drop_eq_getElem_cons h]
  simp [List.getD_eq_getElem?_getD, List.getElem?_eq_getElem h]

theorem blit_cons (dst s : List Nat) (i b : Nat) (h : i + s.length < dst.length) :
    blit (dst.set i b) (i + 1) s = blit dst i (b :: s) := by
  rw [set_eq_blit _ _ _ (by omega)]
  have := blit_blit dst [b] s i (by simp; omega)
  simpa using this

theorem scan_method_eq (buf : List Nat) :
    ∀ (fuel : Nat) (method : List Nat) (i j : Nat), 9 - i ≤ fuel →
      j + (9 - i) ≤ buf.length → 9 < method.length →
      scan_method buf fuel method i j =
        (blit method i (((buf.drop j).takeWhile (fun b => !isspace b)).take (9 - i)),
         i + (((buf.drop j).takeWhile (fun b => !isspace b)).take (9 - i)).length,
         j + (((buf.drop j).takeWhile (fun b => !isspace b)).take (9 - i)).length) := by
  intro fuel
  induction fuel with
  | zero =>
    intro method i j hf _ _
    have : 9 - i = 0 := by omega
    simp [scan_method, this, blit_nil]
  | succ fuel ih =>
    intro method i j hf hj hm
    rw [scan_method]
    by_cases hi : i < 9
    · have hjl : j < buf.length := by omega
      rw [getD_eq_head_drop buf j hjl]
      generalize buf.getD j 0 = b
      by_cases hs : isspace b = true
      · rw [if_neg (by simp [hs]), List.takeWhile_cons_of_neg (by simp [hs])]
        simp [blit_nil]
      · have hs2 : isspace b = false := by simpa using hs
        rw [if_pos ⟨by simp [hs2], by omega⟩,
          ih _ _ _ (by omega) (by omega) (by simpa using hm)]
        have e9 : 9 - i = (9 - (i + 1)) + 1 := by omega
        rw [List.takeWhile_cons_of_pos (by simp [hs2]), e9, List.take_succ_cons]
        have hlen : (((buf.drop (j + 1)).takeWhile (fun b => !isspace b)).take
            (9 - (i + 1))).length ≤ 9 - (i + 1) := List.length_take_le _ _
        rw [blit_cons _ _ _ _ (by omega)]
        simp only [List.length_cons]
        refine Prod.ext rfl (Prod.ext ?_ ?_)
        · show i + 1 + _ = i + (_ + 1); omega
        · show j + 1 + _ = j + (_ + 1); omega
    · have : 9 - i = 0 := by omega
      rw [if_neg (by omega)]
      simp [this, blit_nil]

theorem skip_space_eq (buf : List Nat) (hb : buf.length ≤ 1024) :
    ∀ (fuel j : Nat), buf.length - j ≤ fuel →
      skip_space buf fuel j = j + ((buf.drop j).takeWhile isspace).length := by
  intro fuel
  induction fuel with
  | zero =>
    intro j hf
    rw [List.drop_eq_nil_of_le (by omega)]
    simp [skip_space]
  | succ fuel ih =>
    intro j hf
    rw [skip_space]
    by_cases hjl : j < buf.length
    · rw [getD_eq_head_drop buf j hjl]
      generalize buf.getD j 0 = b
      by_cases hs : isspace b = true
      · rw [if_pos ⟨hs, by omega⟩, ih _ (by omega), List.takeWhile_cons_of_pos hs]
        simp only [List.length_cons]; omega
      · rw [if_neg (by simp [hs]), List.takeWhile_cons_of_neg hs]
        simp
    · rw [List.drop_eq_nil_of_le (by omega), List.getD_eq_default _ _ (by omega)]
      rw [if_neg (fun h => absurd h.1 (by decide))]
      simp

theorem scan_url_eq (buf : List Nat) (hb : buf.length = 1024) :
    ∀ (fuel : Nat) (url : List Nat) (i j : Nat), 254 - i ≤ fuel → 254 < url.length →
      scan_url buf fuel url i j =
        (blit url i (((buf.drop j).takeWhile (fun b => !isspace b)).take (254 - i)),
         i + (((buf.drop j).takeWhile (fun b => !isspace b)).take (254 - i)).length,
         j + (((buf.drop j).takeWhile (fun b => !isspace b)).take (254 - i)).length) := by
  intro fuel
  induction fuel with
  | zero =>
    intro url i j hf _
    have : 254 - i = 0 := by omega
    simp [scan_url, this, blit_nil]
  | succ fuel ih =>
    intro url i j hf hu
    rw [scan_url]
    by_cases hi : i < 254
    · by_cases hjl : j < buf.length
      · rw [getD_eq_head_drop buf j hjl]
        generalize buf.getD j 0 = b
        by_cases hs : isspace b = true
        · rw [if_neg (by simp [hs]), List.takeWhile_cons_of_neg (by simp [hs])]
          simp [blit_nil]
        · have hs2 : isspace b = false := by simpa using hs
          rw [if_pos ⟨by simp [hs2], by omega, by omega⟩,
            ih _ _ _ (by omega) (by simpa using hu)]
          have e9 : 254 - i = (254 - (i + 1)) + 1 := by omega
          rw [List.takeWhile_cons_of_pos (by simp [hs2]), e9, List.take_succ_cons]
          have hlen : (((buf.drop (j + 1)).takeWhile (fun b => !isspace b)).take
              (254 - (i + 1))).length ≤ 254 - (i + 1) := List.length_take_le _ _
          rw [blit_cons _ _ _ _ (by omega)]
          simp only [List.length_cons]
          refine Prod.ext rfl (Prod.ext ?_ ?_)
          · show i + 1 + _ = i + (_ + 1); omega
          · show j + 1 + _ = j + (_ + 1); omega
      · rw [List.drop_eq_nil_of_le (by omega)]
        rw [if_neg (by omega)]
        simp [blit_nil]
    · have : 254 - i = 0 := by omega
      rw [if_neg (by omega)]
      simp [this, blit_nil]

theorem scan_query_eq (url : List Nat) :
    ∀ (fuel q : Nat), url.length - q ≤ fuel →
      scan_query url fuel q
        = q + ((url.drop q).takeWhile (fun b => b != 63 && b != 0)).length := by
  intro fuel
  induction fuel with
  | zero =>
    intro q hf
    rw [List.drop_eq_nil_of_le (by omega)]
    simp [scan_query]
  | succ fuel ih =>
    intro q hf
    rw [scan_query]
    by_cases hql : q < url.length
    · rw [getD_eq_head_drop url q hql]
      generalize url.getD q 0 = b
      by_cases hs : b ≠ 63 ∧ b ≠ 0
      · rw [if_pos hs, ih _ (by omega), List.takeWhile_cons_of_pos (by simpa using hs)]
        simp only [List.length_cons]; omega
      · rw [if_neg hs, List.takeWhile_cons_of_neg (by simpa using hs)]
        simp
    · rw [List.drop_eq_nil_of_le (by omega), List.getD_eq_default _ _ (by omega)]
      rw [if_neg (by decide)]
      simp

/-! ## The tokens of the request line -/

theorem drop_length_takeWhile (p : Nat → Bool) (l : List Nat) :
    l.drop (l.takeWhile p).length = l.dropWhile p := by
  induction l with
  | nil => rfl
  | cons a l ih =>
    by_cases h : p a = true
    · simp [List.takeWhile_cons, List.dropWhile_cons, h, ih]
    · simp [List.takeWhile_cons, List.dropWhile_cons, h]

theorem raw_method_length (buf : List Nat) : (raw_method buf).length ≤ 9 :=
  List.length_take_le _ _

theorem raw_url_length (buf : List Nat) : (raw_url buf).length ≤ 254 :=
  List.length_take_le _ _

theorem request_line_tokens_eq (buf method : List Nat) (hb : buf.length = 1024)
    (hm : method.length = 10) :
    request_line_tokens buf method =
      (raw_method buf ++ 0 :: method.drop ((raw_method buf).length + 1),
       raw_url buf ++ 0 :: List.replicate (254 - (raw_url buf).length) 0) := by
  have h1 := raw_method_length buf
  have h2 := raw_url_length buf
  have ed : buf.drop ((raw_method buf).length +
      ((buf.drop (raw_method buf).length).takeWhile isspace).length)
      = (buf.drop (raw_method buf).length).dropWhile isspace := by
    rw [← drop_length_takeWhile isspace (buf.drop (raw_method buf).length), List.drop_drop]
  have e3 := blit_set method (raw_method buf) 0 0 (by omega)
  have e4 := blit_set (List.replicate 255 0) (raw_url buf) 0 0
    (by rw [List.length_replicate]; omega)
  simp only [Nat.zero_add] at e3 e4
  unfold request_line_tokens
  rw [scan_method_eq buf 9 method 0 0 (by omega) (by omega) (by omega)]
  simp only [List.drop_zero, Nat.sub_zero, Nat.zero_add]
  show (match scan_url buf 254 (List.replicate 255 0) 0
      (skip_space buf 1024 (raw_method buf).length) with
    | (url1, i2, _) => ((blit method 0 (raw_method buf)).set (raw_method buf).length 0,
        url1.set i2 0)) = _
  rw [skip_space_eq buf (by omega) 1024 _ (by omega),
    scan_url_eq buf hb 254 _ 0 _ (by omega)
      (by rw [List.length_replicate]; omega), ed]
  simp only [Nat.sub_zero, Nat.zero_add]
  show ((blit method 0 (raw_method buf)).set (raw_method buf).length 0,
    (blit (List.replicate 255 0) 0 (raw_url buf)).set (raw_url buf).length 0) = _
  rw [e3, e4, blit_zero, blit_zero]
  simp only [List.append_assoc, List.singleton_append, List.length_append,
    List.length_singleton, List.drop_replicate]
  have e5 : 255 - ((raw_url buf).length + 1) = 254 - (raw_url buf).length := by omega
  rw [e5]

/-! ## The GET / POST branch and the path in closed form -/

theorem cstr_ne_zero (l : List Nat) : ∀ b ∈ cstr l, b ≠ 0 := by
  intro b hb
  have := List.mem_takeWhile_imp hb
  simpa using this

theorem cstr_append_zero_left (a t : List Nat) : cstr (a ++ 0 :: t) = cstr a := by
  induction a with
  | nil => simp [cstr]
  | cons x a ih =>
    rw [List.cons_append, cstr_cons, cstr_cons, ih]

theorem cstr_of_ne_zero (l : List Nat) (h : ∀ b ∈ l, b ≠ 0) : cstr l = l := by
  unfold cstr
  rw [List.takeWhile_eq_self_iff]
  simpa using h

/-- An array with a NUL after the bytes `a` is its C string, a NUL and a rest. -/
theorem split_cstr (a t : List Nat) : ∃ rest, a ++ 0 :: t = cstr a ++ 0 :: rest := by
  induction a with
  | nil => exact ⟨t, rfl⟩
  | cons x a ih =>
    obtain ⟨rest, e⟩ := ih
    by_cases hx : x = 0
    · subst hx
      exact ⟨a ++ 0 :: t, by simp [cstr_cons]⟩
    · exact ⟨rest, by rw [cstr_cons, if_neg hx, List.cons_append, List.cons_append, e]⟩

theorem ci_eq_append_zero (a t x : List Nat) : ci_eq (a ++ 0 :: t) x ↔ ci_eq a x := by
  unfold ci_eq; rw [cstr_append_zero_left]

theorem takeWhile_query (V rest : List Nat) (hV : ∀ b ∈ V, b ≠ 0) :
    (V ++ 0 :: rest).takeWhile (fun b => b != 63 && b != 0)
      = V.takeWhile (fun b => b != 63) := by
  induction V with
  | nil => simp
  | cons x V ih =>
    have hx : x ≠ 0 := hV x (List.mem_cons_self _ _)
    have ih2 := ih (fun b hb => hV b (List.mem_cons_of_mem _ hb))
    by_cases h63 : x = 63
    · subst h63; simp
    · rw [List.cons_append, List.takeWhile_cons_of_pos (by simp [h63, hx]),
        List.takeWhile_cons_of_pos (by simp [h63]), ih2]

theorem split_query (V : List Nat) (h : 63 ∈ V) :
    V = V.takeWhile (fun b => b != 63) ++
      63 :: V.drop ((V.takeWhile (fun b => b != 63)).length + 1) := by
  induction V with
  | nil => simp at h
  | cons x V ih =>
    by_cases h63 : x = 63
    · subst h63; simp
    · have hin : 63 ∈ V := by
        rcases List.mem_cons.mp h with h1 | h1
        · exact absurd h1.symm h63
        · exact h1
      rw [List.takeWhile_cons_of_pos (by simp [h63])]
      simp only [List.length_cons, List.drop_succ_cons, List.cons_append]
      rw [← ih hin]

theorem takeWhile_query_of_not_mem (V : List Nat) (h : 63 ∉ V) :
    V.takeWhile (fun b => b != 63) = V := by
  rw [List.takeWhile_eq_self_iff]
  intro b hb
  have : b ≠ 63 := fun e => h (e ▸ hb)
  simpa using this

theorem getD_append_cons (l t : List Nat) (x : Nat) : (l ++ x :: t).getD l.length 0 = x := by
  induction l with
  | nil => rfl
  | cons a l ih => simpa using ih

theorem set_append_cons (l t : List Nat) (x y : Nat) :
    (l ++ x :: t).set l.length y = l ++ y :: t := by
  induction l with
  | nil => rfl
  | cons a l ih => simp [ih]

theorem drop_append_cons (l t : List Nat) (x : Nat) :
    (l ++ x :: t).drop (l.length + 1) = t := by
  induction l with
  | nil => rfl
  | cons a l ih => simp

theorem get_not_post (m : List Nat) (h : ci_eq m (bytes "GET")) :
    ¬ ci_eq m (bytes "POST") := by
  unfold ci_eq at h ⊢
  rw [h]
  decide

/-- The GET / POST branch on a `url` array holding the string `V`. -/
theorem request_line_branch_eq (method V rest qs : List Nat) (cgi : Int)
    (hV : ∀ b ∈ V, b ≠ 0) (hlen : (V ++ 0 :: rest).length ≤ 255) (hq : qs.length = 255) :
    ∃ url1 rest1, request_line_branch method (V ++ 0 :: rest) qs cgi =
      some (url1,
        if ci_eq method (bytes "GET") ∧ 63 ∈ V then
          spec_query method V qs ++ 0 :: qs.drop ((spec_query method V qs).length + 1)
        else qs,
        spec_cgi method V cgi) ∧
      url1 = spec_url method V ++ 0 :: rest1 := by
  unfold request_line_branch spec_cgi spec_url spec_query
  simp only [strcasecmp_eq_zero]
  by_cases hget : ci_eq method (bytes "GET")
  · simp only [hget, if_true, true_and]
    rw [scan_query_eq _ 255 0 (by omega)]
    simp only [List.drop_zero, Nat.zero_add]
    rw [takeWhile_query V rest hV]
    by_cases h63 : 63 ∈ V
    · have hs := split_query V h63
      generalize hu : V.takeWhile (fun b => b != 63) = u at hs ⊢
      generalize hqq : V.drop (u.length + 1) = q at hs ⊢
      have hqz : ∀ b ∈ q, b ≠ 0 := by
        intro b hb; apply hV; rw [hs]; simp [hb]
      have e1 : V ++ 0 :: rest = u ++ 63 :: (q ++ 0 :: rest) := by
        rw [hs]; simp
      have hql : q.length + 1 ≤ 255 := by
        rw [hs] at hlen; simp at hlen; omega
      rw [e1, getD_append_cons, set_append_cons, drop_append_cons]
      simp only [if_true, h63, or_true, sprintf, store, List.nil_append,
        cstr_append_zero _ _ hqz, Nat.zero_add, List.length_append, List.length_singleton,
        hq, hql, blit_zero]
      exact ⟨u ++ 0 :: (q ++ 0 :: rest), q ++ 0 :: rest, by simp, rfl⟩
    · have hu := takeWhile_query_of_not_mem V h63
      rw [hu, getD_append_cons]
      simp only [h63, or_false, if_false]
      rw [if_neg (by decide), if_neg (get_not_post method hget)]
      exact ⟨_, rest, rfl, rfl⟩
  · simp only [hget, if_false, false_and, or_false]
    by_cases hpost : ci_eq method (bytes "POST")
    · simp [hpost]
    · simp [hpost]

theorem getD_last (P t : List Nat) (x : Nat) (hP : P ≠ []) :
    (P ++ x :: t).getD (P.length - 1) 0 = 47 ↔ P.getLast? = some 47 := by
  have hl : 0 < P.length := List.length_pos.mpr hP
  rw [List.getD_eq_getElem?_getD, List.getElem?_append_left (by omega),
    List.getLast?_eq_getElem?]
  rw [List.getElem?_eq_getElem (by omega : P.length - 1 < P.length)]
  simp

theorem htdocs_ne_zero (u : List Nat) (hu : ∀ b ∈ u, b ≠ 0) :
    ∀ b ∈ bytes "htdocs" ++ u, b ≠ 0 := by
  intro b hb
  rcases List.mem_append.mp hb with h | h
  · have h0 : ∀ b ∈ bytes "htdocs", b ≠ 0 := by decide
    exact h0 b h
  · exact hu b h

/-- The path field after lines 277-284, for a `url` array holding the string `u`:
the text `spec_path u` when it fits in 254 bytes, and no result otherwise. -/
theorem request_line_path_eq (path u rest : List Nat) (hu : ∀ b ∈ u, b ≠ 0)
    (hp : path.length = 255) :
    request_line_path path (u ++ 0 :: rest) =
      if (spec_path u).length ≤ 254 then
        some (spec_path u ++ 0 :: path.drop ((spec_path u).length + 1))
      else none := by
  have hP := htdocs_ne_zero u hu
  have hne : bytes "htdocs" ++ u ≠ [] := by
    intro h; have := congrArg List.length h; simp [bytes] at this
  have hlen : (bytes "htdocs" ++ u).length = u.length + 6 := by
    have h6 : (bytes "htdocs").length = 6 := by decide
    rw [List.length_append, h6]; omega
  unfold request_line_path sprintf store spec_path
  rw [cstr_append_zero _ _ hu]
  generalize bytes "htdocs" ++ u = P at hP hne hlen ⊢
  simp only [Nat.zero_add, List.length_append, List.length_singleton, hp]
  by_cases hfit : P.length + 1 ≤ 255
  · rw [if_pos hfit]
    simp only
    rw [blit_zero]
    simp only [List.length_append, List.length_singleton, List.append_assoc,
      List.singleton_append]
    have hs : strlen (P ++ 0 :: path.drop (P.length + 1)) = P.length := by
      unfold strlen; rw [cstr_append_zero _ _ hP]
    rw [hs]
    by_cases hsl : P.getLast? = some 47
    · rw [if_pos ((getD_last P _ 0 hne).mpr hsl)]
      simp only [if_pos hsl]
      unfold strcat store
      have hidx : cstr (bytes "index.html") = bytes "index.html" := by decide
      have hil : (bytes "index.html").length = 10 := by decide
      rw [hs, hidx]
      simp only [List.length_append, List.length_singleton, List.length_cons,
        List.length_drop, hp, hil]
      simp only [List.length_nil, Nat.zero_add]
      by_cases hfit2 : P.length + 10 ≤ 254
      · rw [if_pos (by omega), if_pos hfit2]
        congr 1
        unfold blit
        rw [List.take_left' rfl]
        have e3 : P.length + (bytes "index.html" ++ [0]).length = P.length + 1 + 10 := by
          rw [List.length_append, hil, List.length_singleton]
        rw [e3, ← List.drop_drop, drop_append_cons, List.drop_drop]
        have e5 : P.length + 1 + 10 = P.length + 10 + 1 := by omega
        rw [e5]
        simp only [List.append_assoc, List.singleton_append]
      · rw [if_neg (by omega), if_neg hfit2]
    · rw [if_neg (fun h => hsl ((getD_last P _ 0 hne).mp h))]
      simp only [if_neg hsl]
      rw [if_pos (by omega)]
  · rw [if_neg hfit]
    simp only
    split <;> rw [if_neg] <;> simp <;> omega

/-! ## The request-line parse in closed form -/

theorem spec_url_ne_zero (m V : List Nat) (hV : ∀ b ∈ V, b ≠ 0) :
    ∀ b ∈ spec_url m V, b ≠ 0 := by
  intro b hb
  unfold spec_url at hb
  split at hb
  · exact hV b ((List.takeWhile_sublist _).subset hb)
  · exact hV b hb

/-- The parse of a 1024-byte line buffer into a record with fields of the
declared sizes: there is a result exactly when the path text fits in 254 bytes,
and then the fields hold the strings of the spec-level definitions. -/
theorem request_line_parse_eq (buf : List Nat) (req : http_request_line_data_t)
    (hb : buf.length = 1024) (hm : req.method.length = 10) (hp : req.path.length = 255)
    (hq : req.query_string.length = 255) :
    request_line_parse buf req =
      if (spec_path (spec_url (method_field buf req.method) (cstr (raw_url buf)))).length ≤ 254
      then some
        { method := method_field buf req.method,
          path := spec_path (spec_url (method_field buf req.method) (cstr (raw_url buf))) ++
            0 :: req.path.drop
              ((spec_path (spec_url (method_field buf req.method)
                (cstr (raw_url buf)))).length + 1),
          query_string :=
            if ci_eq (method_field buf req.method) (bytes "GET") ∧ 63 ∈ cstr (raw_url buf) then
              spec_query (method_field buf req.method) (cstr (raw_url buf)) req.query_string ++
                0 :: req.query_string.drop
                  ((spec_query (method_field buf req.method) (cstr (raw_url buf))
                    req.query_string).length + 1)
            else req.query_string,
          cgi := spec_cgi (method_field buf req.method) (cstr (raw_url buf)) req.cgi }
      else none := by
  unfold request_line_parse
  rw [request_line_tokens_eq buf req.method hb hm]
  obtain ⟨rest, hrest⟩ := split_cstr (raw_url buf) (List.replicate (254 - (raw_url buf).length) 0)
  have hV := cstr_ne_zero (raw_url buf)
  have h2 := raw_url_length buf
  have hlen : (cstr (raw_url buf) ++ 0 :: rest).length ≤ 255 := by
    rw [← hrest]
    simp only [List.length_append, List.length_cons, List.length_replicate]
    omega
  show (match request_line_branch (method_field buf req.method)
      (raw_url buf ++ 0 :: List.replicate (254 - (raw_url buf).length) 0)
      req.query_string req.cgi with
    | some (url1, qs, cgi) =>
      match request_line_path req.path url1 with
      | some path => some ({ method := method_field buf req.method, path := path,
                             query_string := qs, cgi := cgi } : http_request_line_data_t)
      | none => none
    | none => none) = _
  rw [hrest]
  obtain ⟨url1, rest1, e1, e2⟩ := request_line_branch_eq (method_field buf req.method)
    (cstr (raw_url buf)) rest req.query_string req.cgi hV hlen hq
  rw [e1]
  simp only
  rw [e2, request_line_path_eq req.path _ rest1 (spec_url_ne_zero _ _ hV) hp]
  by_cases hfit :
      (spec_path (spec_url (method_field buf req.method) (cstr (raw_url buf)))).length ≤ 254
  · rw [if_pos hfit, if_pos hfit]
  · rw [if_neg hfit, if_neg hfit]

/-! ## The parse of a well-formed request line read from the connection -/

theorem raw_tokens_of_line (m ws u tail : List Nat)
    (hm : ∀ b ∈ m, isspace b = false) (hml : m.length ≤ 9)
    (hws : ∀ b ∈ ws, isspace b = true) (hwsne : ws ≠ [])
    (hu : ∀ b ∈ u, isspace b = false) (hul : u.length ≤ 254) (hune : u ≠ [])
    (ht : ∃ c t, tail = c :: t ∧ isspace c = true) :
    raw_method (m ++ ws ++ u ++ tail) = m ∧ raw_url (m ++ ws ++ u ++ tail) = u := by
  obtain ⟨c, t, rfl, hc⟩ := ht
  obtain ⟨w, ws2, rfl⟩ := List.exists_cons_of_ne_nil hwsne
  obtain ⟨x, u2, rfl⟩ := List.exists_cons_of_ne_nil hune
  have hw : isspace w = true := hws w (List.mem_cons_self _ _)
  have hx : isspace x = false := hu x (List.mem_cons_self _ _)
  have e1 : raw_method (m ++ w :: ws2 ++ x :: u2 ++ c :: t) = m := by
    unfold raw_method
    rw [List.append_assoc, List.append_assoc,
      List.takeWhile_append_of_pos (by intro b hb; simp [hm b hb])]
    rw [List.cons_append, List.takeWhile_cons_of_neg (by simp [hw]), List.append_nil]
    exact List.take_of_length_le hml
  refine ⟨e1, ?_⟩
  unfold raw_url
  rw [e1]
  have e2 : (m ++ w :: ws2 ++ x :: u2 ++ c :: t).drop m.length
      = (w :: ws2) ++ ((x :: u2) ++ c :: t) := by
    rw [List.append_assoc, List.append_assoc, List.drop_left]
  rw [e2, List.dropWhile_append_of_pos hws, List.cons_append,
    List.dropWhile_cons_of_neg (by simp [hx]), ← List.cons_append,
    List.takeWhile_append_of_pos (by intro b hb; simp [hu b hb]),
    List.takeWhile_cons_of_neg (by simp [hc]), List.append_nil]
  exact List.take_of_length_le hul

theorem isspace_cr_lf (b : Nat) (h : isspace b = false) : b ≠ 13 ∧ b ≠ 10 := by
  constructor <;> (intro e; subst e; simp [isspace] at h)

/-- The parse of a request line `m ws u tail0` (method token, white space, URL
token, and a rest that is empty or starts with white space: its head, or a space
when it is empty, is white space) ended by `\r\n` or `\n`, into a record with
fields of the declared sizes. -/
theorem analyze_line (m ws u tail0 term rest : List Nat) (req : http_request_line_data_t)
    (hm : ∀ b ∈ m, isspace b = false) (hml : m.length ≤ 9)
    (hws : ∀ b ∈ ws, isspace b = true ∧ b ≠ 13 ∧ b ≠ 10) (hwsne : ws ≠ [])
    (hu : ∀ b ∈ u, isspace b = false ∧ b ≠ 0) (hul : u.length ≤ 254) (hune : u ≠ [])
    (ht : (∀ b ∈ tail0, b ≠ 13 ∧ b ≠ 10) ∧ isspace (tail0.headD 32) = true)
    (hterm : term = [13, 10] ∨ term = [10])
    (hlen : (m ++ ws ++ u ++ tail0).length < 1023)
    (hrm : req.method.length = 10) (hrp : req.path.length = 255)
    (hrq : req.query_string.length = 255) :
    httpd_request_line_analyze (m ++ ws ++ u ++ tail0 ++ term ++ rest) req =
      (if (spec_path (spec_url (m ++ 0 :: req.method.drop (m.length + 1)) u)).length ≤ 254
       then some
        { method := m ++ 0 :: req.method.drop (m.length + 1),
          path := spec_path (spec_url (m ++ 0 :: req.method.drop (m.length + 1)) u) ++
            0 :: req.path.drop
              ((spec_path (spec_url (m ++ 0 :: req.method.drop (m.length + 1)) u)).length + 1),
          query_string :=
            if ci_eq (m ++ 0 :: req.method.drop (m.length + 1)) (bytes "GET") ∧ 63 ∈ u then
              spec_query (m ++ 0 :: req.method.drop (m.length + 1)) u req.query_string ++
                0 :: req.query_string.drop
                  ((spec_query (m ++ 0 :: req.method.drop (m.length + 1)) u
                    req.query_string).length + 1)
            else req.query_string,
          cgi := spec_cgi (m ++ 0 :: req.method.drop (m.length + 1)) u req.cgi }
       else none, rest) := by
  have hline : ∀ b ∈ m ++ ws ++ u ++ tail0, b ≠ 13 ∧ b ≠ 10 := by
    intro b hb
    simp only [List.mem_append] at hb
    rcases hb with ((h | h) | h) | h
    · exact isspace_cr_lf b (hm b h)
    · exact (hws b h).2
    · exact isspace_cr_lf b (hu b h).1
    · exact ht.1 b h
  have hz : (List.replicate 1024 0).length = 1024 := List.length_replicate _ _
  have hbuf : httpd_get_line_message (m ++ ws ++ u ++ tail0 ++ term ++ rest)
      (List.replicate 1024 0) 1024
      = (m ++ ws ++ u ++ tail0 ++ 10 :: 0 ::
          (List.replicate 1024 0).drop ((m ++ ws ++ u ++ tail0).length + 2),
         (m ++ ws ++ u ++ tail0).length + 1, rest) := by
    rcases hterm with h | h
    · subst h
      rw [List.append_assoc (m ++ ws ++ u ++ tail0)]
      exact get_line_crlf 1024 (m ++ ws ++ u ++ tail0) rest (List.replicate 1024 0) hline
        (by omega) (by omega)
    · subst h
      rw [List.append_assoc (m ++ ws ++ u ++ tail0)]
      exact get_line_lf 1024 (m ++ ws ++ u ++ tail0) rest (List.replicate 1024 0) hline
        (by omega) (by omega)
  have hblen : (m ++ ws ++ u ++ tail0 ++ 10 :: 0 ::
      (List.replicate 1024 0).drop ((m ++ ws ++ u ++ tail0).length + 2)).length = 1024 := by
    have h1 := get_line_length 1024 (m ++ ws ++ u ++ tail0 ++ term ++ rest)
      (List.replicate 1024 0)
    rw [hbuf, hz] at h1
    exact h1
  have htok := raw_tokens_of_line m ws u
    (tail0 ++ 10 :: 0 :: (List.replicate 1024 0).drop ((m ++ ws ++ u ++ tail0).length + 2))
    hm hml (fun b hb => (hws b hb).1) hwsne (fun b hb => (hu b hb).1) hul hune
    (by
      cases tail0 with
      | nil => exact ⟨10, _, rfl, by decide⟩
      | cons c t => exact ⟨c, _, rfl, ht.2⟩)
  rw [← List.append_assoc] at htok
  unfold httpd_request_line_analyze
  rw [hbuf]
  simp only
  rw [request_line_parse_eq _ req hblen hrm hrp hrq]
  unfold method_field
  rw [htok.1, htok.2, cstr_of_ne_zero u (fun b hb => (hu b hb).2)]

/-! ## Claims about the request-line parser -/

theorem zeroed_lengths : zeroed_line_data.method.length = 10 ∧
    zeroed_line_data.path.length = 255 ∧ zeroed_line_data.query_string.length = 255 := by
  unfold zeroed_line_data
  simp only [List.length_replicate, and_self]

set_option maxRecDepth 100000 in
/-- C1 at a failing input: `GET /aaa...a?x=1 HTTP/1.0` where the part of the URL
before `?` has 249 characters (the URL token has 253). The claim gives
`path = "htdocs" ++ u`, 255 characters; the `sprintf` of line 278 then writes 256
bytes into the 255-byte `path` field, and the parse has no defined result. -/
theorem analyze_get_query_overflow :
    httpd_request_line_analyze
      (bytes "GET" ++ bytes " " ++ (bytes "/" ++ List.replicate 248 97 ++ bytes "?x=1") ++
        bytes " HTTP/1.0" ++ bytes "\r\n" ++ []) zeroed_line_data = (none, []) := by
  rw [analyze_line (bytes "GET") (bytes " ") (bytes "/" ++ List.replicate 248 97 ++ bytes "?x=1")
    (bytes " HTTP/1.0") (bytes "\r\n") [] zeroed_line_data (by decide) (by decide) (by decide)
    (by decide) (by decide) (by decide) (by decide) (by decide) (by decide) (by decide)
    zeroed_lengths.1 zeroed_lengths.2.1 zeroed_lengths.2.2]
  rw [if_neg (by decide)]

theorem tolower_token (m lit : List Nat) (hlit : ∀ c ∈ lit, 97 ≤ c ∧ c ≤ 122)
    (h : m.map tolower = lit) :
    (∀ b ∈ m, isspace b = false ∧ b ≠ 0) ∧ m.length = lit.length := by
  refine ⟨?_, by rw [← h, List.length_map]⟩
  intro b hb
  have h1 : tolower b ∈ lit := by
    rw [← h]; exact List.mem_map_of_mem _ hb
  have h2 := hlit _ h1
  unfold tolower at h2
  constructor
  · unfold isspace
    split at h2 <;> simp <;> omega
  · split at h2 <;> omega

theorem ci_eq_of_map (m t lit : List Nat) (hm : ∀ b ∈ m, b ≠ 0)
    (hlit : (cstr lit).map tolower = m.map tolower) : ci_eq (m ++ 0 :: t) lit := by
  unfold ci_eq
  rw [cstr_append_zero _ _ hm, hlit]

theorem spec_path_ne_zero (u : List Nat) (hu : ∀ b ∈ u, b ≠ 0) :
    ∀ b ∈ spec_path u, b ≠ 0 := by
  intro b hb
  unfold spec_path at hb
  split at hb
  · rcases List.mem_append.mp hb with h | h
    · exact htdocs_ne_zero u hu b h
    · have h0 : ∀ b ∈ bytes "index.html", b ≠ 0 := by decide
      exact h0 b h
  · exact htdocs_ne_zero u hu b hb

theorem spec_path_length (u : List Nat) : u.length + 6 ≤ (spec_path u).length := by
  have h6 : (bytes "htdocs").length = 6 := by decide
  unfold spec_path
  split <;> simp only [List.length_append, h6] <;> omega

/-- Within the capacity of the path field: for a request line made of a method
token that is case-insensitively GET, white space, a URL token `u ++ "?" ++ q` of
at most 254 characters where `u` has no `?`, does not end in `/` and has at most
248 characters, and a rest, ended by `\r\n` or `\n`, the parse into the zeroed
record gives the method as written, `cgi = 1`, `query_string = q` and
`path = "htdocs" ++ u`. -/
theorem analyze_get_query (m ws u q tail0 term rest : List Nat)
    (hm : m.map tolower = bytes "get")
    (hws : ∀ b ∈ ws, isspace b = true ∧ b ≠ 13 ∧ b ≠ 10) (hwsne : ws ≠ [])
    (hu : ∀ b ∈ u ++ 63 :: q, isspace b = false ∧ b ≠ 0) (hul : (u ++ 63 :: q).length ≤ 254)
    (h63 : 63 ∉ u) (hsl : u.getLast? ≠ some 47) (hfit : u.length ≤ 248)
    (ht : (∀ b ∈ tail0, b ≠ 13 ∧ b ≠ 10) ∧ isspace (tail0.headD 32) = true)
    (hterm : term = [13, 10] ∨ term = [10])
    (hlen : (m ++ ws ++ (u ++ 63 :: q) ++ tail0).length < 1023) :
    ∃ r, httpd_request_line_analyze (m ++ ws ++ (u ++ 63 :: q) ++ tail0 ++ term ++ rest)
        zeroed_line_data = (some r, rest) ∧
      cstr r.method = m ∧ r.cgi = 1 ∧ cstr r.query_string = q ∧
      cstr r.path = bytes "htdocs" ++ u := by
  obtain ⟨hm1, hm2⟩ := tolower_token m (bytes "get") (by decide) hm
  have hm3 : m.length = 3 := hm2
  have hget : ci_eq (m ++ 0 :: zeroed_line_data.method.drop (m.length + 1)) (bytes "GET") :=
    ci_eq_of_map m _ _ (fun b hb => (hm1 b hb).2) (by rw [hm]; decide)
  have hin : 63 ∈ u ++ 63 :: q := by simp
  have hurl : (u ++ 63 :: q).takeWhile (fun b => b != 63) = u := by
    rw [List.takeWhile_append_of_pos (by
      intro b hb
      have : b ≠ 63 := fun e => h63 (e ▸ hb)
      simpa using this)]
    simp
  have hsu : spec_url (m ++ 0 :: zeroed_line_data.method.drop (m.length + 1)) (u ++ 63 :: q)
      = u := by
    unfold spec_url; rw [if_pos hget, hurl]
  have hsq : spec_query (m ++ 0 :: zeroed_line_data.method.drop (m.length + 1)) (u ++ 63 :: q)
      zeroed_line_data.query_string = q := by
    unfold spec_query; rw [if_pos ⟨hget, hin⟩, hurl, drop_append_cons]
  have hsc : spec_cgi (m ++ 0 :: zeroed_line_data.method.drop (m.length + 1)) (u ++ 63 :: q)
      zeroed_line_data.cgi = 1 := by
    unfold spec_cgi; rw [if_pos (Or.inr ⟨hget, hin⟩)]
  have huz : ∀ b ∈ u, b ≠ 0 := fun b hb => (hu b (List.mem_append_left _ hb)).2
  have hqz : ∀ b ∈ q, b ≠ 0 := fun b hb =>
    (hu b (List.mem_append_right _ (List.mem_cons_of_mem _ hb))).2
  have hsp : spec_path u = bytes "htdocs" ++ u := by
    unfold spec_path
    rw [if_neg]
    rw [List.getLast?_append]
    cases hg : u.getLast? with
    | none => simp; decide
    | some x =>
      rw [hg] at hsl
      simpa using hsl
  have h6 : (bytes "htdocs").length = 6 := by decide
  rw [analyze_line m ws (u ++ 63 :: q) tail0 term rest zeroed_line_data
    (fun b hb => (hm1 b hb).1) (by omega) hws hwsne hu hul (by simp) ht hterm hlen
    zeroed_lengths.1 zeroed_lengths.2.1 zeroed_lengths.2.2]
  rw [hsu, hsq, hsc, hsp, if_pos (by rw [List.length_append, h6]; omega), if_pos ⟨hget, hin⟩]
  refine ⟨_, rfl, ?_, rfl, ?_, ?_⟩
  · exact cstr_append_zero _ _ (fun b hb => (hm1 b hb).2)
  · exact cstr_append_zero _ _ hqz
  · exact cstr_append_zero _ _ (htdocs_ne_zero u huz)

/-- The spec's example `GET /a/b?x=1 HTTP/1.0`. -/
theorem analyze_get_query_witness :
    ∃ r, httpd_request_line_analyze
        (bytes "GET" ++ bytes " " ++ (bytes "/a/b" ++ 63 :: bytes "x=1") ++ bytes " HTTP/1.0" ++
          [13, 10] ++ []) zeroed_line_data = (some r, []) ∧
      cstr r.method = bytes "GET" ∧ r.cgi = 1 ∧ cstr r.query_string = bytes "x=1" ∧
      cstr r.path = bytes "htdocs" ++ bytes "/a/b" :=
  analyze_get_query (bytes "GET") (bytes " ") (bytes "/a/b") (bytes "x=1") (bytes " HTTP/1.0")
    [13, 10] [] (by decide) (by decide) (by decide) (by decide) (by decide) (by decide)
    (by decide) (by decide) (by decide) (by decide) (by decide)

theorem line_buffer_length (sock : List Nat) : (line_buffer sock).length = 1024 := by
  have h := get_line_length 1024 sock (List.replicate 1024 0)
  rw [List.length_replicate] at h
  exact h

theorem analyze_eq (sock : List Nat) (req : http_request_line_data_t) :
    httpd_request_line_analyze sock req =
      (request_line_parse (line_buffer sock) req,
       (httpd_get_line_message sock (List.replicate 1024 0) 1024).2.2) := rfl

/-- Every defined result of the parse into the zeroed record, field by field. -/
theorem analyze_some (sock : List Nat) (r : http_request_line_data_t)
    (h : (httpd_request_line_analyze sock zeroed_line_data).1 = some r) :
    (spec_path (spec_url r.method (cstr (raw_url (line_buffer sock))))).length ≤ 254 ∧
    r.method = method_field (line_buffer sock) zeroed_line_data.method ∧
    cstr r.path = spec_path (spec_url r.method (cstr (raw_url (line_buffer sock)))) ∧
    r.cgi = spec_cgi r.method (cstr (raw_url (line_buffer sock))) 0 := by
  rw [analyze_eq] at h
  simp only at h
  rw [request_line_parse_eq _ _ (line_buffer_length sock) zeroed_lengths.1 zeroed_lengths.2.1
    zeroed_lengths.2.2] at h
  split at h
  · rename_i hfit
    have h2 := Option.some.inj h
    subst h2
    refine ⟨hfit, rfl, ?_, rfl⟩
    exact cstr_append_zero _ _ (spec_path_ne_zero _ (spec_url_ne_zero _ _ (cstr_ne_zero _)))
  · exact absurd h (by simp)

set_option maxRecDepth 100000 in
/-- The smallest paths that leave the field: `GET /aaa...a HTTP/1.0` with a URL
of 249 characters (a path of 255 characters), and `GET /aaa...a/ HTTP/1.0` with a
URL of 239 characters ending in `/` (a path of 255 characters once `index.html`
is appended). The `sprintf` of line 278, respectively the `strcat` of line 283,
then writes one byte past the 255-byte `path` field, and the parse with bounded
fields has no result. -/
theorem analyze_path_overflow :
    httpd_request_line_analyze
      (bytes "GET" ++ bytes " " ++ (bytes "/" ++ List.replicate 248 97) ++
        bytes " HTTP/1.0" ++ bytes "\r\n" ++ []) zeroed_line_data = (none, []) ∧
    httpd_request_line_analyze
      (bytes "GET" ++ bytes " " ++ (bytes "/" ++ List.replicate 237 97 ++ bytes "/") ++
        bytes " HTTP/1.0" ++ bytes "\r\n" ++ []) zeroed_line_data = (none, []) := by
  constructor
  · rw [analyze_line (bytes "GET") (bytes " ") (bytes "/" ++ List.replicate 248 97)
      (bytes " HTTP/1.0") (bytes "\r\n") [] zeroed_line_data (by decide) (by decide) (by decide)
      (by decide) (by decide) (by decide) (by decide) (by decide) (by decide) (by decide)
      zeroed_lengths.1 zeroed_lengths.2.1 zeroed_lengths.2.2]
    rw [if_neg (by decide)]
  · rw [analyze_line (bytes "GET") (bytes " ")
      (bytes "/" ++ List.replicate 237 97 ++ bytes "/")
      (bytes " HTTP/1.0") (bytes "\r\n") [] zeroed_line_data (by decide) (by decide) (by decide)
      (by decide) (by decide) (by decide) (by decide) (by decide) (by decide) (by decide)
      zeroed_lengths.1 zeroed_lengths.2.1 zeroed_lengths.2.2]
    rw [if_neg (by decide)]

/-- Within the capacity of the path field: whenever the parse into the zeroed
record has a result, its path is `"htdocs" ++ url ++ "index.html"` when
`"htdocs" ++ url` ends in `/` and `"htdocs" ++ url` otherwise, where `url` is the
URL string of the line buffer after the cut at `?` of a GET; it starts with
`htdocs`. -/
theorem analyze_path (sock : List Nat) (r : http_request_line_data_t)
    (h : (httpd_request_line_analyze sock zeroed_line_data).1 = some r) :
    cstr r.path =
      (if (bytes "htdocs" ++ spec_url r.method (cstr (raw_url (line_buffer sock)))).getLast?
          = some 47 then
        bytes "htdocs" ++ spec_url r.method (cstr (raw_url (line_buffer sock))) ++
          bytes "index.html"
      else bytes "htdocs" ++ spec_url r.method (cstr (raw_url (line_buffer sock)))) ∧
    bytes "htdocs" <+: cstr r.path := by
  obtain ⟨-, -, h3, -⟩ := analyze_some sock r h
  refine ⟨h3, ?_⟩
  rw [h3]
  unfold spec_path
  split
  · rw [List.append_assoc]; exact List.prefix_append _ _
  · exact List.prefix_append _ _

set_option maxRecDepth 100000 in
/-- The spec's example: `GET / HTTP/1.0` gives `htdocs/index.html`. -/
theorem analyze_path_witness :
    (httpd_request_line_analyze (bytes "GET / HTTP/1.0\r\n") zeroed_line_data).1.map
      (fun r => cstr r.path) = some (bytes "htdocs/index.html") := by decide

theorem cstr_take (l : List Nat) (n : Nat) : cstr (l.take n) = (cstr l).take n := by
  unfold cstr
  rw [List.take_takeWhile]

theorem raw_url_eq_take (buf : List Nat) : raw_url buf = (url_token buf).take 254 := rfl

/-- For every connection, the flag set by the GET / POST branch (lines 249-274)
on the line read into the buffer, starting from the zeroed record, is 1 exactly
when the method is case-insensitively POST, or it is case-insensitively GET and the
`url` string contains `?`; and whenever the parse into the freshly zeroed record
has a result, its `cgi` flag is 1 exactly when the method is case-insensitively
POST, or the method is case-insensitively GET and the URL token of the line (read
as a C string, before any cut) contains `?`. -/
theorem analyze_cgi (sock : List Nat) :
    (∃ url1 qs1 cgi1,
      request_line_branch (request_line_tokens (line_buffer sock) zeroed_line_data.method).1
        (request_line_tokens (line_buffer sock) zeroed_line_data.method).2
        zeroed_line_data.query_string zeroed_line_data.cgi = some (url1, qs1, cgi1) ∧
      (cgi1 = 1 ↔
        (ci_eq (request_line_tokens (line_buffer sock) zeroed_line_data.method).1 (bytes "POST") ∨
         (ci_eq (request_line_tokens (line_buffer sock) zeroed_line_data.method).1 (bytes "GET") ∧
          63 ∈ cstr (request_line_tokens (line_buffer sock) zeroed_line_data.method).2)))) ∧
    (∀ r, (httpd_request_line_analyze sock zeroed_line_data).1 = some r →
      (r.cgi = 1 ↔
        (ci_eq r.method (bytes "POST") ∨
         (ci_eq r.method (bytes "GET") ∧ 63 ∈ cstr (url_token (line_buffer sock)))))) := by
  have hcgi : ∀ (M V : List Nat), spec_cgi M V 0 = 1 ↔
      (ci_eq M (bytes "POST") ∨ (ci_eq M (bytes "GET") ∧ 63 ∈ V)) := by
    intro M V
    unfold spec_cgi
    constructor
    · intro hc
      split at hc
      · assumption
      · exact absurd hc (by decide)
    · intro hcond
      rw [if_pos hcond]
  constructor
  · rw [request_line_tokens_eq _ _ (line_buffer_length sock) zeroed_lengths.1]
    simp only
    obtain ⟨rest, hrest⟩ := split_cstr (raw_url (line_buffer sock))
      (List.replicate (254 - (raw_url (line_buffer sock)).length) 0)
    have h2 := raw_url_length (line_buffer sock)
    have hlen : (cstr (raw_url (line_buffer sock)) ++ 0 :: rest).length ≤ 255 := by
      rw [← hrest]
      simp only [List.length_append, List.length_cons, List.length_replicate]
      omega
    rw [cstr_append_zero_left, hrest]
    obtain ⟨url1, rest1, e1, -⟩ := request_line_branch_eq
      (raw_method (line_buffer sock) ++
        0 :: zeroed_line_data.method.drop ((raw_method (line_buffer sock)).length + 1))
      (cstr (raw_url (line_buffer sock))) rest zeroed_line_data.query_string
      zeroed_line_data.cgi (cstr_ne_zero _) hlen zeroed_lengths.2.2
    exact ⟨_, _, _, e1, hcgi _ _⟩
  intro r h
  obtain ⟨h1, -, -, h4⟩ := analyze_some sock r h
  have key : ci_eq r.method (bytes "GET") →
      (63 ∈ cstr (raw_url (line_buffer sock)) ↔ 63 ∈ cstr (url_token (line_buffer sock))) := by
    intro hget
    rw [raw_url_eq_take, cstr_take]
    constructor
    · exact fun hin => List.mem_of_mem_take hin
    · intro hin
      by_contra hnot
      have e1 : spec_url r.method (cstr (raw_url (line_buffer sock)))
          = (cstr (url_token (line_buffer sock))).take 254 := by
        unfold spec_url
        rw [if_pos hget, raw_url_eq_take, cstr_take, takeWhile_query_of_not_mem _ hnot]
      have h5 := spec_path_length (spec_url r.method (cstr (raw_url (line_buffer sock))))
      rw [e1] at h5
      have h1b := h1
      rw [e1] at h1b
      have h6 : ((cstr (url_token (line_buffer sock))).take 254).length < 254 := by omega
      rw [List.length_take] at h6
      have h7 : (cstr (url_token (line_buffer sock))).take 254
          = cstr (url_token (line_buffer sock)) := List.take_of_length_le (by omega)
      rw [h7] at hnot
      exact hnot hin
  rw [h4, hcgi]
  constructor
  · rintro (hp | ⟨hg, hin⟩)
    · exact Or.inl hp
    · exact Or.inr ⟨hg, (key hg).mp hin⟩
  · rintro (hp | ⟨hg, hin⟩)
    · exact Or.inl hp
    · exact Or.inr ⟨hg, (key hg).mpr hin⟩

set_option maxRecDepth 100000 in
/-- The example `GET /a/b?x=1 HTTP/1.0`: the parse has a result, and its flag
is 1. -/
theorem analyze_cgi_witness :
    (httpd_request_line_analyze (bytes "GET /a/b?x=1 HTTP/1.0\r\n") zeroed_line_data).1
      = some { method := bytes "GET" ++ List.replicate 7 0,
               path := bytes "htdocs/a/b" ++ List.replicate 245 0,
               query_string := bytes "x=1" ++ List.replicate 252 0, cgi := 1 } ∧
    ((1 : Int) = 1 ↔
      (ci_eq (bytes "GET" ++ List.replicate 7 0) (bytes "POST") ∨
       (ci_eq (bytes "GET" ++ List.replicate 7 0) (bytes "GET") ∧
        63 ∈ cstr (url_token (line_buffer (bytes "GET /a/b?x=1 HTTP/1.0\r\n")))))) :=
  ⟨by decide, (analyze_cgi (bytes "GET /a/b?x=1 HTTP/1.0\r\n")).2
    { method := bytes "GET" ++ List.replicate 7 0,
      path := bytes "htdocs/a/b" ++ List.replicate 245 0,
      query_string := bytes "x=1" ++ List.replicate 252 0, cgi := 1 } (by decide)⟩

/-! ## The fuel of the header loops is enough -/

theorem get_line_consumes (size : Nat) (sock buf : List Nat) :
    (httpd_get_line_message sock buf size).2.2.length
      + (httpd_get_line_message sock buf size).2.1 ≤ sock.length := by
  obtain ⟨-, -, -, -, b5⟩ := get_line_loop_bounds size sock buf 0 0 (Nat.zero_le _)
  have e : httpd_get_line_message sock buf size =
      ((httpd_get_line_loop size sock buf 0 0).1.set (httpd_get_line_loop size sock buf 0 0).2.1 0,
       (httpd_get_line_loop size sock buf 0 0).2.1,
       (httpd_get_line_loop size sock buf 0 0).2.2) := rfl
  rw [e]
  simpa using b5

theorem header_loop_post_zero (fuel : Nat) (sock buf : List Nat) (cl : Int) :
    header_loop_post fuel sock buf 0 cl = (cl, sock) := by
  cases fuel with
  | zero => rfl
  | succ f => rw [header_loop_post, if_neg (by omega)]

/-- With fuel above the number of bytes still to arrive, the POST loop ends
through its own condition: more fuel does not change its result. -/
theorem header_loop_post_fuel (k : Nat) :
    ∀ (sock buf : List Nat) (n : Nat) (cl : Int) (f1 f2 : Nat),
      sock.length ≤ k → k + 1 ≤ f1 → k + 1 ≤ f2 →
      header_loop_post f1 sock buf n cl = header_loop_post f2 sock buf n cl := by
  induction k with
  | zero =>
    intro sock buf n cl f1 f2 hs h1 h2
    obtain ⟨g1, rfl⟩ : ∃ g, f1 = g + 1 := ⟨f1 - 1, by omega⟩
    obtain ⟨g2, rfl⟩ : ∃ g, f2 = g + 1 := ⟨f2 - 1, by omega⟩
    have hnil : sock = [] := List.length_eq_zero.mp (by omega)
    subst hnil
    rw [header_loop_post, header_loop_post]
    split
    · have hc := get_line_consumes 1024 [] (buf.set 15 0)
      have h0 : (httpd_get_line_message [] (buf.set 15 0) 1024).2.1 = 0 := by
        simp at hc; omega
      simp only
      generalize httpd_get_line_message [] (buf.set 15 0) 1024 = r at h0
      obtain ⟨b2, n2, rest⟩ := r
      simp only at h0
      subst h0
      simp only [header_loop_post_zero]
    · rfl
  | succ k ih =>
    intro sock buf n cl f1 f2 hs h1 h2
    obtain ⟨g1, rfl⟩ : ∃ g, f1 = g + 1 := ⟨f1 - 1, by omega⟩
    obtain ⟨g2, rfl⟩ : ∃ g, f2 = g + 1 := ⟨f2 - 1, by omega⟩
    rw [header_loop_post, header_loop_post]
    split
    · have hc := get_line_consumes 1024 sock (buf.set 15 0)
      simp only
      generalize httpd_get_line_message sock (buf.set 15 0) 1024 = r at hc
      obtain ⟨b2, n2, rest⟩ := r
      simp only at hc ⊢
      by_cases hn : n2 = 0
      · subst hn
        simp only [header_loop_post_zero]
      · exact ih rest b2 n2 _ g1 g2 (by omega) (by omega) (by omega)
    · rfl

theorem header_loop_other_zero (fuel : Nat) (sock buf : List Nat) :
    header_loop_other fuel sock buf 0 = sock := by
  cases fuel with
  | zero => rfl
  | succ f => rw [header_loop_other, if_neg (by omega)]

/-- With fuel above the number of bytes still to arrive, the loop for the other
methods ends through its own condition. -/
theorem header_loop_other_fuel (k : Nat) :
    ∀ (sock buf : List Nat) (n : Nat) (f1 f2 : Nat),
      sock.length ≤ k → k + 1 ≤ f1 → k + 1 ≤ f2 →
      header_loop_other f1 sock buf n = header_loop_other f2 sock buf n := by
  induction k with
  | zero =>
    intro sock buf n f1 f2 hs h1 h2
    obtain ⟨g1, rfl⟩ : ∃ g, f1 = g + 1 := ⟨f1 - 1, by omega⟩
    obtain ⟨g2, rfl⟩ : ∃ g, f2 = g + 1 := ⟨f2 - 1, by omega⟩
    have hnil : sock = [] := List.length_eq_zero.mp (by omega)
    subst hnil
    rw [header_loop_other, header_loop_other]
    split
    · have hc := get_line_consumes 1024 [] buf
      have h0 : (httpd_get_line_message [] buf 1024).2.1 = 0 := by
        simp at hc; omega
      simp only
      generalize httpd_get_line_message [] buf 1024 = r at h0
      obtain ⟨b2, n2, rest⟩ := r
      simp only at h0
      subst h0
      simp only [header_loop_other_zero]
    · rfl
  | succ k ih =>
    intro sock buf n f1 f2 hs h1 h2
    obtain ⟨g1, rfl⟩ : ∃ g, f1 = g + 1 := ⟨f1 - 1, by omega⟩
    obtain ⟨g2, rfl⟩ : ∃ g, f2 = g + 1 := ⟨f2 - 1, by omega⟩
    rw [header_loop_other, header_loop_other]
    split
    · have hc := get_line_consumes 1024 sock buf
      simp only
      generalize httpd_get_line_message sock buf 1024 = r at hc
      obtain ⟨b2, n2, rest⟩ := r
      simp only at hc ⊢
      by_cases hn : n2 = 0
      · subst hn
        simp only [header_loop_other_zero]
      · exact ih rest b2 n2 g1 g2 (by omega) (by omega) (by omega)
    · rfl

/-! ## Header scanner: one header line -/

theorem strcmp_eq_zero (a : List Nat) : ∀ b, strcmp a b = 0 ↔ cstr a = cstr b := by
  induction a with
  | nil =>
    intro b
    cases b with
    | nil => simp [strcmp]
    | cons b bs =>
      by_cases hb : b = 0
      · subst hb; simp [strcmp, cstr_cons, cstr_nil]
      · simp [strcmp, cstr_cons, cstr_nil, hb]
  | cons a as ih =>
    intro b
    cases b with
    | nil =>
      by_cases ha : a = 0
      · subst ha; simp [strcmp, cstr_cons, cstr_nil]
      · simp [strcmp, cstr_cons, cstr_nil, ha]
    | cons b bs =>
      rw [strcmp]
      by_cases hab : a = b
      · subst hab
        rw [if_neg (by simp)]
        by_cases ha : a = 0
        · simp [ha, cstr_cons]
        · rw [if_neg ha, ih bs]
          simp [cstr_cons, ha]
      · rw [if_pos hab]
        constructor
        · intro h; exfalso; omega
        · intro h
          exfalso
          by_cases ha0 : a = 0
          · have hb0 : b ≠ 0 := fun e => hab (by rw [ha0, e])
            simp [cstr_cons, ha0, hb0] at h
          · by_cases hb0 : b = 0
            · simp [cstr_cons, ha0, hb0] at h
            · simp [cstr_cons, ha0, hb0] at h
              exact hab h.1

theorem cstr_set_zero (l : List Nat) (k : Nat) (h : k < l.length) :
    cstr (l.set k 0) = cstr (l.take k) := by
  rw [List.set_eq_take_append_cons_drop, if_pos h, cstr_append_zero_left]

theorem atoi_digits_append (y t : List Nat) : ∀ acc,
    atoi_digits (y ++ 10 :: t) acc = atoi_digits y acc := by
  induction y with
  | nil => intro acc; simp [atoi_digits]
  | cons d y ih =>
    intro acc
    rw [List.cons_append, atoi_digits, atoi_digits, ih]

theorem strtol_cons_space (a : Nat) (l : List Nat) (h : isspace a = true) :
    strtol_value (a :: l) = strtol_value l := by
  unfold strtol_value
  rw [List.dropWhile_cons_of_pos h]

theorem strtol_cons_not_space (a : Nat) (l : List Nat) (h : isspace a = false) :
    strtol_value (a :: l) =
      if a = 45 then - atoi_digits l 0
      else if a = 43 then atoi_digits l 0
      else atoi_digits (a :: l) 0 := by
  unfold strtol_value
  rw [List.dropWhile_cons_of_neg (by simp [h])]

/-- The number read by `strtol` does not depend on what follows the newline that
ends a line in the buffer. -/
theorem strtol_append (x t : List Nat) : strtol_value (x ++ 10 :: 0 :: t) = strtol_value x := by
  induction x with
  | nil =>
    rw [List.nil_append, strtol_cons_space _ _ (by decide),
      strtol_cons_not_space _ _ (by decide)]
    simp [atoi_digits, strtol_value]
  | cons a x ih =>
    by_cases ha : isspace a = true
    · rw [List.cons_append, strtol_cons_space _ _ ha, strtol_cons_space _ _ ha, ih]
    · have ha2 : isspace a = false := by simpa using ha
      rw [List.cons_append, strtol_cons_not_space _ _ ha2, strtol_cons_not_space _ _ ha2,
        atoi_digits_append, ← List.cons_append, atoi_digits_append]

theorem atoi_digits_value (ds : List Nat) (hd : ∀ d ∈ ds, 48 ≤ d ∧ d ≤ 57) :
    ∀ a : Nat, atoi_digits ds (a : Int)
      = ((ds.foldl (fun a d => a * 10 + (d - 48)) a : Nat) : Int) := by
  induction ds with
  | nil => intro a; rfl
  | cons d ds ih =>
    intro a
    have h1 := hd d (List.mem_cons_self _ _)
    rw [atoi_digits, if_pos h1, List.foldl_cons,
      ← ih (fun x hx => hd x (List.mem_cons_of_mem _ hx))]
    congr 1
    push_cast [Nat.cast_sub h1.1]
    ring

theorem strtol_decimal (ds : List Nat) (hd : ∀ d ∈ ds, 48 ≤ d ∧ d ≤ 57) :
    strtol_value ds = (decimal_value ds : Int) := by
  unfold decimal_value
  cases ds with
  | nil => rfl
  | cons d ds =>
    have h1 := hd d (List.mem_cons_self _ _)
    rw [strtol_cons_not_space _ _ (by unfold isspace; simp; omega), if_neg (by omega),
      if_neg (by omega)]
    exact atoi_digits_value _ hd 0

/-- The result of `atoi` does not depend on what follows the newline that ends a
line in the buffer. -/
theorem atoi_append (x t : List Nat) : atoi (x ++ 10 :: 0 :: t) = atoi x := by
  unfold atoi; rw [strtol_append]

theorem atoi_zero_cons (t : List Nat) : atoi (0 :: t) = atoi [] := by
  unfold atoi
  rw [strtol_cons_not_space _ _ (by decide)]
  simp [atoi_digits, strtol_value]

/-- On a string of decimal digits whose number fits an `int`, `atoi` gives it. -/
theorem atoi_decimal (ds : List Nat) (hd : ∀ d ∈ ds, 48 ≤ d ∧ d ≤ 57)
    (hn : decimal_value ds < 2 ^ 31) : atoi ds = (decimal_value ds : Int) := by
  unfold atoi
  rw [strtol_decimal ds hd]
  have h0 : (0 : Int) ≤ (decimal_value ds : Int) := Int.ofNat_nonneg _
  have h1 : ((decimal_value ds : Nat) : Int) < 2 ^ 31 := by exact_mod_cast hn
  rw [min_eq_right (by omega), max_eq_right (by omega)]
  omega

theorem cstr_prefix (l : List Nat) : cstr l <+: l := List.takeWhile_prefix _

/-- A line shorter than 15 characters does not match, in the buffer or alone. -/
theorem short_line_no_match (x : List Nat) (hx : x.length ≤ 15)
    (hlast : x.length = 15 → x.getLast? = some 10) :
    ¬ (cstr x).map tolower = (cstr (bytes "Content-Length:")).map tolower := by
  intro h
  have hl : (cstr x).length = 15 := by
    have := congrArg List.length h
    rw [List.length_map] at this
    rw [this]; decide
  have hp := cstr_prefix x
  have hle := hp.length_le
  have hxe : cstr x = x := hp.eq_of_length (by omega)
  have hx15 : x.length = 15 := by omega
  have h2 := hlast hx15
  rw [hxe] at h
  have h3 : (x.map tolower).getLast? = some (tolower 10) := by
    rw [List.getLast?_map, h2]; rfl
  rw [h] at h3
  revert h3
  decide

theorem header_match (h tail : List Nat) (hl : 15 < (h ++ 10 :: 0 :: tail).length) :
    strcasecmp ((h ++ 10 :: 0 :: tail).set 15 0) (bytes "Content-Length:") = 0
      ↔ is_content_length h := by
  rw [strcasecmp_eq_zero]
  unfold is_content_length ci_eq
  rw [cstr_set_zero _ _ hl]
  by_cases h15 : 15 ≤ h.length
  · rw [List.take_append_of_le_length h15]
  · have hn1 : ¬ (cstr (h.take 15)).map tolower
        = (cstr (bytes "Content-Length:")).map tolower :=
      short_line_no_match _ (List.length_take_le _ _)
        (fun e => by rw [List.length_take] at e; omega)
    have hn2 : ¬ (cstr ((h ++ 10 :: 0 :: tail).take 15)).map tolower
        = (cstr (bytes "Content-Length:")).map tolower := by
      by_cases h14 : h.length = 14
      · have e : (h ++ 10 :: 0 :: tail).take 15 = h ++ [10] := by
          rw [List.take_append_eq_append_take, List.take_of_length_le (by omega), h14]
          rfl
        rw [e]
        exact short_line_no_match _ (by simp; omega) (fun _ => by simp)
      · have e : ∃ r, (h ++ 10 :: 0 :: tail).take 15 = (h ++ [10]) ++ 0 :: r := by
          refine ⟨tail.take (15 - h.length - 2), ?_⟩
          rw [List.take_append_eq_append_take, List.take_of_length_le (by omega)]
          obtain ⟨k, hk⟩ : ∃ k, 15 - h.length = k + 2 := ⟨15 - h.length - 2, by omega⟩
          rw [hk]
          simp
        obtain ⟨r, e⟩ := e
        rw [e, cstr_append_zero_left]
        exact short_line_no_match _ (by simp; omega) (fun _ => by simp)
    exact ⟨fun x => absurd x hn2, fun x => absurd x hn1⟩

/-- Lines 311-316 on a buffer holding the line `h`: the new content length is
`content_length_of cl h`, whatever older bytes the buffer still holds. -/
theorem header_step (h tail : List Nat) (cl : Int)
    (hl : 15 < (h ++ 10 :: 0 :: tail).length) :
    (if strcasecmp ((h ++ 10 :: 0 :: tail).set 15 0) (bytes "Content-Length:") = 0 then
        atoi (((h ++ 10 :: 0 :: tail).set 15 0).drop 16)
      else cl) = content_length_of cl h := by
  unfold content_length_of
  by_cases hm : is_content_length h
  · rw [if_pos ((header_match h tail hl).mpr hm), if_pos hm,
      List.drop_set_of_lt _ _ (by omega)]
    by_cases h16 : 16 ≤ h.length
    · rw [List.drop_append_of_le_length h16, atoi_append]
    · have h15 : h.length = 15 := by
        by_contra hne
        have hlt : h.length < 15 := by omega
        unfold is_content_length ci_eq at hm
        exact short_line_no_match _ (List.length_take_le _ _)
          (fun e => by rw [List.length_take] at e; omega) hm
      have e1 : (h ++ 10 :: 0 :: tail).drop 16 = 0 :: tail := by
        have := drop_append_cons h (0 :: tail) 10
        rw [h15] at this
        exact this
      rw [e1, List.drop_eq_nil_of_le (by omega), atoi_zero_cons]
  · rw [if_neg (fun x => hm ((header_match h tail hl).mp x)), if_neg hm]

theorem get_line_wire (l : List Nat × Bool) (rest buf : List Nat)
    (hl : ∀ b ∈ l.1, b ≠ 13 ∧ b ≠ 10) (h1 : l.1.length < 1023) (hb : buf.length = 1024) :
    httpd_get_line_message (wire l ++ rest) buf 1024
      = (l.1 ++ 10 :: 0 :: buf.drop (l.1.length + 2), l.1.length + 1, rest) := by
  unfold wire
  cases l.2
  · simp only [Bool.false_eq_true, if_false]
    rw [List.append_assoc]
    exact get_line_lf 1024 l.1 rest buf hl (by omega) (by omega)
  · simp only [if_true]
    rw [List.append_assoc]
    exact get_line_crlf 1024 l.1 rest buf hl (by omega) (by omega)

/-! ## Header scanner: the whole block -/

theorem strcmp_lf_line (h tail : List Nat) (hne : h ≠ []) (hh : ∀ b ∈ h, b ≠ 13 ∧ b ≠ 10) :
    strcmp (bytes "\n") (h ++ 10 :: 0 :: tail) ≠ 0 := by
  rw [Ne, strcmp_eq_zero]
  obtain ⟨x, h2, rfl⟩ := List.exists_cons_of_ne_nil hne
  have hx := (hh x (List.mem_cons_self _ _)).2
  rw [List.cons_append, cstr_cons]
  have e : cstr (bytes "\n") = [10] := by decide
  rw [e]
  split
  · simp
  · intro hc
    exact hx (List.cons.inj hc).1.symm

theorem strcmp_lf_empty (tail : List Nat) : strcmp (bytes "\n") (10 :: 0 :: tail) = 0 := by
  rw [strcmp_eq_zero]
  have e : cstr (bytes "\n") = [10] := by decide
  rw [e, cstr_cons, if_neg (by decide), cstr_cons, if_pos rfl]

theorem header_loop_post_done (fuel : Nat) (sock tail : List Nat) (cl : Int) :
    header_loop_post fuel sock (10 :: 0 :: tail) 1 cl = (cl, sock) := by
  cases fuel with
  | zero => rfl
  | succ f =>
    rw [header_loop_post, if_neg (by
      intro hc
      exact hc.2 (strcmp_lf_empty tail))]

/-- The POST loop over the header lines `ls`, the empty line and the body, entered
with the line `h` in the buffer: the content length is updated line by line, and
the body is left unread. Fuel of one more than the number of lines is enough. -/
theorem header_loop_post_lines (body : List Nat) (t : Bool) :
    ∀ (ls : List (List Nat × Bool)) (h tail : List Nat) (cl : Int) (fuel : Nat),
      (∀ l ∈ ls, header_line l.1) → header_line h →
      (h ++ 10 :: 0 :: tail).length = 1024 → ls.length + 1 ≤ fuel →
      header_loop_post fuel (wires ls ++ wire ([], t) ++ body) (h ++ 10 :: 0 :: tail)
          (h.length + 1) cl
        = (List.foldl content_length_of cl (h :: ls.map Prod.fst), body) := by
  intro ls
  induction ls with
  | nil =>
    intro h tail cl fuel _ hh hlen hf
    obtain ⟨f, rfl⟩ : ∃ f, fuel = f + 1 := ⟨fuel - 1, by omega⟩
    rw [header_loop_post, if_pos ⟨by omega, strcmp_lf_line h tail hh.1 hh.2.1⟩]
    simp only
    rw [header_step h tail cl (by omega)]
    have e : wires [] ++ wire ([], t) ++ body = wire ([], t) ++ body := rfl
    rw [e, get_line_wire ([], t) body _ (by simp) (by simp) (by simpa using hlen)]
    exact header_loop_post_done _ _ _ _
  | cons l ls ih =>
    intro h tail cl fuel hls hh hlen hf
    obtain ⟨f, rfl⟩ : ∃ f, fuel = f + 1 := ⟨fuel - 1, by simp at hf; omega⟩
    have hl := hls l (List.mem_cons_self _ _)
    rw [header_loop_post, if_pos ⟨by omega, strcmp_lf_line h tail hh.1 hh.2.1⟩]
    simp only
    rw [header_step h tail cl (by omega)]
    have e : wires (l :: ls) ++ wire ([], t) ++ body
        = wire l ++ (wires ls ++ wire ([], t) ++ body) := by
      simp [wires, List.append_assoc]
    have hlen2 : ((h ++ 10 :: 0 :: tail).set 15 0).length = 1024 := by simpa using hlen
    rw [e, get_line_wire l _ _ hl.2.1 hl.2.2 hlen2]
    simp only
    rw [ih l.1 _ _ f (fun x hx => hls x (List.mem_cons_of_mem _ hx)) hl
      (by
        simp only [List.length_append, List.length_cons, List.length_drop, hlen2]
        have := hl.2.2
        omega)
      (by simp at hf; omega)]
    rfl

theorem wires_length (ls : List (List Nat × Bool)) : ls.length ≤ (wires ls).length := by
  induction ls with
  | nil => simp [wires]
  | cons l ls ih =>
    simp only [wires, List.length_cons, List.length_append, wire]
    split <;> simp <;> omega

/-- The header scan of a POST: on header lines `ls`, an empty line and a body, the
content length is updated line by line from its prior value and exactly the body
is left unread. -/
theorem header_analyze_post (ls : List (List Nat × Bool)) (t : Bool) (body method : List Nat)
    (cl : Int) (hm : ci_eq method (bytes "POST")) (hls : ∀ l ∈ ls, header_line l.1) :
    httpd_request_header_analyze (wires ls ++ wire ([], t) ++ body) method cl
      = (List.foldl content_length_of cl (ls.map Prod.fst), body) := by
  unfold httpd_request_header_analyze
  simp only
  rw [if_pos ((strcasecmp_eq_zero _ _).mpr hm)]
  have hz : (List.replicate 1024 0).length = 1024 := List.length_replicate _ _
  cases ls with
  | nil =>
    have e : wires [] ++ wire ([], t) ++ body = wire ([], t) ++ body := rfl
    rw [e, get_line_wire ([], t) body _ (by simp) (by simp) hz]
    exact header_loop_post_done _ _ _ _
  | cons l ls =>
    have hl := hls l (List.mem_cons_self _ _)
    have e : wires (l :: ls) ++ wire ([], t) ++ body
        = wire l ++ (wires ls ++ wire ([], t) ++ body) := by
      simp [wires, List.append_assoc]
    rw [e, get_line_wire l _ _ hl.2.1 hl.2.2 hz]
    simp only
    rw [header_loop_post_lines body t ls l.1 _ cl _
      (fun x hx => hls x (List.mem_cons_of_mem _ hx)) hl
      (by
        simp only [List.length_append, List.length_cons, List.length_drop, hz]
        have := hl.2.2
        omega)
      (by
        have := wires_length ls
        simp only [List.length_append]
        omega)]
    rfl

/-! ## The POST body relay -/

theorem cgi_relay_prefix (pre post : List Nat) : ∀ (c : Nat) (pipe : List Nat),
    (cgi_relay pre.length (pre ++ post) c pipe).1 = post ∧
    (cgi_relay pre.length (pre ++ post) c pipe).2.2 = pipe ++ pre := by
  induction pre with
  | nil => intro c pipe; simp [cgi_relay]
  | cons b pre ih =>
    intro c pipe
    obtain ⟨h1, h2⟩ := ih b (pipe ++ [b])
    have e : cgi_relay (b :: pre).length (b :: pre ++ post) c pipe
        = cgi_relay pre.length (pre ++ post) b (pipe ++ [b]) := rfl
    rw [e]
    exact ⟨h1, by rw [h2]; simp⟩

theorem cgi_relay_body (n : Nat) (body : List Nat) (h : n ≤ body.length) :
    (cgi_relay n body 0 []).1 = body.drop n ∧ (cgi_relay n body 0 []).2.2 = body.take n := by
  have hl : (body.take n).length = n := by rw [List.length_take]; omega
  have := cgi_relay_prefix (body.take n) (body.drop n) 0 []
  rw [hl, List.take_append_drop] at this
  simpa using this

/-- The parse of a POST request line, the header scan and the relay, for a request
line whose path fits the path field: the relay runs on the body with the content
length the header lines give. -/
theorem request_then_relay_post (m ws u tail0 term body : List Nat)
    (ls : List (List Nat × Bool)) (t : Bool)
    (hm : m.map tolower = bytes "post")
    (hws : ∀ b ∈ ws, isspace b = true ∧ b ≠ 13 ∧ b ≠ 10) (hwsne : ws ≠ [])
    (hu : ∀ b ∈ u, isspace b = false ∧ b ≠ 0) (hul : u.length ≤ 254) (hune : u ≠ [])
    (hfit : (spec_path u).length ≤ 254)
    (ht : (∀ b ∈ tail0, b ≠ 13 ∧ b ≠ 10) ∧ isspace (tail0.headD 32) = true)
    (hterm : term = [13, 10] ∨ term = [10])
    (hlen : (m ++ ws ++ u ++ tail0).length < 1023)
    (hls : ∀ l ∈ ls, header_line l.1) :
    request_then_relay (m ++ ws ++ u ++ tail0 ++ term ++ (wires ls ++ wire ([], t) ++ body))
      = some ((cgi_relay (List.foldl content_length_of 0 (ls.map Prod.fst)).toNat body 0 []).1,
              (cgi_relay (List.foldl content_length_of 0 (ls.map Prod.fst)).toNat
                body 0 []).2.2) := by
  obtain ⟨hm1, hm2⟩ := tolower_token m (bytes "post") (by decide) hm
  have hm3 : m.length = 4 := hm2
  have hpost : ci_eq (m ++ 0 :: zeroed_line_data.method.drop (m.length + 1)) (bytes "POST") :=
    ci_eq_of_map m _ _ (fun b hb => (hm1 b hb).2) (by rw [hm]; decide)
  have hnget : ¬ ci_eq (m ++ 0 :: zeroed_line_data.method.drop (m.length + 1)) (bytes "GET") :=
    fun hg => get_not_post _ hg hpost
  have hsu : spec_url (m ++ 0 :: zeroed_line_data.method.drop (m.length + 1)) u = u := by
    unfold spec_url; rw [if_neg hnget]
  unfold request_then_relay
  rw [analyze_line m ws u tail0 term _ zeroed_line_data
    (fun b hb => (hm1 b hb).1) (by omega) hws hwsne hu hul hune ht hterm hlen
    zeroed_lengths.1 zeroed_lengths.2.1 zeroed_lengths.2.2]
  rw [hsu, if_pos hfit]
  simp only
  rw [header_analyze_post ls t body _ _ hpost hls]
  simp only
  unfold httpd_execute_cgi_relay
  simp only
  rw [if_pos ((strcasecmp_eq_zero _ _).mpr hpost)]
  rfl

theorem foldl_no_match (hs : List (List Nat × Bool)) (h : ∀ l ∈ hs, ¬ is_content_length l.1) :
    ∀ cl : Int, List.foldl content_length_of cl (hs.map Prod.fst) = cl := by
  induction hs with
  | nil => intro cl; rfl
  | cons l hs ih =>
    intro cl
    rw [List.map_cons, List.foldl_cons]
    have e : content_length_of cl l.1 = cl := by
      unfold content_length_of
      rw [if_neg (h l (List.mem_cons_self _ _))]
    rw [e, ih (fun x hx => h x (List.mem_cons_of_mem _ hx))]

theorem content_length_line (ds : List Nat) (hd : ∀ d ∈ ds, 48 ≤ d ∧ d ≤ 57)
    (hn : decimal_value ds < 2 ^ 31) (cl : Int) :
    content_length_of cl (bytes "Content-Length: " ++ ds) = (decimal_value ds : Int) := by
  have h16 : (bytes "Content-Length: ").length = 16 := by decide
  have hmatch : is_content_length (bytes "Content-Length: " ++ ds) := by
    unfold is_content_length
    rw [List.take_append_of_le_length (by rw [h16]; omega)]
    decide
  have e : (bytes "Content-Length: " ++ ds).drop 16 = ds := by
    rw [← h16]; exact List.drop_left _ _
  unfold content_length_of
  rw [if_pos hmatch, e, atoi_decimal ds hd hn]

set_option maxRecDepth 1000000 in
/-- C6, as stated, fails. With the header lines `Content-Length: 5` and then
`Content-Length: 2` and the body `hello`, the relay writes `he` and leaves `llo`
unread: the last matching line gives the content length. With
`Content-Length: 2147483648` and a body of 2147483648 bytes the relay writes
nothing: the number does not fit the `int` content length. -/
theorem relay_not_first_n_bytes :
    request_then_relay
      (bytes "POST /submit HTTP/1.0\r\nContent-Length: 5\r\nContent-Length: 2\r\n\r\nhello")
      = some (bytes "llo", bytes "he") ∧
    request_then_relay
      (bytes "POST /submit HTTP/1.0\r\nContent-Length: 2147483648\r\n\r\n" ++
        List.replicate 2147483648 97)
      = some (List.replicate 2147483648 97, []) := by
  refine ⟨by decide, ?_⟩
  have key : ∀ body : List Nat, request_then_relay
      (bytes "POST /submit HTTP/1.0\r\nContent-Length: 2147483648\r\n\r\n" ++ body)
      = some (body, []) := by
    intro body
    have h := request_then_relay_post (bytes "POST") (bytes " ") (bytes "/submit")
      (bytes " HTTP/1.0") [13, 10] body [(bytes "Content-Length: 2147483648", true)] true
      (by decide) (by decide) (by decide) (by decide) (by decide) (by decide) (by decide)
      (by decide) (by decide) (by decide) (by decide)
    have e1 : bytes "POST" ++ bytes " " ++ bytes "/submit" ++ bytes " HTTP/1.0" ++ [13, 10] ++
        (wires [(bytes "Content-Length: 2147483648", true)] ++ wire ([], true) ++ body)
        = bytes "POST /submit HTTP/1.0\r\nContent-Length: 2147483648\r\n\r\n" ++ body := by
      have e2 : bytes "POST" ++ bytes " " ++ bytes "/submit" ++ bytes " HTTP/1.0" ++ [13, 10] ++
          (wires [(bytes "Content-Length: 2147483648", true)] ++ wire ([], true))
          = bytes "POST /submit HTTP/1.0\r\nContent-Length: 2147483648\r\n\r\n" := by decide
      rw [← e2]
      simp only [List.append_assoc]
    have e3 : (List.foldl content_length_of 0
        ([(bytes "Content-Length: 2147483648", true)].map Prod.fst)).toNat = 0 := by decide
    rw [e1, e3] at h
    exact h
  exact key _

/-- C6, amended: for every string of decimal digits `ds` of a number `n < 2^31`
and every connection made of a POST request line whose path fits the path field,
header lines (not empty, shorter than 1023 bytes) among which
`Content-Length: ds` is the last whose first 15 characters are case-insensitively
`Content-Length:`, an empty line, and a body of at least `n` bytes: after the
parse of the request line and the header scan, the relay writes exactly the first
`n` bytes of the body to the pipe and leaves the rest of the body unread. -/
theorem post_body_relayed (m ws u tail0 term ds body : List Nat)
    (hs1 hs2 : List (List Nat × Bool)) (tc te : Bool)
    (hm : m.map tolower = bytes "post")
    (hws : ∀ b ∈ ws, isspace b = true ∧ b ≠ 13 ∧ b ≠ 10) (hwsne : ws ≠ [])
    (hu : ∀ b ∈ u, isspace b = false ∧ b ≠ 0) (hul : u.length ≤ 254) (hune : u ≠ [])
    (hfit : (spec_path u).length ≤ 254)
    (ht : (∀ b ∈ tail0, b ≠ 13 ∧ b ≠ 10) ∧ isspace (tail0.headD 32) = true)
    (hterm : term = [13, 10] ∨ term = [10])
    (hlen : (m ++ ws ++ u ++ tail0).length < 1023)
    (h1 : ∀ l ∈ hs1, header_line l.1)
    (h2 : ∀ l ∈ hs2, header_line l.1 ∧ ¬ is_content_length l.1)
    (hd : ∀ d ∈ ds, 48 ≤ d ∧ d ≤ 57) (hdl : (bytes "Content-Length: " ++ ds).length < 1023)
    (hn : decimal_value ds < 2 ^ 31) (hbody : decimal_value ds ≤ body.length) :
    request_then_relay
      (m ++ ws ++ u ++ tail0 ++ term ++
        (wires (hs1 ++ (bytes "Content-Length: " ++ ds, tc) :: hs2) ++ wire ([], te) ++ body))
      = some (body.drop (decimal_value ds), body.take (decimal_value ds)) := by
  have hcl : header_line (bytes "Content-Length: " ++ ds) := by
    refine ⟨by simp [bytes], ?_, hdl⟩
    intro b hb
    rcases List.mem_append.mp hb with h | h
    · have h0 : ∀ b ∈ bytes "Content-Length: ", b ≠ 13 ∧ b ≠ 10 := by decide
      exact h0 b h
    · have := hd b h
      omega
  have hls : ∀ l ∈ hs1 ++ (bytes "Content-Length: " ++ ds, tc) :: hs2, header_line l.1 := by
    intro l hl
    rcases List.mem_append.mp hl with h | h
    · exact h1 l h
    · rcases List.mem_cons.mp h with h | h
      · subst h; exact hcl
      · exact (h2 l h).1
  rw [request_then_relay_post m ws u tail0 term body _ te hm hws hwsne hu hul hune hfit ht
    hterm hlen hls]
  have hfold : List.foldl content_length_of 0
      ((hs1 ++ (bytes "Content-Length: " ++ ds, tc) :: hs2).map Prod.fst)
      = (decimal_value ds : Int) := by
    rw [List.map_append, List.foldl_append, List.map_cons, List.foldl_cons,
      content_length_line ds hd hn, foldl_no_match hs2 (fun l hl => (h2 l hl).2)]
  rw [hfold, Int.toNat_ofNat]
  obtain ⟨e1, e2⟩ := cgi_relay_body (decimal_value ds) body hbody
  rw [e1, e2]

set_option maxRecDepth 100000 in
/-- Witness of C6 amended: `POST /submit HTTP/1.0`, `Host: x`, `Content-Length: 5`,
`Accept: y`, an empty line and the body `hello world`. -/
theorem post_body_relayed_witness :
    request_then_relay
      (bytes "POST" ++ bytes " " ++ bytes "/submit" ++ bytes " HTTP/1.0" ++ [13, 10] ++
        (wires ([(bytes "Host: x", true)] ++ (bytes "Content-Length: " ++ bytes "5", true) ::
          [(bytes "Accept: y", false)]) ++ wire ([], true) ++ bytes "hello world"))
      = some ((bytes "hello world").drop (decimal_value (bytes "5")),
              (bytes "hello world").take (decimal_value (bytes "5"))) :=
  post_body_relayed (bytes "POST") (bytes " ") (bytes "/submit") (bytes " HTTP/1.0") [13, 10]
    (bytes "5") (bytes "hello world") [(bytes "Host: x", true)] [(bytes "Accept: y", false)]
    true true (by decide) (by decide) (by decide) (by decide) (by decide) (by decide)
    (by decide) (by decide) (by decide) (by decide) (by decide) (by decide) (by decide)
    (by decide) (by decide) (by decide)


/-! ## Line reader: the three line terminators -/

theorem get_line_cr (size : Nat) (s r buf : List Nat) (hs : ∀ b ∈ s, b ≠ 13 ∧ b ≠ 10)
    (hr : r.head? ≠ some 10) (h1 : s.length < size - 1) (h2 : s.length + 2 ≤ buf.length) :
    httpd_get_line_message (s ++ 13 :: r) buf size
      = (s ++ 10 :: 0 :: buf.drop (s.length + 2), s.length + 1, r) := by
  obtain ⟨c2, hc2, e⟩ := get_line_loop_plain size s (13 :: r) buf 0 0 hs (by decide)
    (by omega) (by omega)
  unfold httpd_get_line_message
  rw [e, get_line_loop_cons, if_pos ⟨by omega, hc2⟩, if_pos rfl, if_neg hr]
  simp only [Nat.zero_add]
  rw [blit_set_set _ _ _ _ h2]

/-- C17: for a byte string `s` without CR or LF and shorter than `size - 1`, read
into a buffer of at least `size` bytes, the line reader gives the same buffer and
the same return value on `s ++ "\r\n" ++ r` and on `s ++ "\n" ++ r` and leaves
exactly `r` unread; on `s ++ "\r" ++ r`, where `r` does not start with LF, it
gives that buffer and return value again and leaves the whole of `r` unread. The
buffer holds `s`, a line feed and the terminator; the return value is the length
of `s` plus one. -/
theorem get_line_terminator_normalised (size : Nat) (s r buf : List Nat)
    (hs : ∀ b ∈ s, b ≠ 13 ∧ b ≠ 10) (h1 : s.length < size - 1) (h2 : size ≤ buf.length) :
    httpd_get_line_message (s ++ bytes "\r\n" ++ r) buf size
        = (s ++ 10 :: 0 :: buf.drop (s.length + 2), s.length + 1, r) ∧
    httpd_get_line_message (s ++ bytes "\n" ++ r) buf size
        = (s ++ 10 :: 0 :: buf.drop (s.length + 2), s.length + 1, r) ∧
    (r.head? ≠ some 10 →
      httpd_get_line_message (s ++ bytes "\r" ++ r) buf size
        = (s ++ 10 :: 0 :: buf.drop (s.length + 2), s.length + 1, r)) := by
  have e1 : s ++ bytes "\r\n" ++ r = s ++ 13 :: 10 :: r := by
    rw [List.append_assoc]; rfl
  have e2 : s ++ bytes "\n" ++ r = s ++ 10 :: r := by
    rw [List.append_assoc]; rfl
  have e3 : s ++ bytes "\r" ++ r = s ++ 13 :: r := by
    rw [List.append_assoc]; rfl
  rw [e1, e2, e3]
  exact ⟨get_line_crlf size s r buf hs h1 (by omega), get_line_lf size s r buf hs h1 (by omega),
    fun hr => get_line_cr size s r buf hs hr h1 (by omega)⟩

theorem get_line_terminator_normalised_witness :
    (∀ b ∈ bytes "GET /", b ≠ 13 ∧ b ≠ 10) ∧ (bytes "GET /").length < 8 - 1 ∧
    8 ≤ (List.replicate 8 7).length ∧
    (httpd_get_line_message (bytes "GET /" ++ bytes "\r\n" ++ bytes "Host") (List.replicate 8 7) 8
        = (bytes "GET /" ++ 10 :: 0 :: (List.replicate 8 7).drop ((bytes "GET /").length + 2),
            (bytes "GET /").length + 1, bytes "Host") ∧
    httpd_get_line_message (bytes "GET /" ++ bytes "\n" ++ bytes "Host") (List.replicate 8 7) 8
        = (bytes "GET /" ++ 10 :: 0 :: (List.replicate 8 7).drop ((bytes "GET /").length + 2),
            (bytes "GET /").length + 1, bytes "Host") ∧
    ((bytes "Host").head? ≠ some 10 →
      httpd_get_line_message (bytes "GET /" ++ bytes "\r" ++ bytes "Host") (List.replicate 8 7) 8
        = (bytes "GET /" ++ 10 :: 0 :: (List.replicate 8 7).drop ((bytes "GET /").length + 2),
            (bytes "GET /").length + 1, bytes "Host"))) :=
  ⟨by decide, by decide, by decide,
    get_line_terminator_normalised 8 (bytes "GET /") (bytes "Host") (List.replicate 8 7)
      (by decide) (by decide) (by decide)⟩


/-! ## Header scanner: the content length is taken from the last matching line -/

theorem foldl_content_length (hs : List (List Nat)) :
    ∀ cl : Int, List.foldl content_length_of cl hs = last_content_length cl hs := by
  induction hs with
  | nil => intro cl; rfl
  | cons h hs ih =>
    intro cl
    rw [List.foldl_cons, ih]
    unfold last_content_length
    rw [List.reverse_cons, List.find?_append]
    cases hf : List.find? (fun h => decide (is_content_length h)) hs.reverse with
    | some x => rfl
    | none =>
      unfold content_length_of
      by_cases hm : is_content_length h <;> simp [hm]

theorem atoi_digits_takeWhile (s : List Nat) :
    ∀ acc : Int, atoi_digits s acc = atoi_digits (s.takeWhile isdigit) acc := by
  induction s with
  | nil => intro acc; rfl
  | cons d s ih =>
    intro acc
    by_cases hd : 48 ≤ d ∧ d ≤ 57
    · have hd2 : isdigit d = true := by simp [isdigit, hd]
      rw [List.takeWhile_cons_of_pos hd2, atoi_digits, atoi_digits, if_pos hd, if_pos hd, ih]
    · have hd2 : ¬ isdigit d = true := by simp [isdigit]; omega
      rw [List.takeWhile_cons_of_neg hd2]
      simp only [atoi_digits, if_neg hd]

/-- Where a decimal digit stands at the head of `s` and the digits that start
there denote a number below 2^31, `atoi` gives that number. -/
theorem atoi_decimal_at (s : List Nat) (hd : isdigit (s.headD 0) = true)
    (hn : decimal_at s < 2 ^ 31) : atoi s = (decimal_at s : Int) := by
  cases s with
  | nil => exact absurd hd (by decide)
  | cons d rest =>
    have hd1 : 48 ≤ d ∧ d ≤ 57 := by simpa [isdigit] using hd
    have hdig : ∀ x ∈ (d :: rest).takeWhile isdigit, 48 ≤ x ∧ x ≤ 57 := by
      intro x hx
      have := List.mem_takeWhile_imp hx
      simpa [isdigit] using this
    have e : strtol_value (d :: rest) = (decimal_at (d :: rest) : Int) := by
      rw [strtol_cons_not_space _ _ (by unfold isspace; simp; omega), if_neg (by omega),
        if_neg (by omega), atoi_digits_takeWhile]
      exact atoi_digits_value _ hdig 0
    unfold atoi
    rw [e]
    have h0 : (0 : Int) ≤ (decimal_at (d :: rest) : Int) := Int.ofNat_nonneg _
    have h1 : ((decimal_at (d :: rest) : Nat) : Int) < 2 ^ 31 := by exact_mod_cast hn
    rw [min_eq_right (by omega), max_eq_right (by omega)]
    omega

set_option maxRecDepth 100000 in
/-- C14, as stated, fails. For a POST whose header block is the line
`Content-Length: 2147483648`, the decimal integer that starts at index 16 is
2147483648, and the header scanner returns -2147483648: `atoi` reduces the number
to the 32 bits of the `int` content length. -/
theorem content_length_not_decimal :
    (httpd_request_header_analyze
        (wires [(bytes "Content-Length: 2147483648", true)] ++ wire ([], true) ++ bytes "x")
        (bytes "POST\x00\x00\x00\x00\x00\x00") 0).1 = -2147483648 ∧
    decimal_content_length 0 [bytes "Content-Length: 2147483648"] = 2147483648 ∧
    (httpd_request_header_analyze
        (wires [(bytes "Content-Length: 2147483648", true)] ++ wire ([], true) ++ bytes "x")
        (bytes "POST\x00\x00\x00\x00\x00\x00") 0).1
      ≠ decimal_content_length 0
          ([(bytes "Content-Length: 2147483648", true)].map Prod.fst) := by
  have h := header_analyze_post [(bytes "Content-Length: 2147483648", true)] true (bytes "x")
    (bytes "POST\x00\x00\x00\x00\x00\x00") 0 (by decide) (by decide)
  rw [h]
  decide

/-- C14, amended: for a POST request and a header block of non-empty lines
shorter than 1023 bytes, each ended by CRLF or LF, followed by an empty line, the
header scanner returns as content length what `atoi` reads at index 16 of the
last line whose first 15 characters equal `Content-Length:` in any letter case,
and the prior value when no line matches; and when a decimal digit stands at
index 16 of that line and the digits that start there denote a number below 2^31
(or no line matches), this is the decimal integer that starts at index 16. -/
theorem header_content_length (ls : List (List Nat × Bool)) (t : Bool)
    (body method : List Nat) (cl : Int) (hm : ci_eq method (bytes "POST"))
    (hls : ∀ l ∈ ls, header_line l.1) :
    (httpd_request_header_analyze (wires ls ++ wire ([], t) ++ body) method cl).1
      = last_content_length cl (ls.map Prod.fst) ∧
    ((∀ h, last_content_length_line (ls.map Prod.fst) = some h →
        isdigit ((h.drop 16).headD 0) = true ∧ decimal_at (h.drop 16) < 2 ^ 31) →
      (httpd_request_header_analyze (wires ls ++ wire ([], t) ++ body) method cl).1
        = decimal_content_length cl (ls.map Prod.fst)) := by
  rw [header_analyze_post ls t body method cl hm hls, foldl_content_length]
  refine ⟨rfl, ?_⟩
  intro hd
  unfold last_content_length decimal_content_length
  unfold last_content_length_line at hd ⊢
  cases hf : List.find? (fun h => decide (is_content_length h)) (ls.map Prod.fst).reverse with
  | none => rfl
  | some h =>
    obtain ⟨h1, h2⟩ := hd h hf
    exact atoi_decimal_at _ h1 h2

set_option maxRecDepth 100000 in
/-- Witness of C14: `Content-Length: 5` and `content-length: 5` both give 5, and
a block without the header gives the prior value 0. -/
theorem header_content_length_witness :
    (ci_eq (bytes "POST\x00\x00\x00\x00\x00\x00") (bytes "POST") ∧
     (∀ l ∈ [(bytes "Host: a", true), (bytes "Content-Length: 5", true)], header_line l.1) ∧
     (httpd_request_header_analyze
        (wires [(bytes "Host: a", true), (bytes "Content-Length: 5", true)]
          ++ wire ([], true) ++ bytes "hello")
        (bytes "POST\x00\x00\x00\x00\x00\x00") 0).1 = 5) ∧
    (ci_eq (bytes "POST\x00\x00\x00\x00\x00\x00") (bytes "POST") ∧
     (∀ l ∈ [(bytes "content-length: 5", false), (bytes "Accept: x", true)], header_line l.1) ∧
     (httpd_request_header_analyze
        (wires [(bytes "content-length: 5", false), (bytes "Accept: x", true)]
          ++ wire ([], false) ++ bytes "hello")
        (bytes "POST\x00\x00\x00\x00\x00\x00") 0).1 = 5) ∧
    (ci_eq (bytes "POST\x00\x00\x00\x00\x00\x00") (bytes "POST") ∧
     (∀ l ∈ [(bytes "Host: a", true)], header_line l.1) ∧
     (httpd_request_header_analyze
        (wires [(bytes "Host: a", true)] ++ wire ([], true) ++ bytes "hello")
        (bytes "POST\x00\x00\x00\x00\x00\x00") 0).1 = 0) :=
  ⟨⟨by decide, by decide,
     ((header_content_length [(bytes "Host: a", true), (bytes "Content-Length: 5", true)] true
       (bytes "hello") (bytes "POST\x00\x00\x00\x00\x00\x00") 0 (by decide) (by decide)).2
       (by decide)).trans (by decide)⟩,
   ⟨by decide, by decide,
     ((header_content_length [(bytes "content-length: 5", false), (bytes "Accept: x", true)] false
       (bytes "hello") (bytes "POST\x00\x00\x00\x00\x00\x00") 0 (by decide) (by decide)).2
       (by decide)).trans (by decide)⟩,
   ⟨by decide, by decide,
     ((header_content_length [(bytes "Host: a", true)] true
       (bytes "hello") (bytes "POST\x00\x00\x00\x00\x00\x00") 0 (by decide) (by decide)).2
       (by decide)).trans (by decide)⟩⟩


/-! ## Line reader: what it reads does not depend on the old content of the buffer -/

theorem get_line_loop_indep (size : Nat) (sock : List Nat) :
    ∀ (b1 b2 : List Nat) (i c : Nat), b1.length = b2.length → i ≤ size - 1 →
      (httpd_get_line_loop size sock b1 i c).2 = (httpd_get_line_loop size sock b2 i c).2 ∧
      ∀ k, i ≤ k → k < (httpd_get_line_loop size sock b1 i c).2.1 →
        (httpd_get_line_loop size sock b1 i c).1[k]?
          = (httpd_get_line_loop size sock b2 i c).1[k]? := by
  induction sock with
  | nil =>
    intro b1 b2 i c _ _
    refine ⟨by simp [httpd_get_line_loop], ?_⟩
    intro k h1 h2
    simp [httpd_get_line_loop] at h2
    omega
  | cons b rest ih =>
    intro b1 b2 i c hl hi
    rw [get_line_loop_cons, get_line_loop_cons]
    by_cases hg : i < size - 1 ∧ c ≠ 10
    · rw [if_pos hg, if_pos hg]
      by_cases hb : b = 13
      · rw [if_pos hb, if_pos hb]
        refine ⟨rfl, ?_⟩
        intro k h1 h2
        simp only at h2
        have hk : k = i := by omega
        subst hk
        simp [List.getElem?_set, hl]
      · rw [if_neg hb, if_neg hb]
        obtain ⟨e1, e2⟩ := ih (b1.set i b) (b2.set i b) (i + 1) b (by simp [hl]) (by omega)
        refine ⟨e1, ?_⟩
        intro k h1 h2
        by_cases hk : k = i
        · subst hk
          obtain ⟨-, -, -, u1, -⟩ := get_line_loop_bounds size rest (b1.set k b) (k + 1) b
            (by omega)
          obtain ⟨-, -, -, u2, -⟩ := get_line_loop_bounds size rest (b2.set k b) (k + 1) b
            (by omega)
          rw [u1 k (Or.inl (by omega)), u2 k (Or.inl (by omega))]
          simp [List.getElem?_set, hl]
        · exact e2 k (by omega) h2
    · rw [if_neg hg, if_neg hg]
      refine ⟨rfl, ?_⟩
      intro k h1 h2
      simp only at h2
      omega

theorem cstr_of_take (l1 l2 : List Nat) (n : Nat) (ht : l1.take n = l2.take n)
    (h1 : l1[n]? = some 0) (h2 : l2[n]? = some 0) : cstr l1 = cstr l2 := by
  have d1 : l1 = l1.take n ++ 0 :: l1.drop (n + 1) := by
    conv => lhs; rw [← List.take_append_drop n l1]
    congr 1
    rw [List.drop_eq_getElem?_toList_append, h1]
    rfl
  have d2 : l2 = l2.take n ++ 0 :: l2.drop (n + 1) := by
    conv => lhs; rw [← List.take_append_drop n l2]
    congr 1
    rw [List.drop_eq_getElem?_toList_append, h2]
    rfl
  rw [d1, d2, cstr_append_zero_left, cstr_append_zero_left, ht]

/-- The bytes left unread, the returned length and the C string the buffer holds
after `httpd_get_line_message` are the same for two buffers of one length. -/
theorem get_line_indep (size : Nat) (sock b1 b2 : List Nat) (hl : b1.length = b2.length)
    (hs : 0 < size) (hb : size ≤ b1.length) :
    (httpd_get_line_message sock b1 size).2 = (httpd_get_line_message sock b2 size).2 ∧
    cstr (httpd_get_line_message sock b1 size).1 = cstr (httpd_get_line_message sock b2 size).1 := by
  obtain ⟨e1, e2⟩ := get_line_loop_indep size sock b1 b2 0 0 hl (Nat.zero_le _)
  obtain ⟨-, u2, u3, -, -⟩ := get_line_loop_bounds size sock b1 0 0 (Nat.zero_le _)
  obtain ⟨-, -, v3, -, -⟩ := get_line_loop_bounds size sock b2 0 0 (Nat.zero_le _)
  have f1 : httpd_get_line_message sock b1 size =
      ((httpd_get_line_loop size sock b1 0 0).1.set (httpd_get_line_loop size sock b1 0 0).2.1 0,
       (httpd_get_line_loop size sock b1 0 0).2.1,
       (httpd_get_line_loop size sock b1 0 0).2.2) := rfl
  have f2 : httpd_get_line_message sock b2 size =
      ((httpd_get_line_loop size sock b2 0 0).1.set (httpd_get_line_loop size sock b2 0 0).2.1 0,
       (httpd_get_line_loop size sock b2 0 0).2.1,
       (httpd_get_line_loop size sock b2 0 0).2.2) := rfl
  rw [f1, f2]
  have en : (httpd_get_line_loop size sock b2 0 0).2.1 = (httpd_get_line_loop size sock b1 0 0).2.1 := by
    rw [e1]
  refine ⟨by simp only; rw [e1], ?_⟩
  simp only
  rw [en]
  generalize (httpd_get_line_loop size sock b1 0 0).2.1 = n at e2 u2 ⊢
  generalize (httpd_get_line_loop size sock b1 0 0).1 = r1 at e2 u3 ⊢
  generalize (httpd_get_line_loop size sock b2 0 0).1 = r2 at e2 v3 ⊢
  apply cstr_of_take _ _ n
  · apply List.ext_getElem?
    intro k
    rw [List.getElem?_take, List.getElem?_take]
    by_cases hk : k < n
    · rw [if_pos hk, if_pos hk, List.getElem?_set_ne (by omega), List.getElem?_set_ne (by omega)]
      exact e2 k (Nat.zero_le _) hk
    · rw [if_neg hk, if_neg hk]
  · rw [List.getElem?_set]
    simp
    omega
  · rw [List.getElem?_set]
    simp
    omega


/-! ## Header scanner: both loops read the connection alike -/

theorem header_loops_agree (fuel : Nat) :
    ∀ (sock bP bO : List Nat) (n : Nat) (cl : Int), bP.length = 1024 → bO.length = 1024 →
      cstr bP = cstr bO →
      (header_loop_post fuel sock bP n cl).2 = header_loop_other fuel sock bO n := by
  induction fuel with
  | zero => intro sock bP bO n cl _ _ _; rfl
  | succ f ih =>
    intro sock bP bO n cl hP hO hc
    rw [header_loop_post, header_loop_other]
    have hcond : (n > 0 ∧ strcmp (bytes "\n") bP ≠ 0) ↔ (n > 0 ∧ strcmp (bytes "\n") bO ≠ 0) := by
      rw [Ne, Ne, strcmp_eq_zero, strcmp_eq_zero, hc]
    by_cases hg : n > 0 ∧ strcmp (bytes "\n") bO ≠ 0
    · rw [if_pos (hcond.mpr hg), if_pos hg]
      simp only
      obtain ⟨e1, e2⟩ := get_line_indep 1024 sock (bP.set 15 0) bO (by simp [hP, hO])
        (by omega) (by simp [hP])
      have l1 := get_line_length 1024 sock (bP.set 15 0)
      have l2 := get_line_length 1024 sock bO
      generalize httpd_get_line_message sock (bP.set 15 0) 1024 = r1 at e1 e2 l1
      generalize httpd_get_line_message sock bO 1024 = r2 at e1 e2 l2
      obtain ⟨p1, n1, s1⟩ := r1
      obtain ⟨p2, n2, s2⟩ := r2
      simp only [Prod.mk.injEq] at e1 e2 l1 l2
      obtain ⟨rfl, rfl⟩ := e1
      simp only
      exact ih s1 p1 p2 n1 _ (by rw [l1]; simp [hP]) (by rw [l2, hO]) e2
    · rw [if_neg (fun h => hg (hcond.mp h)), if_neg hg]

theorem header_analyze_post_other (sock m1 m2 : List Nat) (cl1 cl2 : Int)
    (h1 : ci_eq m1 (bytes "POST")) (h2 : ¬ ci_eq m2 (bytes "POST")) :
    (httpd_request_header_analyze sock m1 cl1).2
      = (httpd_request_header_analyze sock m2 cl2).2 := by
  unfold httpd_request_header_analyze
  simp only
  rw [if_pos ((strcasecmp_eq_zero _ _).mpr h1),
    if_neg (fun h => h2 ((strcasecmp_eq_zero _ _).mp h))]
  simp only
  have hz : (List.replicate 1024 0).length = 1024 := List.length_replicate _ _
  have hcond : (1 > 0 ∧ strcmp (bytes "\n") (List.replicate 1024 0) ≠ 0) := by
    refine ⟨by omega, ?_⟩
    have e : List.replicate 1024 0 = 0 :: List.replicate 1023 0 := rfl
    rw [e]
    simp [strcmp, bytes]
  rw [header_loop_other, if_pos hcond]
  have hc := get_line_consumes 1024 sock (List.replicate 1024 0)
  have hl := get_line_length 1024 sock (List.replicate 1024 0)
  generalize httpd_get_line_message sock (List.replicate 1024 0) 1024 = r at hc hl
  obtain ⟨b1, n, rest⟩ := r
  simp only at hc hl ⊢
  rw [header_loop_other_fuel rest.length rest b1 n (sock.length + 1) (rest.length + 2)
    (Nat.le_refl _) (by omega) (by omega)]
  exact header_loops_agree _ rest b1 b1 n cl1 (by rw [hl, hz]) (by rw [hl, hz]) rfl

theorem header_analyze_rest_indep (sock m1 m2 : List Nat) (cl1 cl2 : Int) :
    (httpd_request_header_analyze sock m1 cl1).2
      = (httpd_request_header_analyze sock m2 cl2).2 := by
  by_cases h1 : ci_eq m1 (bytes "POST")
  · by_cases h2 : ci_eq m2 (bytes "POST")
    · unfold httpd_request_header_analyze
      simp only
      rw [if_pos ((strcasecmp_eq_zero _ _).mpr h1), if_pos ((strcasecmp_eq_zero _ _).mpr h2)]
      have hz : (List.replicate 1024 0).length = 1024 := List.length_replicate _ _
      have hl := get_line_length 1024 sock (List.replicate 1024 0)
      generalize httpd_get_line_message sock (List.replicate 1024 0) 1024 = r at hl
      obtain ⟨b1, n, rest⟩ := r
      simp only at hl ⊢
      rw [header_loops_agree _ rest b1 b1 n cl1 (by rw [hl, hz]) (by rw [hl, hz]) rfl,
        header_loops_agree _ rest b1 b1 n cl2 (by rw [hl, hz]) (by rw [hl, hz]) rfl]
    · exact header_analyze_post_other sock m1 m2 cl1 cl2 h1 h2
  · by_cases h2 : ci_eq m2 (bytes "POST")
    · exact (header_analyze_post_other sock m2 m1 cl2 cl1 h2 h1).symm
    · unfold httpd_request_header_analyze
      simp only
      rw [if_neg (fun h => h1 ((strcasecmp_eq_zero _ _).mp h)),
        if_neg (fun h => h2 ((strcasecmp_eq_zero _ _).mp h))]


/-- C18: on every connection stream the header scanner leaves the same bytes
unread for any two methods, POST or not; and when the stream is a sequence of
non-empty header lines shorter than 1023 bytes, each ended by CRLF or LF, then an
empty line, then a remainder `B`, the bytes left unread are exactly `B`. -/
theorem header_scan_consumption (sock m1 m2 : List Nat) (cl1 cl2 : Int)
    (ls : List (List Nat × Bool)) (t : Bool) (B method : List Nat) (cl : Int)
    (hls : ∀ l ∈ ls, header_line l.1) :
    (httpd_request_header_analyze sock m1 cl1).2
      = (httpd_request_header_analyze sock m2 cl2).2 ∧
    (httpd_request_header_analyze (wires ls ++ wire ([], t) ++ B) method cl).2 = B := by
  refine ⟨header_analyze_rest_indep sock m1 m2 cl1 cl2, ?_⟩
  rw [header_analyze_rest_indep _ method (bytes "POST") cl cl,
    header_analyze_post ls t B (bytes "POST") cl (by decide) hls]

set_option maxRecDepth 100000 in
theorem header_scan_consumption_witness :
    (∀ l ∈ [(bytes "Host: a", true), (bytes "Content-Length: 2", false)], header_line l.1) ∧
    (httpd_request_header_analyze (bytes "Host: a\rContent-Length: 2\n\r\nhi")
        (bytes "POST\x00\x00\x00\x00\x00\x00") 0).2
      = (httpd_request_header_analyze (bytes "Host: a\rContent-Length: 2\n\r\nhi")
        (bytes "GET\x00\x00\x00\x00\x00\x00\x00") 7).2 ∧
    (httpd_request_header_analyze
        (wires [(bytes "Host: a", true), (bytes "Content-Length: 2", false)]
          ++ wire ([], true) ++ bytes "hi")
        (bytes "GET\x00\x00\x00\x00\x00\x00\x00") 0).2 = bytes "hi" :=
  ⟨by decide,
    header_scan_consumption (bytes "Host: a\rContent-Length: 2\n\r\nhi")
      (bytes "POST\x00\x00\x00\x00\x00\x00") (bytes "GET\x00\x00\x00\x00\x00\x00\x00") 0 7
      [(bytes "Host: a", true), (bytes "Content-Length: 2", false)] true (bytes "hi")
      (bytes "GET\x00\x00\x00\x00\x00\x00\x00") 0 (by decide)⟩


/-! ## Request-line parser: the empty method -/

/-- The first byte of the line buffer: NUL when the connection gives no data, a
line feed when the first byte is a carriage return, the first byte otherwise. -/
theorem line_buffer_first (sock : List Nat) :
    (line_buffer sock)[0]? = some (match sock with
      | [] => 0
      | b :: _ => if b = 13 then 10 else b) := by
  have hz : (List.replicate 1024 0).length = 1024 := List.length_replicate _ _
  have e : line_buffer sock =
      (httpd_get_line_loop 1024 sock (List.replicate 1024 0) 0 0).1.set
        (httpd_get_line_loop 1024 sock (List.replicate 1024 0) 0 0).2.1 0 := rfl
  rw [e]
  generalize List.replicate 1024 0 = Z at hz
  cases sock with
  | nil =>
    simp only [httpd_get_line_loop]
    rw [List.getElem?_set]
    simp [hz]
  | cons b rest =>
    rw [get_line_loop_cons, if_pos ⟨by omega, by decide⟩]
    by_cases hb : b = 13
    · rw [if_pos hb]
      simp only [hb, if_true]
      rw [List.getElem?_set_ne (by omega), List.getElem?_set]
      simp [hz]
    · rw [if_neg hb]
      simp only [hb, if_false]
      obtain ⟨u1, -, -, u4, -⟩ := get_line_loop_bounds 1024 rest (Z.set 0 b) (0 + 1) b
        (by omega)
      rw [List.getElem?_set_ne (by omega), u4 0 (Or.inl (by omega)), List.getElem?_set]
      simp [hz]

/-- When the line buffer starts with white space or with NUL, the first loop of
the parser leaves the empty string in the method field. -/
theorem method_field_empty (buf method0 : List Nat)
    (h : ∀ b, buf[0]? = some b → isspace b = true ∨ b = 0) :
    cstr (method_field buf method0) = [] := by
  unfold method_field raw_method
  cases buf with
  | nil => simp [cstr_cons]
  | cons w t =>
    rcases h w (by simp) with hw | hw
    · simp [List.takeWhile_cons, hw, cstr_cons]
    · subst hw
      have h0 : isspace 0 = false := by decide
      simp [List.takeWhile_cons, h0, cstr_cons]

theorem empty_method_not_get_post (m : List Nat) (h : cstr m = []) :
    ¬ ci_eq m (bytes "GET") ∧ ¬ ci_eq m (bytes "POST") := by
  unfold ci_eq
  rw [h]
  exact ⟨by decide, by decide⟩

theorem line_buffer_first_space (sock : List Nat)
    (hs : ∀ b ∈ sock.head?, isspace b = true) :
    ∀ b, (line_buffer sock)[0]? = some b → isspace b = true ∨ b = 0 := by
  intro b hb
  rw [line_buffer_first] at hb
  cases sock with
  | nil =>
    simp only [Option.some.injEq] at hb
    exact Or.inr hb.symm
  | cons c rest =>
    simp only [Option.some.injEq] at hb
    have hc := hs c (by simp)
    left
    subst hb
    split
    · decide
    · exact hc


theorem spec_path_length_le (u : List Nat) : (spec_path u).length ≤ u.length + 16 := by
  have h6 : (bytes "htdocs").length = 6 := by decide
  have h10 : (bytes "index.html").length = 10 := by decide
  unfold spec_path
  split <;> simp only [List.length_append, h6, h10] <;> omega

theorem cstr_length_le (a : List Nat) : (cstr a).length ≤ a.length :=
  (List.takeWhile_sublist _).length_le

/-- C20: when the connection gives no data or its first byte is white space (a
line that is empty, or that begins with white space), the first loop of the
parser (lines 223-231) leaves the empty string in the method field; the request
validation answers every record holding that method field with -1 and exactly
the 501 response; every result of the whole parse has the empty method and is
rejected that way; and the parse has a result whenever the token it takes for
the URL has at most 238 bytes. -/
theorem empty_method_rejected (sock : List Nat) (hs : ∀ b ∈ sock.head?, isspace b = true) :
    cstr (request_line_tokens (line_buffer sock) zeroed_line_data.method).1 = [] ∧
    (∀ (debug : Bool) (stat : List Nat → Option Nat) (client : List Nat)
        (h_data : http_request_data_t),
      h_data.req_line_data.method
          = (request_line_tokens (line_buffer sock) zeroed_line_data.method).1 →
      httpd_request_error_deal debug stat client h_data = (-1, client ++ response_501)) ∧
    (∀ r, (httpd_request_line_analyze sock zeroed_line_data).1 = some r →
      cstr r.method = [] ∧
      ∀ (debug : Bool) (stat : List Nat → Option Nat) (client : List Nat) (cl : Int),
        httpd_request_error_deal debug stat client { req_line_data := r, content_length := cl }
          = (-1, client ++ response_501)) ∧
    ((raw_url (line_buffer sock)).length ≤ 238 →
      ∃ r, (httpd_request_line_analyze sock zeroed_line_data).1 = some r) := by
  have hfield : cstr (method_field (line_buffer sock) zeroed_line_data.method) = [] :=
    method_field_empty _ _ (line_buffer_first_space sock hs)
  have htok : (request_line_tokens (line_buffer sock) zeroed_line_data.method).1
      = method_field (line_buffer sock) zeroed_line_data.method := by
    rw [request_line_tokens_eq _ _ (line_buffer_length sock) zeroed_lengths.1]
    rfl
  have hdeal : ∀ (debug : Bool) (stat : List Nat → Option Nat) (client : List Nat)
      (h_data : http_request_data_t), cstr h_data.req_line_data.method = [] →
      httpd_request_error_deal debug stat client h_data = (-1, client ++ response_501) := by
    intro debug stat client h_data hm
    obtain ⟨hg, hp⟩ := empty_method_not_get_post _ hm
    unfold httpd_request_error_deal
    rw [if_pos ⟨by rwa [Ne, strcasecmp_eq_zero], by rwa [Ne, strcasecmp_eq_zero]⟩,
      method_error_eq]
  refine ⟨by rw [htok]; exact hfield, ?_, ?_, ?_⟩
  · intro debug stat client h_data hm
    exact hdeal debug stat client h_data (by rw [hm, htok]; exact hfield)
  · intro r hr
    obtain ⟨-, hmeth, -, -⟩ := analyze_some sock r hr
    have hm : cstr r.method = [] := by rw [hmeth]; exact hfield
    exact ⟨hm, fun debug stat client cl => hdeal debug stat client _ hm⟩
  · intro hlen
    rw [analyze_eq]
    simp only
    rw [request_line_parse_eq _ _ (line_buffer_length sock) zeroed_lengths.1 zeroed_lengths.2.1
      zeroed_lengths.2.2]
    have hg := (empty_method_not_get_post _ hfield).1
    have hu : spec_url (method_field (line_buffer sock) zeroed_line_data.method)
        (cstr (raw_url (line_buffer sock))) = cstr (raw_url (line_buffer sock)) := by
      unfold spec_url
      rw [if_neg hg]
    have hfit : (spec_path (spec_url (method_field (line_buffer sock) zeroed_line_data.method)
        (cstr (raw_url (line_buffer sock))))).length ≤ 254 := by
      rw [hu]
      have h1 := spec_path_length_le (cstr (raw_url (line_buffer sock)))
      have h2 := cstr_length_le (raw_url (line_buffer sock))
      omega
    rw [if_pos hfit]
    exact ⟨_, rfl⟩

set_option maxRecDepth 100000 in
/-- Witness of C20: the line ` GET / HTTP/1.0` that begins with a space, the empty
line, and a connection without data. -/
theorem empty_method_rejected_witness :
    ((∀ b ∈ (bytes " GET / HTTP/1.0\r\n").head?, isspace b = true) ∧
      cstr (request_line_tokens (line_buffer (bytes " GET / HTTP/1.0\r\n"))
        zeroed_line_data.method).1 = [] ∧
      ∃ r, (httpd_request_line_analyze (bytes " GET / HTTP/1.0\r\n") zeroed_line_data).1
        = some r) ∧
    ((∀ b ∈ (bytes "\r\nHost: a\r\n").head?, isspace b = true) ∧
      httpd_request_error_deal false (fun _ => some 0) (bytes "x")
        { req_line_data :=
            { method := (request_line_tokens (line_buffer (bytes "\r\nHost: a\r\n"))
                zeroed_line_data.method).1,
              path := bytes "htdocs", query_string := [], cgi := 0 },
          content_length := 0 } = (-1, bytes "x" ++ response_501)) ∧
    ((∀ b ∈ ([] : List Nat).head?, isspace b = true) ∧
      cstr (request_line_tokens (line_buffer []) zeroed_line_data.method).1 = []) :=
  ⟨⟨by decide, (empty_method_rejected (bytes " GET / HTTP/1.0\r\n") (by decide)).1,
     (empty_method_rejected (bytes " GET / HTTP/1.0\r\n") (by decide)).2.2.2 (by decide)⟩,
   ⟨by decide,
     (empty_method_rejected (bytes "\r\nHost: a\r\n") (by decide)).2.1 false (fun _ => some 0)
       (bytes "x") _ rfl⟩,
   ⟨by decide, (empty_method_rejected [] (by decide)).1⟩⟩


/-! ## Request-line parser: the size of the path -/

/-- Every defined result of the parse into the zeroed record has a path of at
most 254 characters. -/
theorem analyze_path_fits (sock : List Nat) (r : http_request_line_data_t)
    (h : (httpd_request_line_analyze sock zeroed_line_data).1 = some r) :
    (cstr r.path).length ≤ 254 := by
  obtain ⟨h1, -, h3, -⟩ := analyze_some sock r h
  rw [h3]
  exact h1

set_option maxRecDepth 100000 in
/-- C11 at failing inputs: `POST /aaa...a HTTP/1.0` with a URL token of 254
characters, the most the `url` array holds, asks for a path of 260 characters,
and `POST /aaa...a/ HTTP/1.0` with a URL token of 254 characters ending in `/`
for one of 270 characters. The `sprintf` of line 278 writes past the 255-byte
`path` field and the parse has no defined result. -/
theorem path_exceeds_field :
    (spec_path (bytes "/" ++ List.replicate 253 97)).length = 260 ∧
    httpd_request_line_analyze
      (bytes "POST" ++ bytes " " ++ (bytes "/" ++ List.replicate 253 97) ++
        bytes " HTTP/1.0" ++ bytes "\r\n" ++ []) zeroed_line_data = (none, []) ∧
    (spec_path (bytes "/" ++ List.replicate 252 97 ++ bytes "/")).length = 270 ∧
    httpd_request_line_analyze
      (bytes "POST" ++ bytes " " ++ (bytes "/" ++ List.replicate 252 97 ++ bytes "/") ++
        bytes " HTTP/1.0" ++ bytes "\r\n" ++ []) zeroed_line_data = (none, []) := by
  refine ⟨by decide, ?_, by decide, ?_⟩
  · rw [analyze_line (bytes "POST") (bytes " ") (bytes "/" ++ List.replicate 253 97)
      (bytes " HTTP/1.0") (bytes "\r\n") [] zeroed_line_data (by decide) (by decide) (by decide)
      (by decide) (by decide) (by decide) (by decide) (by decide) (by decide) (by decide)
      zeroed_lengths.1 zeroed_lengths.2.1 zeroed_lengths.2.2]
    rw [if_neg (by decide)]
  · rw [analyze_line (bytes "POST") (bytes " ")
      (bytes "/" ++ List.replicate 252 97 ++ bytes "/")
      (bytes " HTTP/1.0") (bytes "\r\n") [] zeroed_line_data (by decide) (by decide) (by decide)
      (by decide) (by decide) (by decide) (by decide) (by decide) (by decide) (by decide)
      zeroed_lengths.1 zeroed_lengths.2.1 zeroed_lengths.2.2]
    rw [if_neg (by decide)]


/-! ## Error responses: the 500 and the 400 responder -/

theorem cannot_execute_error_eq (client : List Nat) :
    httpd_request_cannot_execute_error client
      = client ++ httpd_request_cannot_execute_error [] := by
  unfold httpd_request_cannot_execute_error
  have := foldl_send_str [ bytes "HTTP/1.0 500 Internal Server Error\r\n",
     bytes "Content-type: text/html\r\n", bytes "\r\n",
     bytes "<P>Error prohibited CGI execution.\r\n" ] (List.replicate 128 0) client []
  rw [List.append_nil] at this
  rw [this]

set_option maxRecDepth 100000 in
/-- C12 at the failing inputs, the 500 and the 400 responder. The 500 responder
sends its status line, `Content-type: text/html`, a blank line and its body: no
`Server:` header follows the status line. The 400 responder sends no `Server:`
header either, and each of its five `send` calls passes `sizeof(buf)`: it writes
640 bytes, the first 128 being the status line followed by 102 NUL bytes. -/
theorem responders_500_400_format :
    httpd_request_cannot_execute_error []
      = bytes ("HTTP/1.0 500 Internal Server Error\r\n" ++ "Content-type: text/html\r\n" ++
          "\r\n" ++ "<P>Error prohibited CGI execution.\r\n") ∧
    (∀ body : List Nat, httpd_request_cannot_execute_error []
      ≠ bytes "HTTP/1.0 500 Internal Server Error\r\n" ++ SERVER_STRING ++
          (bytes "Content-Type: text/html\r\n" ++ bytes "\r\n" ++ body)) ∧
    (httpd_request_bad_error []).length = 640 ∧
    (httpd_request_bad_error []).take 128
      = bytes "HTTP/1.0 400 BAD REQUEST\r\n" ++ List.replicate 102 0 ∧
    (∀ body : List Nat, httpd_request_bad_error []
      ≠ bytes "HTTP/1.0 400 BAD REQUEST\r\n" ++ SERVER_STRING ++
          (bytes "Content-Type: text/html\r\n" ++ bytes "\r\n" ++ body)) := by
  refine ⟨by decide, ?_, by decide, by decide, ?_⟩
  · intro body h
    have hp : bytes "HTTP/1.0 500 Internal Server Error\r\n" ++ SERVER_STRING
        <+: httpd_request_cannot_execute_error [] := by
      rw [h]; exact List.prefix_append _ _
    revert hp
    decide
  · intro body h
    have hp : bytes "HTTP/1.0 400 BAD REQUEST\r\n" ++ SERVER_STRING
        <+: httpd_request_bad_error [] := by
      rw [h]; exact List.prefix_append _ _
    revert hp
    decide


/-! ## Connection handler: what precedes the file body -/

set_option maxRecDepth 100000 in
theorem response_header_nil :
    httpd_response_header [] = bytes "HTTP/1.0 200 OK\r\n" ++ SERVER_STRING ++
      bytes "Content-Type: text/html\r\n" ++ bytes "\r\n" := by decide

theorem response_header_eq (client : List Nat) :
    httpd_response_header client = client ++ (bytes "HTTP/1.0 200 OK\r\n" ++ SERVER_STRING ++
      bytes "Content-Type: text/html\r\n" ++ bytes "\r\n") := by
  rw [← response_header_nil]
  unfold httpd_response_header
  have := foldl_send_str [ bytes "HTTP/1.0 200 OK\r\n", SERVER_STRING,
    bytes "Content-Type: text/html\r\n", bytes "\r\n" ] (List.replicate 1024 0) client []
  rw [List.append_nil] at this
  rw [this]

theorem send_file_loop_prefix (fuel : Nat) :
    ∀ (buf : List Nat) (fp : List Nat × Bool) (c1 c2 : List Nat),
      send_file_loop fuel buf fp (c1 ++ c2) = c1 ++ send_file_loop fuel buf fp c2 := by
  induction fuel with
  | zero => intro buf fp c1 c2; rfl
  | succ f ih =>
    intro buf fp c1 c2
    rw [send_file_loop, send_file_loop]
    split
    · simp only
      rw [List.append_assoc, ih]
    · rfl

/-- The static file responder appends to the bytes sent so far. -/
theorem send_file_prefix (fopen : List Nat → Option (List Nat)) (client filename : List Nat) :
    httpd_send_file fopen client filename = client ++ httpd_send_file fopen [] filename := by
  unfold httpd_send_file
  cases fopen (cstr filename) with
  | none =>
    simp only
    rw [path_error_eq, path_error_eq []]
    rfl
  | some file =>
    simp only
    have := send_file_loop_prefix (file.length + 1)
      (fgets (List.replicate 1024 0) 1024 (file, false)).1
      (fgets (List.replicate 1024 0) 1024 (file, false)).2 client []
    rw [List.append_nil] at this
    exact this

/-- For every request that passes the validation with `cgi = 0`, the bytes sent
to the client are the line `HTTP/1.0 200 OK` of line 732, then the four lines of
`httpd_response_header`, the first of which is `HTTP/1.0 200 OK` again, then
what the static file responder sends. -/
theorem accept_dispatch_static (debug : Bool) (stat : List Nat → Option Nat)
    (fopen : List Nat → Option (List Nat)) (os : cgi_system) (fds sock : List Nat)
    (http_data : http_request_data_t)
    (hok : (httpd_request_error_deal debug stat [] http_data).1 = 0)
    (hcgi : http_data.req_line_data.cgi = 0) :
    accept_dispatch debug stat fopen os fds sock http_data
      = bytes "HTTP/1.0 200 OK\r\n" ++ (bytes "HTTP/1.0 200 OK\r\n" ++ SERVER_STRING ++
          bytes "Content-Type: text/html\r\n" ++ bytes "\r\n") ++
        httpd_send_file fopen [] http_data.req_line_data.path := by
  have hsent : (httpd_request_error_deal debug stat [] http_data).2 = [] := by
    revert hok
    unfold httpd_request_error_deal
    split
    · intro h; exact absurd h (by decide)
    · split
      · intro h; exact absurd h (by decide)
      · split
        · intro h; exact absurd h (by decide)
        · split
          · intro h; exact absurd h (by decide)
          · intro _; rfl
  unfold accept_dispatch
  generalize httpd_request_error_deal debug stat [] http_data = res at hok hsent
  obtain ⟨ret, client⟩ := res
  simp only at hok hsent
  subst hok hsent
  simp only
  rw [if_neg (by decide), if_pos hcgi, send_file_prefix, response_header_eq, List.nil_append]

set_option maxRecDepth 100000 in
/-- C13 at a failing input: the request `GET /index.html HTTP/1.0` for a regular
file that holds `hi` and a line feed passes the validation with `cgi = 0`. The
bytes sent before the file body hold the status line `HTTP/1.0 200 OK` twice:
once from line 732 and once from `httpd_response_header`. -/
theorem status_line_sent_twice :
    httpd_accept_client_request false (fun _ => some 0o100644)
      (fun f => if f = bytes "htdocs/index.html" then some (bytes "hi\n") else none)
      { pipe_output := none, pipe_input := none, fork_ok := false, child_output := [] }
      [0, 1, 2, 3, 4] (bytes "GET /index.html HTTP/1.0\r\nHost: a\r\n\r\n")
    = some (bytes ("HTTP/1.0 200 OK\r\n" ++ "HTTP/1.0 200 OK\r\n" ++ "Server: httpd/1.0.0\r\n" ++
        "Content-Type: text/html\r\n" ++ "\r\n" ++ "hi\n")) := by decide


/-! ## CGI executor: the descriptors on the spawn-failure paths -/

/-- On the three spawn-failure paths the 500 response is sent and no byte of the
connection is read. When the first `pipe` fails the open descriptors are those
on entry; when the second `pipe` fails the two ends of `cgi_output` stay open;
when `fork` fails all four pipe ends stay open. -/
theorem execute_cgi_failure (os : cgi_system) (fds client sock : List Nat)
    (h_data : http_request_data_t) :
    (os.pipe_output = none →
      httpd_execute_cgi os fds client sock h_data
        = { client := httpd_request_cannot_execute_error client, sock := sock, fds := fds,
            to_child := [] }) ∧
    (∀ o0 o1, os.pipe_output = some (o0, o1) → os.pipe_input = none →
      httpd_execute_cgi os fds client sock h_data
        = { client := httpd_request_cannot_execute_error client, sock := sock,
            fds := o1 :: o0 :: fds, to_child := [] }) ∧
    (∀ o0 o1 i0 i1, os.pipe_output = some (o0, o1) → os.pipe_input = some (i0, i1) →
      os.fork_ok = false →
      httpd_execute_cgi os fds client sock h_data
        = { client := httpd_request_cannot_execute_error client, sock := sock,
            fds := i1 :: i0 :: o1 :: o0 :: fds, to_child := [] }) := by
  refine ⟨?_, ?_, ?_⟩
  · intro h
    unfold httpd_execute_cgi
    rw [h]
  · intro o0 o1 h1 h2
    unfold httpd_execute_cgi
    rw [h1, h2]
  · intro o0 o1 i0 i1 h1 h2 h3
    unfold httpd_execute_cgi
    rw [h1, h2]
    simp only [h3, if_true]

/-- When both pipes and the fork succeed and the four descriptors are new and
distinct, the parent closes all four: the open descriptors on return are those
on entry. -/
theorem execute_cgi_success_fds (os : cgi_system) (fds client sock : List Nat)
    (h_data : http_request_data_t) (o0 o1 i0 i1 : Nat)
    (h1 : os.pipe_output = some (o0, o1)) (h2 : os.pipe_input = some (i0, i1))
    (h3 : os.fork_ok = true)
    (hd : [i1, i0, o1, o0].Nodup) :
    (httpd_execute_cgi os fds client sock h_data).fds = fds := by
  unfold httpd_execute_cgi
  rw [h1, h2]
  simp only [h3, Bool.true_eq_false, if_false]
  simp only [List.nodup_cons, List.mem_cons, List.mem_singleton, not_or, List.not_mem_nil,
    not_false_eq_true, List.nodup_nil, and_true] at hd
  obtain ⟨⟨a1, a2, a3⟩, ⟨b1, b2⟩, c1⟩ := hd
  have e1 : (i1 :: i0 :: o1 :: o0 :: fds).erase o1 = i1 :: i0 :: o0 :: fds := by
    rw [List.erase_cons_tail (by simpa using a2), List.erase_cons_tail (by simpa using b1),
      List.erase_cons_head]
  have e2 : (i1 :: i0 :: o0 :: fds).erase i0 = i1 :: o0 :: fds := by
    rw [List.erase_cons_tail (by simpa using a1), List.erase_cons_head]
  have e3 : (i1 :: o0 :: fds).erase o0 = i1 :: fds := by
    rw [List.erase_cons_tail (by simpa using a3), List.erase_cons_head]
  rw [e1, e2, e3, List.erase_cons_head]

set_option maxRecDepth 100000 in
/-- C15 at the failing inputs. The process has the descriptors 0 to 4 open on
entry. When `pipe(cgi_output)` opens 5 and 6 and `pipe(cgi_input)` fails, the 500
response is sent and the function returns with 5 and 6 still open. When both
pipes open (5, 6 and 7, 8) and `fork` fails, it returns with all four still
open. -/
theorem spawn_failure_leaves_pipes_open :
    httpd_execute_cgi
      { pipe_output := some (5, 6), pipe_input := none, fork_ok := true, child_output := [] }
      [0, 1, 2, 3, 4] [] (bytes "ab")
      { req_line_data := { method := bytes "POST", path := bytes "htdocs/a.cgi",
                           query_string := [], cgi := 1 },
        content_length := 2 }
      = { client := bytes ("HTTP/1.0 500 Internal Server Error\r\n" ++
            "Content-type: text/html\r\n" ++ "\r\n" ++ "<P>Error prohibited CGI execution.\r\n"),
          sock := bytes "ab", fds := [6, 5, 0, 1, 2, 3, 4], to_child := [] } ∧
    httpd_execute_cgi
      { pipe_output := some (5, 6), pipe_input := some (7, 8), fork_ok := false,
        child_output := [] }
      [0, 1, 2, 3, 4] [] (bytes "ab")
      { req_line_data := { method := bytes "POST", path := bytes "htdocs/a.cgi",
                           query_string := [], cgi := 1 },
        content_length := 2 }
      = { client := bytes ("HTTP/1.0 500 Internal Server Error\r\n" ++
            "Content-type: text/html\r\n" ++ "\r\n" ++ "<P>Error prohibited CGI execution.\r\n"),
          sock := bytes "ab", fds := [8, 7, 6, 5, 0, 1, 2, 3, 4], to_child := [] } := by
  decide


/-! ## Static file responder: the release of the file handle -/

/-- On regular files and failed opens, the streams of the model: the model with
the recorded calls sends the bytes of `httpd_send_file`, and calls `fclose` once
with whatever `fopen` returned. -/
theorem send_file_fclose_eq (fopen : List Nat → Option (List Nat)) (client filename : List Nat) :
    httpd_send_file_fclose fopen client filename
      = (httpd_send_file fopen client filename, [fopen (cstr filename)]) := by
  unfold httpd_send_file_fclose httpd_send_file
  cases fopen (cstr filename) <;> rfl

set_option maxRecDepth 100000 in
/-- C16 at a failing input: the file `htdocs/missing.html` cannot be opened. The
404 response is sent, and `fclose` is called once, with the `NULL` pointer. -/
theorem send_file_closes_null :
    httpd_send_file_fclose (fun _ => none) [] (bytes "htdocs/missing.html")
      = (response_404, [none]) := by
  rw [send_file_fclose_eq]
  exact Prod.ext (path_error_eq []) rfl


/-! ## CGI executor: the decimal conversion -/

theorem digitChar_ne_zero (n : Nat) (h : n < 10) : (Nat.digitChar n).toNat ≠ 0 := by
  interval_cases n <;> decide

theorem toDigitsCore_ne_zero (fuel : Nat) :
    ∀ (n : Nat) (ds : List Char), (∀ c ∈ ds, c.toNat ≠ 0) →
      ∀ c ∈ Nat.toDigitsCore 10 fuel n ds, c.toNat ≠ 0 := by
  induction fuel with
  | zero => intro n ds h; simpa [Nat.toDigitsCore] using h
  | succ f ih =>
    intro n ds h
    have hd : ∀ c ∈ Nat.digitChar (n % 10) :: ds, c.toNat ≠ 0 := by
      intro c hc
      rcases List.mem_cons.mp hc with rfl | hc
      · exact digitChar_ne_zero _ (Nat.mod_lt _ (by decide))
      · exact h c hc
    rw [Nat.toDigitsCore]
    split
    · exact hd
    · exact ih _ _ hd

theorem toDigitsCore_length_ge (fuel : Nat) :
    ∀ (n : Nat) (ds : List Char), ds.length ≤ (Nat.toDigitsCore 10 fuel n ds).length := by
  induction fuel with
  | zero => intro n ds; simp [Nat.toDigitsCore]
  | succ f ih =>
    intro n ds
    rw [Nat.toDigitsCore]
    split
    · simp
    · have := ih (n / 10) (Nat.digitChar (n % 10) :: ds)
      simp only [List.length_cons] at this
      omega

theorem toDigitsCore_length_le (k : Nat) :
    ∀ (fuel n : Nat) (ds : List Char), n < 10 ^ (k + 1) →
      (Nat.toDigitsCore 10 fuel n ds).length ≤ ds.length + (k + 1) := by
  induction k with
  | zero =>
    intro fuel n ds h
    cases fuel with
    | zero => simp [Nat.toDigitsCore]
    | succ f =>
      rw [Nat.toDigitsCore]
      rw [if_pos (by omega)]
      simp
  | succ k ih =>
    intro fuel n ds h
    cases fuel with
    | zero => simp [Nat.toDigitsCore]
    | succ f =>
      rw [Nat.toDigitsCore]
      split
      · simp
      · have h2 : n / 10 < 10 ^ (k + 1) := by
          rw [Nat.div_lt_iff_lt_mul (by decide)]
          rw [Nat.pow_succ] at h
          exact h
        have := ih f (n / 10) (Nat.digitChar (n % 10) :: ds) h2
        simp only [List.length_cons] at this
        omega

theorem toDigitsCore_length_lower (k : Nat) :
    ∀ (fuel n : Nat) (ds : List Char), 10 ^ k ≤ n → n < fuel →
      ds.length + (k + 1) ≤ (Nat.toDigitsCore 10 fuel n ds).length := by
  induction k with
  | zero =>
    intro fuel n ds h hf
    obtain ⟨f, rfl⟩ : ∃ f, fuel = f + 1 := ⟨fuel - 1, by omega⟩
    rw [Nat.toDigitsCore]
    split
    · simp
    · have := toDigitsCore_length_ge f (n / 10) (Nat.digitChar (n % 10) :: ds)
      simp only [List.length_cons] at this
      omega
  | succ k ih =>
    intro fuel n ds h hf
    obtain ⟨f, rfl⟩ : ∃ f, fuel = f + 1 := ⟨fuel - 1, by omega⟩
    have hk : 10 ^ k ≤ n / 10 := by
      rw [Nat.le_div_iff_mul_le (by decide)]
      rw [Nat.pow_succ] at h
      exact h
    have hpos : 0 < 10 ^ k := by positivity
    rw [Nat.toDigitsCore]
    rw [if_neg (by omega)]
    have := ih f (n / 10) (Nat.digitChar (n % 10) :: ds) hk (by omega)
    simp only [List.length_cons] at this
    omega

/-- The `%d` conversion writes no NUL. -/
theorem fmt_d_ne_zero (n : Int) : ∀ b ∈ fmt_d n, b ≠ 0 := by
  have hd : ∀ m : Nat, ∀ b ∈ (Nat.toDigits 10 m).map Char.toNat, b ≠ 0 := by
    intro m b hb
    obtain ⟨c, hc, rfl⟩ := List.mem_map.mp hb
    exact toDigitsCore_ne_zero _ _ _ (by simp) c hc
  intro b hb
  unfold fmt_d at hb
  split at hb
  · rcases List.mem_cons.mp hb with rfl | hb
    · decide
    · exact hd _ b hb
  · exact hd _ b hb

/-- A number from 0 to 9999 has at most four digits, one from 10000 on at least
five. -/
theorem fmt_d_length (n : Int) (h0 : 0 ≤ n) :
    (n < 10000 → (fmt_d n).length ≤ 4) ∧ (10000 ≤ n → 5 ≤ (fmt_d n).length) := by
  unfold fmt_d
  rw [if_neg (by omega)]
  simp only [List.length_map]
  unfold Nat.toDigits
  constructor
  · intro h
    have := toDigitsCore_length_le 3 (n.toNat + 1) n.toNat [] (by norm_num; omega)
    simpa using this
  · intro h
    have := toDigitsCore_length_lower 4 (n.toNat + 1) n.toNat [] (by norm_num; omega) (by omega)
    simpa using this


/-! ## CGI executor: the environment strings and their buffers -/

theorem store_zero_cstr (dst s r : List Nat) (hs : ∀ b ∈ s, b ≠ 0)
    (h : store dst 0 (s ++ [0]) = some r) : cstr r = s := by
  unfold store at h
  split at h
  · have e := Option.some.inj h
    rw [← e, blit_zero, List.append_assoc]
    exact cstr_append_zero _ _ hs
  · exact absurd h (by simp)

theorem store_zero_none (dst s : List Nat) :
    store dst 0 s = none ↔ dst.length < s.length := by
  unfold store
  split
  · simp; omega
  · simp; omega

/-- The environment strings, whenever every `sprintf` stays inside its buffer:
`REQUEST_METHOD=<method>`, then `QUERY_STRING=<query_string>` when the method is
case-insensitively GET and `CONTENT_LENGTH=<decimal content_length>` otherwise. -/
theorem child_env_strings (h_data : http_request_data_t) (env : List (List Nat))
    (h : cgi_child_env h_data = some env) :
    env.map cstr =
      [ bytes "REQUEST_METHOD=" ++ cstr h_data.req_line_data.method,
        if ci_eq h_data.req_line_data.method (bytes "GET") then
          bytes "QUERY_STRING=" ++ cstr h_data.req_line_data.query_string
        else bytes "CONTENT_LENGTH=" ++ fmt_d h_data.content_length ] := by
  have hm0 : ∀ b ∈ bytes "REQUEST_METHOD=", b ≠ 0 := by decide
  have hq0 : ∀ b ∈ bytes "QUERY_STRING=", b ≠ 0 := by decide
  have hc0 : ∀ b ∈ bytes "CONTENT_LENGTH=", b ≠ 0 := by decide
  have happ : ∀ (p s : List Nat), (∀ b ∈ p, b ≠ 0) → (∀ b ∈ s, b ≠ 0) → ∀ b ∈ p ++ s, b ≠ 0 := by
    intro p s hp hs b hb
    rcases List.mem_append.mp hb with hb | hb
    · exact hp b hb
    · exact hs b hb
  unfold cgi_child_env at h
  split at h
  · exact absurd h (by simp)
  · rename_i meth_env hmeth
    have e1 := store_zero_cstr _ _ _ (happ _ _ hm0 (cstr_ne_zero _)) hmeth
    split at h
    · rename_i hget
      rw [if_pos ((strcasecmp_eq_zero _ _).mp hget)]
      split at h
      · exact absurd h (by simp)
      · rename_i query_env hquery
        have e2 := store_zero_cstr _ _ _ (happ _ _ hq0 (cstr_ne_zero _)) hquery
        rw [← Option.some.inj h]
        simp only [List.map_cons, List.map_nil, e1, e2]
    · rename_i hget
      rw [if_neg (fun hc => hget ((strcasecmp_eq_zero _ _).mpr hc))]
      split at h
      · exact absurd h (by simp)
      · rename_i length_env hlength
        have e2 := store_zero_cstr _ _ _ (happ _ _ hc0 (fmt_d_ne_zero _)) hlength
        rw [← Option.some.inj h]
        simp only [List.map_cons, List.map_nil, e1, e2]

/-- For a method of at most 9 characters, a query string of at most 254 and a
content length that is not negative, the `sprintf` calls stay inside their
buffers exactly when the method is case-insensitively GET or the content length
is below 10000: `meth_env` and `query_env` are large enough, `length_env` holds
`CONTENT_LENGTH=`, four digits and the NUL, and no more. -/
theorem child_env_defined (h_data : http_request_data_t)
    (hm : (cstr h_data.req_line_data.method).length ≤ 9)
    (hq : (cstr h_data.req_line_data.query_string).length ≤ 254)
    (hn : 0 ≤ h_data.content_length) :
    cgi_child_env h_data ≠ none ↔
      (ci_eq h_data.req_line_data.method (bytes "GET") ∨ h_data.content_length < 10000) := by
  have l1 : (bytes "REQUEST_METHOD=").length = 15 := by decide
  have l2 : (bytes "QUERY_STRING=").length = 13 := by decide
  have l3 : (bytes "CONTENT_LENGTH=").length = 15 := by decide
  have hmeth : sprintf (List.replicate 40 0) (bytes "REQUEST_METHOD=")
      h_data.req_line_data.method ≠ none := by
    unfold sprintf
    rw [Ne, store_zero_none]
    simp only [List.length_append, List.length_replicate, List.length_singleton, l1]
    omega
  have hquery : sprintf (List.replicate 300 0) (bytes "QUERY_STRING=")
      h_data.req_line_data.query_string ≠ none := by
    unfold sprintf
    rw [Ne, store_zero_none]
    simp only [List.length_append, List.length_replicate, List.length_singleton, l2]
    omega
  have hlen := fmt_d_length h_data.content_length hn
  have hlength : sprintf_d (List.replicate 20 0) (bytes "CONTENT_LENGTH=") h_data.content_length
      ≠ none ↔ h_data.content_length < 10000 := by
    unfold sprintf_d
    rw [Ne, store_zero_none]
    simp only [List.length_append, List.length_replicate, List.length_singleton, l3]
    constructor
    · intro h
      by_contra hc
      have := hlen.2 (by omega)
      omega
    · intro h
      have := hlen.1 h
      omega
  unfold cgi_child_env
  cases e1 : sprintf (List.replicate 40 0) (bytes "REQUEST_METHOD=") h_data.req_line_data.method with
  | none => exact absurd e1 hmeth
  | some meth_env =>
    simp only
    by_cases hget : ci_eq h_data.req_line_data.method (bytes "GET")
    · rw [if_pos ((strcasecmp_eq_zero _ _).mpr hget)]
      cases e2 : sprintf (List.replicate 300 0) (bytes "QUERY_STRING=")
          h_data.req_line_data.query_string with
      | none => exact absurd e2 hquery
      | some query_env => simp [hget]
    · rw [if_neg (fun hc => hget ((strcasecmp_eq_zero _ _).mp hc))]
      cases e3 : sprintf_d (List.replicate 20 0) (bytes "CONTENT_LENGTH=")
          h_data.content_length with
      | none =>
        rw [e3] at hlength
        simp only [ne_eq, not_true_eq_false, false_iff] at hlength
        simp [hget, hlength]
      | some length_env =>
        rw [e3] at hlength
        simp only [ne_eq, reduceCtorEq, not_false_eq_true, true_iff] at hlength
        simp [hget, hlength]

set_option maxRecDepth 100000 in
/-- C19 at failing inputs: a POST with content length 10000, and one with
2147483647. `CONTENT_LENGTH=10000` and its NUL take 21 bytes, `length_env` has
20: the `sprintf` of line 636 writes past the end of the buffer, and the
environment has no defined value. With content length 9999 the strings are
`REQUEST_METHOD=POST` and `CONTENT_LENGTH=9999`. -/
theorem length_env_overflow :
    (bytes "CONTENT_LENGTH=" ++ fmt_d 10000 ++ [0]).length = 21 ∧
    cgi_child_env
      { req_line_data := { method := bytes "POST\x00\x00\x00\x00\x00\x00",
                           path := bytes "htdocs/a.cgi", query_string := [], cgi := 1 },
        content_length := 10000 } = none ∧
    cgi_child_env
      { req_line_data := { method := bytes "POST\x00\x00\x00\x00\x00\x00",
                           path := bytes "htdocs/a.cgi", query_string := [], cgi := 1 },
        content_length := 2147483647 } = none ∧
    (cgi_child_env
      { req_line_data := { method := bytes "POST\x00\x00\x00\x00\x00\x00",
                           path := bytes "htdocs/a.cgi", query_string := [], cgi := 1 },
        content_length := 9999 }).map (fun env => env.map cstr)
      = some [bytes "REQUEST_METHOD=POST", bytes "CONTENT_LENGTH=9999"] := by
  decide


/-! ## Request-line parser: the query string -/

/-- The `query_string` field of every defined result of the parse into the zeroed
record. -/
theorem analyze_some_query (sock : List Nat) (r : http_request_line_data_t)
    (h : (httpd_request_line_analyze sock zeroed_line_data).1 = some r) :
    r.query_string =
      if ci_eq r.method (bytes "GET") ∧ 63 ∈ cstr (raw_url (line_buffer sock)) then
        spec_query r.method (cstr (raw_url (line_buffer sock))) zeroed_line_data.query_string ++
          0 :: zeroed_line_data.query_string.drop
            ((spec_query r.method (cstr (raw_url (line_buffer sock)))
              zeroed_line_data.query_string).length + 1)
      else zeroed_line_data.query_string := by
  rw [analyze_eq] at h
  simp only at h
  rw [request_line_parse_eq _ _ (line_buffer_length sock) zeroed_lengths.1 zeroed_lengths.2.1
    zeroed_lengths.2.2] at h
  split at h
  · have h2 := Option.some.inj h
    subst h2
    rfl
  · exact absurd h (by simp)

theorem zeroed_query_empty : cstr zeroed_line_data.query_string = [] := by
  have e : zeroed_line_data.query_string = 0 :: List.replicate 254 0 := rfl
  rw [e, cstr_cons, if_pos rfl]

/-- Within the capacity of the path field: whenever the parse into the zeroed
record has a result, its query string is non-empty only if the method is
case-insensitively GET and the URL token of the line contains `?`; and when the
method is case-insensitively POST the query string is empty and the path is
`htdocs` followed by the whole URL token, a `?` and what follows it included
(and by `index.html` when that ends in `/`). -/
theorem analyze_query_string (sock : List Nat) (r : http_request_line_data_t)
    (h : (httpd_request_line_analyze sock zeroed_line_data).1 = some r) :
    (cstr r.query_string ≠ [] →
      ci_eq r.method (bytes "GET") ∧ 63 ∈ cstr (url_token (line_buffer sock))) ∧
    (ci_eq r.method (bytes "POST") →
      cstr r.query_string = [] ∧
      cstr r.path = spec_path (cstr (url_token (line_buffer sock)))) := by
  have hq := analyze_some_query sock r h
  obtain ⟨h1, -, h3, -⟩ := analyze_some sock r h
  constructor
  · intro hne
    by_cases hc : ci_eq r.method (bytes "GET") ∧ 63 ∈ cstr (raw_url (line_buffer sock))
    · refine ⟨hc.1, ?_⟩
      have hin := hc.2
      rw [raw_url_eq_take, cstr_take] at hin
      exact List.mem_of_mem_take hin
    · rw [if_neg hc] at hq
      rw [hq, zeroed_query_empty] at hne
      exact absurd rfl hne
  · intro hpost
    have hget : ¬ ci_eq r.method (bytes "GET") := fun hg => get_not_post _ hg hpost
    rw [if_neg (fun hc => hget hc.1)] at hq
    have hu : spec_url r.method (cstr (raw_url (line_buffer sock)))
        = cstr (raw_url (line_buffer sock)) := by
      unfold spec_url
      rw [if_neg hget]
    rw [hu] at h1 h3
    have h5 := spec_path_length (cstr (raw_url (line_buffer sock)))
    have h6 : (cstr (raw_url (line_buffer sock))).length < 254 := by omega
    rw [raw_url_eq_take, cstr_take, List.length_take] at h6
    have h7 : (cstr (url_token (line_buffer sock))).take 254
        = cstr (url_token (line_buffer sock)) := List.take_of_length_le (by omega)
    refine ⟨by rw [hq]; exact zeroed_query_empty, ?_⟩
    rw [h3, raw_url_eq_take, cstr_take, h7]

set_option maxRecDepth 100000 in
/-- The example of a POST with a `?` in its URL: the query string stays empty and
the path holds the whole URL. -/
theorem analyze_post_query_witness :
    (httpd_request_line_analyze (bytes "POST /a.cgi?x=1 HTTP/1.0\r\n") zeroed_line_data).1.map
      (fun r => (cstr r.method, cstr r.path, cstr r.query_string, r.cgi))
      = some (bytes "POST", bytes "htdocs/a.cgi?x=1", [], 1) := by decide

set_option maxRecDepth 100000 in
/-- C21 at failing inputs: `POST /aaa...a?x HTTP/1.0` with a URL token of 253
characters, and `GET /aaa...a HTTP/1.0` with a URL token of 254 characters
without `?`. The path asked for has 259, respectively 260 characters: the
`sprintf` of line 278 writes past the 255-byte `path` field, which the
`query_string` field follows in the record, and the parse has no defined
result. -/
theorem long_url_clobbers_query_string :
    (spec_path (bytes "/" ++ List.replicate 250 97 ++ bytes "?x")).length = 259 ∧
    httpd_request_line_analyze
      (bytes "POST" ++ bytes " " ++ (bytes "/" ++ List.replicate 250 97 ++ bytes "?x") ++
        bytes " HTTP/1.0" ++ bytes "\r\n" ++ []) zeroed_line_data = (none, []) ∧
    (spec_path (bytes "/" ++ List.replicate 253 97)).length = 260 ∧
    httpd_request_line_analyze
      (bytes "GET" ++ bytes " " ++ (bytes "/" ++ List.replicate 253 97) ++
        bytes " HTTP/1.0" ++ bytes "\r\n" ++ []) zeroed_line_data = (none, []) := by
  refine ⟨by decide, ?_, by decide, ?_⟩
  · rw [analyze_line (bytes "POST") (bytes " ")
      (bytes "/" ++ List.replicate 250 97 ++ bytes "?x")
      (bytes " HTTP/1.0") (bytes "\r\n") [] zeroed_line_data (by decide) (by decide) (by decide)
      (by decide) (by decide) (by decide) (by decide) (by decide) (by decide) (by decide)
      zeroed_lengths.1 zeroed_lengths.2.1 zeroed_lengths.2.2]
    rw [if_neg (by decide)]
  · rw [analyze_line (bytes "GET") (bytes " ") (bytes "/" ++ List.replicate 253 97)
      (bytes " HTTP/1.0") (bytes "\r\n") [] zeroed_line_data (by decide) (by decide) (by decide)
      (by decide) (by decide) (by decide) (by decide) (by decide) (by decide) (by decide)
      zeroed_lengths.1 zeroed_lengths.2.1 zeroed_lengths.2.2]
    rw [if_neg (by decide)]


/-! ## Request-line parser: the bounds of the indices read and written -/

theorem scan_method_writes_bound (buf : List Nat) :
    ∀ (fuel i j : Nat), i + fuel ≤ 9 → ∀ k ∈ scan_method_writes buf fuel i j, k ≤ 9 := by
  intro fuel
  induction fuel with
  | zero =>
    intro i j h k hk
    simp only [scan_method_writes, List.mem_singleton] at hk
    omega
  | succ f ih =>
    intro i j h k hk
    rw [scan_method_writes] at hk
    split at hk
    · rcases List.mem_cons.mp hk with rfl | hk
      · omega
      · exact ih (i + 1) (j + 1) (by omega) k hk
    · simp only [List.mem_singleton] at hk
      omega

theorem scan_url_writes_bound (buf : List Nat) :
    ∀ (fuel i j : Nat), i + fuel ≤ 254 → ∀ k ∈ scan_url_writes buf fuel i j, k ≤ 254 := by
  intro fuel
  induction fuel with
  | zero =>
    intro i j h k hk
    simp only [scan_url_writes, List.mem_singleton] at hk
    omega
  | succ f ih =>
    intro i j h k hk
    rw [scan_url_writes] at hk
    split at hk
    · rcases List.mem_cons.mp hk with rfl | hk
      · omega
      · exact ih (i + 1) (j + 1) (by omega) k hk
    · simp only [List.mem_singleton] at hk
      omega

theorem scan_method_reads_bound (buf : List Nat) :
    ∀ (fuel i j : Nat), ∀ k ∈ scan_method_reads buf fuel i j, k < j + fuel := by
  intro fuel
  induction fuel with
  | zero => intro i j k hk; simp [scan_method_reads] at hk
  | succ f ih =>
    intro i j k hk
    rw [scan_method_reads] at hk
    rcases List.mem_cons.mp hk with rfl | hk
    · omega
    · split at hk
      · have := ih (i + 1) (j + 1) k hk
        omega
      · simp at hk

/-- The second loop stops at the latest at index 1023 when the byte there is not
white space. -/
theorem skip_space_reads_bound (buf : List Nat) (h : isspace (buf.getD 1023 0) = false) :
    ∀ (fuel j : Nat), j ≤ 1023 → ∀ k ∈ skip_space_reads buf fuel j, k ≤ 1023 := by
  intro fuel
  induction fuel with
  | zero => intro j _ k hk; simp [skip_space_reads] at hk
  | succ f ih =>
    intro j hj k hk
    rw [skip_space_reads] at hk
    rcases List.mem_cons.mp hk with rfl | hk
    · exact hj
    · split at hk
      · rename_i hc
        have hne : j ≠ 1023 := by
          intro e
          rw [e, h] at hc
          exact absurd hc.1 (by decide)
        exact ih (j + 1) (by omega) k hk
      · simp at hk

theorem scan_url_reads_bound (buf : List Nat) :
    ∀ (fuel i j : Nat), ∀ k ∈ scan_url_reads buf fuel i j,
      k < j + fuel ∧ (j ≤ 1024 → k ≤ 1024) := by
  intro fuel
  induction fuel with
  | zero => intro i j k hk; simp [scan_url_reads] at hk
  | succ f ih =>
    intro i j k hk
    rw [scan_url_reads] at hk
    rcases List.mem_cons.mp hk with rfl | hk
    · exact ⟨by omega, fun h => h⟩
    · split at hk
      · rename_i hc
        obtain ⟨h1, h2⟩ := ih (i + 1) (j + 1) k hk
        exact ⟨by omega, fun _ => h2 (by omega)⟩
      · simp at hk

/-- Over a run of `k` bytes that are not white space, with room left in `url` and
in the buffer, the third loop goes on and reads `buf[j + k]`. -/
theorem scan_url_reads_run (buf : List Nat) (hb : buf.length = 1024) :
    ∀ (k fuel i j : Nat), k < fuel → i + k ≤ 254 → j + k ≤ 1024 →
      (∀ b ∈ (buf.drop j).take k, isspace b = false) →
      j + k ∈ scan_url_reads buf fuel i j := by
  intro k
  induction k with
  | zero =>
    intro fuel i j hf _ _ _
    obtain ⟨f, rfl⟩ : ∃ f, fuel = f + 1 := ⟨fuel - 1, by omega⟩
    rw [scan_url_reads]
    exact List.mem_cons_self _ _
  | succ k ih =>
    intro fuel i j hf hi hj hs
    obtain ⟨f, rfl⟩ : ∃ f, fuel = f + 1 := ⟨fuel - 1, by omega⟩
    rw [getD_eq_head_drop buf j (by omega), List.take_succ_cons] at hs
    have h0 : isspace (buf.getD j 0) = false := hs _ (List.mem_cons_self _ _)
    rw [scan_url_reads, if_pos ⟨by rw [h0]; rfl, by omega, by omega⟩]
    apply List.mem_cons_of_mem
    have := ih f (i + 1) (j + 1) (by omega) (by omega) (by omega)
      (fun b hb => hs b (List.mem_cons_of_mem _ hb))
    rw [show j + (k + 1) = j + 1 + k by omega]
    exact this


/-! ## Line reader: a line without terminator -/

/-- A line that is cut by the end of the data, or that fills the buffer before
its terminator arrives, is stored without a line feed. -/
theorem get_line_unterminated (size : Nat) (s t buf : List Nat)
    (hs : ∀ b ∈ s, b ≠ 13 ∧ b ≠ 10) (h1 : s.length ≤ size - 1) (h2 : s.length < buf.length)
    (ht : t = [] ∨ s.length = size - 1) :
    httpd_get_line_message (s ++ t) buf size
      = (s ++ 0 :: buf.drop (s.length + 1), s.length, t) := by
  obtain ⟨c2, hc2, e⟩ := get_line_loop_plain size s t buf 0 0 hs (by decide)
    (by omega) (by omega)
  have hloop : httpd_get_line_loop size t (blit buf 0 s) (0 + s.length) c2
      = (blit buf 0 s, 0 + s.length, t) := by
    rcases ht with rfl | hfull
    · simp [httpd_get_line_loop]
    · exact get_line_loop_full _ _ _ _ _ (by omega)
  unfold httpd_get_line_message
  rw [e, hloop]
  simp only [Nat.zero_add]
  have e1 := blit_set buf s 0 0 (by omega)
  simp only [Nat.zero_add] at e1
  rw [e1, blit_zero]
  simp

theorem line_buffer_unterminated (s t : List Nat) (hs : ∀ b ∈ s, b ≠ 13 ∧ b ≠ 10)
    (h1 : s.length ≤ 1023) (ht : t = [] ∨ s.length = 1023) :
    line_buffer (s ++ t) = s ++ List.replicate (1024 - s.length) 0 := by
  unfold line_buffer
  rw [get_line_unterminated 1024 s t _ hs (by omega)
    (by rw [List.length_replicate]; omega) ht]
  simp only
  rw [List.drop_replicate, ← List.replicate_succ]
  congr 2
  omega

/-- The last byte of the line buffer is NUL. -/
theorem line_buffer_last (sock : List Nat) : (line_buffer sock).getD 1023 0 = 0 := by
  have hz : (List.replicate 1024 0).length = 1024 := List.length_replicate _ _
  have hz2 : (List.replicate 1024 0)[1023]? = some 0 := by
    rw [List.getElem?_replicate]
    simp
  have e : line_buffer sock =
      (httpd_get_line_loop 1024 sock (List.replicate 1024 0) 0 0).1.set
        (httpd_get_line_loop 1024 sock (List.replicate 1024 0) 0 0).2.1 0 := rfl
  obtain ⟨-, u2, u3, u4, -⟩ := get_line_loop_bounds 1024 sock (List.replicate 1024 0) 0 0
    (Nat.zero_le _)
  rw [e, List.getD_eq_getElem?_getD]
  generalize List.replicate 1024 0 = Z at hz hz2 u2 u3 u4 ⊢
  generalize (httpd_get_line_loop 1024 sock Z 0 0).2.1 = n at u2 u4 ⊢
  generalize (httpd_get_line_loop 1024 sock Z 0 0).1 = r at u3 u4 ⊢
  rw [List.getElem?_set]
  by_cases hn : n = 1023
  · rw [if_pos hn]
    simp [u3, hz, hn]
  · rw [if_neg hn, u4 1023 (Or.inr (by omega)), hz2]
    rfl


/-! ## Request-line parser: the fuel of the read traces is enough -/

theorem scan_method_reads_fuel (buf : List Nat) :
    ∀ (fuel i j : Nat), 10 - i ≤ fuel → i ≤ 9 →
      scan_method_reads buf (fuel + 1) i j = scan_method_reads buf fuel i j := by
  intro fuel
  induction fuel with
  | zero => intro i j h1 h2; omega
  | succ f ih =>
    intro i j h1 h2
    rw [scan_method_reads]
    conv_rhs => rw [scan_method_reads]
    congr 1
    split
    · rename_i hc
      exact ih (i + 1) (j + 1) (by omega) (by omega)
    · rfl

theorem skip_space_reads_fuel (buf : List Nat) :
    ∀ (fuel j : Nat), 1025 - j ≤ fuel → j ≤ 1024 →
      skip_space_reads buf (fuel + 1) j = skip_space_reads buf fuel j := by
  intro fuel
  induction fuel with
  | zero => intro j h1 h2; omega
  | succ f ih =>
    intro j h1 h2
    rw [skip_space_reads]
    conv_rhs => rw [skip_space_reads]
    congr 1
    split
    · rename_i hc
      exact ih (j + 1) (by omega) (by omega)
    · rfl

theorem scan_url_reads_fuel (buf : List Nat) :
    ∀ (fuel i j : Nat), 255 - i ≤ fuel → i ≤ 254 →
      scan_url_reads buf (fuel + 1) i j = scan_url_reads buf fuel i j := by
  intro fuel
  induction fuel with
  | zero => intro i j h1 h2; omega
  | succ f ih =>
    intro i j h1 h2
    rw [scan_url_reads]
    conv_rhs => rw [scan_url_reads]
    congr 1
    split
    · rename_i hc
      exact ih (i + 1) (j + 1) (by omega) (by omega)
    · rfl

/-! ## Request-line parser: where the third loop starts -/

theorem scan_method_end (buf : List Nat) (hb : buf.length = 1024) :
    (scan_method buf 9 (List.replicate 10 0) 0 0).2.2 = (raw_method buf).length := by
  rw [scan_method_eq buf 9 _ 0 0 (by omega) (by omega) (by rw [List.length_replicate]; omega)]
  simp only [Nat.zero_add, List.drop_zero, Nat.sub_zero]
  rfl

theorem url_start_eq (buf : List Nat) (hb : buf.length = 1024) :
    url_start buf = (raw_method buf).length
      + ((buf.drop (raw_method buf).length).takeWhile isspace).length := by
  unfold url_start
  rw [scan_method_end buf hb, skip_space_eq buf (by omega) 1024 _ (by omega)]

theorem url_start_le (buf : List Nat) (hb : buf.length = 1024) : url_start buf ≤ 1024 := by
  rw [url_start_eq buf hb]
  have h1 := (List.takeWhile_sublist isspace
    (l := buf.drop (raw_method buf).length)).length_le
  rw [List.length_drop] at h1
  have h2 := raw_method_length buf
  omega

/-- For every line buffer the line reader produces: every write to `method` has
an index of at most 9, every write to `url` one of at most 254, every read of
the first two loops one of at most 1023, every read of the third loop one of at
most 1024; and when the third loop starts before index 770 all its reads have an
index of at most 1023. -/
theorem request_line_accesses (sock : List Nat) :
    (∀ k ∈ request_line_method_writes (line_buffer sock), k ≤ 9) ∧
    (∀ k ∈ request_line_url_writes (line_buffer sock), k ≤ 254) ∧
    (∀ k ∈ scan_method_reads (line_buffer sock) 10 0 0, k ≤ 1023) ∧
    (∀ k ∈ skip_space_reads (line_buffer sock) 1025
        (scan_method (line_buffer sock) 9 (List.replicate 10 0) 0 0).2.2, k ≤ 1023) ∧
    (∀ k ∈ request_line_reads (line_buffer sock), k ≤ 1024) ∧
    (url_start (line_buffer sock) < 770 → ∀ k ∈ request_line_reads (line_buffer sock), k ≤ 1023) := by
  have hb := line_buffer_length sock
  have hlast : isspace ((line_buffer sock).getD 1023 0) = false := by
    rw [line_buffer_last]; decide
  have hj : (scan_method (line_buffer sock) 9 (List.replicate 10 0) 0 0).2.2 ≤ 9 := by
    rw [scan_method_end _ hb]; exact raw_method_length _
  have r1 : ∀ k ∈ scan_method_reads (line_buffer sock) 10 0 0, k ≤ 1023 := by
    intro k hk
    have := scan_method_reads_bound _ 10 0 0 k hk
    omega
  have r2 : ∀ k ∈ skip_space_reads (line_buffer sock) 1025
      (scan_method (line_buffer sock) 9 (List.replicate 10 0) 0 0).2.2, k ≤ 1023 :=
    skip_space_reads_bound _ hlast 1025 _ (by omega)
  refine ⟨scan_method_writes_bound _ 9 0 0 (by omega),
    scan_url_writes_bound _ 254 0 _ (by omega), r1, r2, ?_, ?_⟩
  · intro k hk
    unfold request_line_reads at hk
    rcases List.mem_append.mp hk with hk | hk
    · rcases List.mem_append.mp hk with hk | hk
      · have := r1 k hk; omega
      · have := r2 k hk; omega
    · exact (scan_url_reads_bound _ 255 0 _ k hk).2 (url_start_le _ hb)
  · intro hstart k hk
    unfold request_line_reads at hk
    rcases List.mem_append.mp hk with hk | hk
    · rcases List.mem_append.mp hk with hk | hk
      · exact r1 k hk
      · exact r2 k hk
    · have := (scan_url_reads_bound _ 255 0 _ k hk).1
      omega


/-! ## Request-line parser: the read past the end of the line buffer -/

theorem url_start_of_tokens (m ws rest : List Nat)
    (hm : ∀ b ∈ m, isspace b = false) (hml : m.length ≤ 9)
    (hws : ∀ b ∈ ws, isspace b = true) (hwsne : ws ≠ [])
    (hrest : ∀ b ∈ rest.head?, isspace b = false)
    (hb : (m ++ ws ++ rest).length = 1024) :
    url_start (m ++ ws ++ rest) = m.length + ws.length := by
  obtain ⟨w, ws2, rfl⟩ := List.exists_cons_of_ne_nil hwsne
  have hw : isspace w = true := hws w (List.mem_cons_self _ _)
  have e1 : raw_method (m ++ w :: ws2 ++ rest) = m := by
    unfold raw_method
    rw [List.append_assoc,
      List.takeWhile_append_of_pos (by intro b hb; simp [hm b hb])]
    rw [List.cons_append, List.takeWhile_cons_of_neg (by simp [hw]), List.append_nil]
    exact List.take_of_length_le hml
  rw [url_start_eq _ hb, e1]
  congr 1
  rw [List.append_assoc, List.drop_left, List.takeWhile_append_of_pos hws]
  cases rest with
  | nil => simp
  | cons x rest2 =>
    have hx : isspace x = false := hrest x (by simp)
    rw [List.takeWhile_cons_of_neg (by simp [hx])]
    simp

/-- A line whose URL token starts at index 770 or later and is followed by no
white space in the buffer (the data ends there, or the line fills the buffer):
the third loop reads `buf[1024]`. -/
theorem url_loop_overrun (m ws u t : List Nat)
    (hm : ∀ b ∈ m, isspace b = false) (hml : m.length ≤ 9)
    (hws : ∀ b ∈ ws, isspace b = true ∧ b ≠ 13 ∧ b ≠ 10) (hwsne : ws ≠ [])
    (hu : ∀ b ∈ u, isspace b = false)
    (hstart : 770 ≤ m.length + ws.length)
    (hlen : (m ++ ws ++ u).length ≤ 1023)
    (ht : t = [] ∨ (m ++ ws ++ u).length = 1023) :
    1024 ∈ request_line_reads (line_buffer (m ++ ws ++ u ++ t)) := by
  have hline : ∀ b ∈ m ++ ws ++ u, b ≠ 13 ∧ b ≠ 10 := by
    intro b hb
    simp only [List.mem_append] at hb
    rcases hb with (h | h) | h
    · exact isspace_cr_lf b (hm b h)
    · exact (hws b h).2
    · exact isspace_cr_lf b (hu b h)
  rw [line_buffer_unterminated _ t hline hlen ht]
  generalize hZ : List.replicate (1024 - (m ++ ws ++ u).length) 0 = Z
  have hZl : Z.length = 1024 - (m ++ ws ++ u).length := by
    rw [← hZ, List.length_replicate]
  have hZ0 : ∀ b ∈ Z, isspace b = false := by
    intro b hb
    rw [← hZ] at hb
    rw [List.eq_of_mem_replicate hb]
    decide
  have hrest : ∀ b ∈ u ++ Z, isspace b = false := by
    intro b hb
    rcases List.mem_append.mp hb with h | h
    · exact hu b h
    · exact hZ0 b h
  have e : m ++ ws ++ u ++ Z = m ++ ws ++ (u ++ Z) := by simp [List.append_assoc]
  have hbl : (m ++ ws ++ (u ++ Z)).length = 1024 := by
    simp only [List.length_append] at hlen hZl ⊢
    omega
  rw [e]
  have hs := url_start_of_tokens m ws (u ++ Z) hm hml (fun b hb => (hws b hb).1) hwsne
    (fun b hb => hrest b (List.mem_of_mem_head? hb)) hbl
  unfold request_line_reads
  apply List.mem_append_right
  rw [hs]
  have hlen2 : m.length + ws.length + u.length ≤ 1023 := by
    simpa only [List.length_append] using hlen
  have hdrop : (m ++ ws ++ (u ++ Z)).drop (m.length + ws.length) = u ++ Z := by
    rw [show m.length + ws.length = (m ++ ws).length by simp]
    exact List.drop_left _ _
  have := scan_url_reads_run _ hbl (1024 - (m.length + ws.length)) 255 0
    (m.length + ws.length) (by omega) (by omega) (by omega)
    (by
      rw [hdrop]
      intro b hb
      exact hrest b (List.mem_of_mem_take hb))
  rw [show m.length + ws.length + (1024 - (m.length + ws.length)) = 1024 by omega] at this
  exact this

/-- C22 at failing inputs. First, the connection gives `GET`, 767 spaces and `/`
and then no more data: the line buffer holds these 771 bytes and is zero-filled
beyond. Second, a request line of `GET`, 767 spaces and a URL of 301 characters:
the line buffer holds its first 1023 bytes and the NUL. In both the third loop
starts at index 770 and meets no white space up to index 1023, so its condition
is tested once more with `j = 1024` and `i = 254`, and that test reads
`buf[1024]`, one past the end of the buffer, before it compares `j` with
`sizeof(buf)`. -/
theorem url_loop_reads_past_buffer :
    1024 ∈ request_line_reads
      (line_buffer (bytes "GET" ++ List.replicate 767 32 ++ bytes "/" ++ [])) ∧
    1024 ∈ request_line_reads
      (line_buffer (bytes "GET" ++ List.replicate 767 32 ++ (bytes "/" ++ List.replicate 252 97)
        ++ (List.replicate 48 97 ++ bytes " HTTP/1.0\r\n"))) := by
  have hsp : ∀ b ∈ List.replicate 767 32, isspace b = true ∧ b ≠ 13 ∧ b ≠ 10 := by
    intro b hb
    rw [List.eq_of_mem_replicate hb]
    decide
  have hne : List.replicate 767 32 ≠ [] := by
    intro h
    have := congrArg List.length h
    rw [List.length_replicate, List.length_nil] at this
    omega
  have hu2 : ∀ b ∈ bytes "/" ++ List.replicate 252 97, isspace b = false := by
    intro b hb
    rcases List.mem_append.mp hb with h | h
    · exact (by decide : ∀ b ∈ bytes "/", isspace b = false) b h
    · rw [List.eq_of_mem_replicate h]; decide
  have l1 : (bytes "GET").length = 3 := by decide
  have l2 : (bytes "/").length = 1 := by decide
  constructor
  · exact url_loop_overrun (bytes "GET") (List.replicate 767 32) (bytes "/") [] (by decide)
      (by decide) hsp hne (by decide)
      (by rw [List.length_replicate, l1])
      (by simp only [List.length_append, List.length_replicate, l1, l2, Nat.reduceAdd,
        Nat.reduceLeDiff])
      (Or.inl rfl)
  · exact url_loop_overrun (bytes "GET") (List.replicate 767 32)
      (bytes "/" ++ List.replicate 252 97) (List.replicate 48 97 ++ bytes " HTTP/1.0\r\n")
      (by decide) (by decide) hsp hne hu2
      (by rw [List.length_replicate, l1])
      (by simp only [List.length_append, List.length_replicate, l1, l2, Nat.reduceAdd,
        Nat.reduceLeDiff, Nat.le_refl])
      (Or.inr (by simp only [List.length_append, List.length_replicate, l1, l2, Nat.reduceAdd]))


/-! ## Request-line parser: the record as it lies in memory, in closed form -/

/-- On a stream every read of which fails, the loop of lines 553-558 does not
end: whatever the bound on its iterations, it has no result. -/
theorem send_file_unreadable_no_return (fuel : Nat) :
    ∀ (buf client : List Nat), send_file_loop_unreadable fuel buf client = none := by
  induction fuel with
  | zero => intro buf client; rfl
  | succ f ih =>
    intro buf client
    rw [send_file_loop_unreadable]
    exact ih _ _

end TinyHttp
